import Mathlib

/-!
Verification development for the `repair-json-stream` repository.

The batch repair automaton (`src/repair-json.ts`) and the incremental
engine (`IncrementalJsonRepair`) are embedded shallowly: strings become
`List Char` (indexed by UTF-16-free code points via `Char.toNat`, which
agrees with `charCodeAt` on every character exercised here), the mutable
scanner state becomes an explicit structure threaded through a structurally
recursive scan, and the single output-buffer retraction that the source
performs without a bounds check is guarded with `Option`.
-/

set_option maxRecDepth 10000

/-- Embeds `isQuoteChar` from `src/repair-json.ts`: double/single ASCII
quotes and the four curly Unicode quote glyphs. -/
def isQuoteChar (c : Nat) : Bool :=
  c == 34 || c == 39 || c == 8220 || c == 8221 || c == 8216 || c == 8217

/-- Embeds `isIdentifierStart`: ASCII letters, underscore, dollar. -/
def isIdentifierStart (c : Nat) : Bool :=
  (65 ≤ c && c ≤ 90) || (97 ≤ c && c ≤ 122) || c == 95 || c == 36

/-- Embeds `isIdentifierChar`: identifier start or decimal digit. -/
def isIdentifierChar (c : Nat) : Bool :=
  isIdentifierStart c || (48 ≤ c && c ≤ 57)

/-- Embeds `isWhitespace`: ASCII whitespace plus the listed Unicode
space variants. -/
def isWhitespace (c : Nat) : Bool :=
  c == 32 || c == 9 || c == 10 || c == 13 ||
  c == 160 || c == 8239 || c == 8287 || c == 12288

/-- Embeds the `INCOMPLETE_LITERALS` completion table: every strict prefix
of `true`/`false`/`null` and the Python-style capitalized forms. -/
def INCOMPLETE_LITERALS (s : String) : Option String :=
  match s with
  | "t" => some "true" | "tr" => some "true" | "tru" => some "true"
  | "f" => some "false" | "fa" => some "false" | "fal" => some "false"
  | "fals" => some "false"
  | "n" => some "null" | "nu" => some "null" | "nul" => some "null"
  | "N" => some "null" | "No" => some "null" | "Non" => some "null"
  | "None" => some "null"
  | "T" => some "true" | "Tr" => some "true" | "Tru" => some "true"
  | "True" => some "true"
  | "F" => some "false" | "Fa" => some "false" | "Fal" => some "false"
  | "Fals" => some "false" | "False" => some "false"
  | _ => none

/-- Embeds the `MONGO_WRAPPERS` set of strippable constructor names. -/
def MONGO_WRAPPERS : List String :=
  ["NumberLong", "NumberInt", "NumberDecimal", "ObjectId", "ISODate",
   "Date", "Timestamp", "BinData", "UUID", "DBRef", "MinKey", "MaxKey",
   "RegExp"]

/-- Whitespace per JavaScript `String.prototype.trim` (used only for the
batch function's empty-input early return). -/
def isJsTrimWhitespace (c : Nat) : Bool :=
  c == 9 || c == 10 || c == 11 || c == 12 || c == 13 || c == 32 ||
  c == 160 || c == 5760 || (8192 ≤ c && c ≤ 8202) || c == 8232 ||
  c == 8233 || c == 8239 || c == 8287 || c == 12288 || c == 65279

/-- `input.trim().length === 0` for the early return of `repairJson`. -/
def jsTrimEmpty (l : List Char) : Bool :=
  l.all (fun c => isJsTrimWhitespace c.toNat)

/-- Left-to-right non-overlapping global replacement of the two-character
pattern `\x5c` + `x` by the single character `y`, as performed by the
`String.replace(/.../g, ...)` calls of the escaped-JSON preprocessing. -/
def replaceEsc (x y : Char) : List Char → List Char
  | '\x5c' :: d :: r =>
      if d = x then y :: replaceEsc x y r
      else '\x5c' :: replaceEsc x y (d :: r)
  | c :: r => c :: replaceEsc x y r
  | [] => []

/-- Content before the first occurrence of a triple backtick, if any
(`String.indexOf` of the closing fence). -/
def contentBeforeFence : List Char → Option (List Char)
  | '\x60' :: '\x60' :: '\x60' :: _ => some []
  | c :: r => (contentBeforeFence r).map (c :: ·)
  | [] => none

/-- Step 1 of `preprocessJson`: strip a leading fenced code block. -/
def stripFence (l : List Char) : List Char :=
  let t := l.dropWhile (fun c => isWhitespace c.toNat)
  match t with
  | '\x60' :: '\x60' :: '\x60' :: afterTicks =>
      let afterLang := afterTicks.dropWhile (fun c => c ≠ '\n' ∧ c ≠ '\r')
      let content := afterLang.tail
      match contentBeforeFence content with
      | some inner => inner
      | none => content
  | _ => l

/-- Step 2 of `preprocessJson`: strip a JSONP `callback( ... )` wrapper
when the call's first argument token is `\x7b` or `[`. -/
def stripJsonp (l : List Char) : List Char :=
  let t := l.dropWhile (fun c => isWhitespace c.toNat)
  match t.head? with
  | some c0 =>
    if isIdentifierStart c0.toNat then
      let afterId := t.dropWhile (fun c => isIdentifierChar c.toNat)
      let afterWs := afterId.dropWhile (fun c => isWhitespace c.toNat)
      match afterWs with
      | '(' :: afterParen =>
        let payload := afterParen.dropWhile (fun c => isWhitespace c.toNat)
        match payload.head? with
        | some p0 =>
          if p0 = '\x7b' ∨ p0 = '[' then
            let rev := payload.reverse
            let r1 := rev.dropWhile (fun c => isWhitespace c.toNat)
            let r2 := match r1 with
                      | ';' :: r => r
                      | _ => r1
            let r3 := r2.dropWhile (fun c => isWhitespace c.toNat)
            let r4 := match r3 with
                      | ')' :: r => r
                      | _ => r3
            r4.reverse
          else l
        | none => l
      | _ => l
    else l
  | none => l

/-- Step 3 of `preprocessJson`: if the first two non-whitespace characters
are `\x7b` or `[` followed by a backslash, globally unescape
`\x5c\x22`, `\x5c\x5c`, `\x5cn`, `\x5cr`, `\x5ct`. -/
def unescapeIfEscapedJson (l : List Char) : List Char :=
  let t := l.dropWhile (fun c => isWhitespace c.toNat)
  match t with
  | a :: b :: _ =>
      if (a = '\x7b' ∨ a = '[') ∧ b = '\x5c' then
        replaceEsc 't' '\t'
          (replaceEsc 'r' '\x0d'
            (replaceEsc 'n' '\n'
              (replaceEsc '\x5c' '\x5c'
                (replaceEsc '\x22' '\x22' l))))
      else l
  | _ => l

/-- Embeds `preprocessJson`: fence stripping, then JSONP stripping, then
escaped-JSON unescaping. -/
def preprocessJson (input : String) : String :=
  String.mk (unescapeIfEscapedJson (stripJsonp (stripFence input.data)))

/-- Context tags of the stack-based state machine (`ContextType`). -/
inductive ContextType where
  | OBJECT
  | ARRAY
  | STRING
deriving DecidableEq, Repr

/-- The mutable local state of the batch `repairJson` scan loop.  The
output buffer is kept reversed (`out.head?` is the most recently written
character); `currentValue` and `unquotedKey` are kept in order. -/
structure BState where
  out : List Char
  stack : List ContextType
  inString : Bool
  stringQuote : Char
  escaped : Bool
  inObjectKey : Bool
  needsColon : Bool
  expectingValue : Bool
  expectingKeyOrEnd : Bool
  inValue : Bool
  currentValue : String
  inUnquotedKey : Bool
  unquotedKey : String
  inSingleLineComment : Bool
  inMultiLineComment : Bool
  justClosedString : Bool
  rootElementCount : Nat
  inMongoWrapper : Bool
  mongoParenDepth : Int
deriving Repr

/-- Initial batch scan state. -/
def initB : BState where
  out := []
  stack := []
  inString := false
  stringQuote := '\x22'
  escaped := false
  inObjectKey := false
  needsColon := false
  expectingValue := false
  expectingKeyOrEnd := false
  inValue := false
  currentValue := ""
  inUnquotedKey := false
  unquotedKey := ""
  inSingleLineComment := false
  inMultiLineComment := false
  justClosedString := false
  rootElementCount := 0
  inMongoWrapper := false
  mongoParenDepth := 0

/-- `removeTrailingCommaFromBuffer` on the reversed buffer: drop one comma
sitting under the trailing whitespace run, keeping the whitespace. -/
def removeTrailingCommaRev (out : List Char) : List Char :=
  let isBufWs := fun c => c = ' ' ∨ c = '\t' ∨ c = '\n' ∨ c = '\x0d'
  match out.dropWhile isBufWs with
  | ',' :: s => out.takeWhile isBufWs ++ s
  | _ => out

/-- The `inMongoWrapper` pre-step of the batch loop body (lines 333-345):
returns the updated state and whether the loop `continue`d. -/
def mongoStep (s : BState) (c : Char) : BState × Bool :=
  if s.inMongoWrapper then
    if c = '(' then
      let d := s.mongoParenDepth + 1
      ({ s with mongoParenDepth := d }, d == 1)
    else if c = ')' then
      let d := s.mongoParenDepth - 1
      if d == 0 then ({ s with mongoParenDepth := d, inMongoWrapper := false }, true)
      else ({ s with mongoParenDepth := d }, false)
    else (s, false)
  else (s, false)

/-- The `inString` branch of the batch loop body (lines 347-374). -/
def stringStepB (s : BState) (c : Char) : BState :=
  if s.escaped then
    { s with out := c :: s.out, escaped := false }
  else if c = '\x5c' then
    { s with out := c :: s.out, escaped := true }
  else if c.toNat == s.stringQuote.toNat ∨
          (s.stringQuote ≠ '\x22' ∧ isQuoteChar c.toNat) then
    let s := { s with out := '\x22' :: s.out, inString := false,
                      stack := s.stack.tail, justClosedString := true }
    if s.inObjectKey then
      { s with inObjectKey := false, needsColon := true, expectingKeyOrEnd := false }
    else if s.expectingValue then
      { s with expectingValue := false, needsColon := false }
    else s
  else
    { s with out := c :: s.out }

/-- The `inUnquotedKey` branch of the batch loop body (lines 377-403):
returns the updated state and whether the loop `continue`d; on a
terminator the accumulated key is emitted quoted and the character falls
through. -/
def unquotedKeyStepB (s : BState) (c : Char) : BState × Bool :=
  if isIdentifierChar c.toNat then
    ({ s with unquotedKey := s.unquotedKey.push c }, true)
  else if c = '(' ∧ s.unquotedKey ∈ MONGO_WRAPPERS then
    ({ s with inMongoWrapper := true, mongoParenDepth := 1,
              inUnquotedKey := false, unquotedKey := "" }, true)
  else
    ({ s with out := '\x22' :: (s.unquotedKey.data.reverse ++ ('\x22' :: s.out)),
              inUnquotedKey := false, unquotedKey := "",
              needsColon := true, expectingKeyOrEnd := false }, false)

/-- Value-character test of the batch `inValue` branch (lines 407-415). -/
def isBatchValueChar (c : Nat) : Bool :=
  (48 ≤ c && c ≤ 57) || c == 46 || c == 101 || c == 69 || c == 43 ||
  c == 45 || (97 ≤ c && c ≤ 122) || (65 ≤ c && c ≤ 90)

/-- The `inValue` branch of the batch loop body (lines 406-448): `none`
signals that a literal-completion retraction would underflow the output
buffer (the source subtracts `currentValue.length` from the write index
without a bounds check). -/
def valueStepB (s : BState) (c : Char) : Option (BState × Bool) :=
  if isBatchValueChar c.toNat then
    some ({ s with currentValue := s.currentValue.push c, out := c :: s.out }, true)
  else
    let s := { s with inValue := false }
    if c = '(' ∧ s.currentValue ∈ MONGO_WRAPPERS then
      if s.currentValue.length ≤ s.out.length then
        some ({ s with out := s.out.drop s.currentValue.length,
                       inMongoWrapper := true, mongoParenDepth := 1,
                       currentValue := "" }, true)
      else none
    else
      match INCOMPLETE_LITERALS s.currentValue with
      | some comp =>
        if s.currentValue.length ≤ s.out.length then
          some ({ s with out := comp.data.reverse ++ s.out.drop s.currentValue.length,
                         currentValue := "", expectingValue := false,
                         justClosedString := false }, false)
        else none
      | none =>
        some ({ s with currentValue := "", expectingValue := false,
                       justClosedString := false }, false)

/-- The structural-character switch of the batch loop body (lines
490-689), applied after whitespace, comments, ellipsis, concatenation
`+`, and the `justClosedString` reset have been handled. -/
def structuralSwitchB (s : BState) (c : Char) : BState :=
  if c = '\x7b' then
    let out1 := if s.stack = [] ∧ 0 < s.rootElementCount then ',' :: s.out
                else s.out
    let out2 := if s.expectingKeyOrEnd ∧ s.stack ≠ [] ∧
                   s.stack.head? = some ContextType.OBJECT then
                  ':' :: '\x22' :: '_' :: '\x22' :: out1
                else out1
    { s with out := '\x7b' :: out2, stack := ContextType.OBJECT :: s.stack,
             expectingKeyOrEnd := true, needsColon := false,
             expectingValue := false, justClosedString := false }
  else if c = '\x7d' then
    let out1 := removeTrailingCommaRev s.out
    let out2 := if s.needsColon then 'l' :: 'l' :: 'u' :: 'n' :: ':' :: out1
                else out1
    let stack1 := if s.stack.head? = some ContextType.OBJECT then
                    s.stack.tail else s.stack
    { s with out := '\x7d' :: out2, needsColon := false, stack := stack1,
             expectingKeyOrEnd := false, expectingValue := false,
             justClosedString := false,
             rootElementCount := if stack1 = [] then s.rootElementCount + 1
                                 else s.rootElementCount }
  else if c = '[' then
    let out1 := if s.stack = [] ∧ 0 < s.rootElementCount then ',' :: s.out
                else s.out
    { s with out := '[' :: out1, stack := ContextType.ARRAY :: s.stack,
             expectingValue := false, needsColon := false,
             justClosedString := false }
  else if c = ']' then
    if s.stack = [] then s
    else if s.stack.head? = some ContextType.OBJECT then s
    else
      let out1 := removeTrailingCommaRev s.out
      let stack1 := if s.stack.head? = some ContextType.ARRAY then
                      s.stack.tail else s.stack
      { s with out := ']' :: out1, stack := stack1,
               expectingValue := false, justClosedString := false,
               rootElementCount := if stack1 = [] then s.rootElementCount + 1
                                   else s.rootElementCount }
  else if c = '\x22' ∨ c = '\x27' then
    if s.justClosedString then
      let suf := s.out.dropWhile (fun ch => ch = ' ' ∨ ch = '\t')
      let out1 := match suf with
                  | '\x22' :: r => r
                  | _ => s.out
      { s with out := out1, inString := true, stringQuote := c,
               stack := ContextType.STRING :: s.stack,
               justClosedString := false }
    else
      { s with out := '\x22' :: s.out, inString := true, stringQuote := c,
               stack := ContextType.STRING :: s.stack,
               inObjectKey := if s.expectingKeyOrEnd then true else s.inObjectKey,
               needsColon := false, justClosedString := false }
  else if c = ':' then
    if ¬s.needsColon ∧ s.stack ≠ [] ∧ s.stack.head? = some ContextType.OBJECT then
      s
    else if s.stack = [] then s
    else
      { s with out := ':' :: s.out, needsColon := false,
               expectingValue := true, expectingKeyOrEnd := false,
               justClosedString := false }
  else if c = ',' then
    let inObj := s.stack ≠ [] ∧ s.stack.head? = some ContextType.OBJECT
    { s with out := ',' :: s.out,
             expectingKeyOrEnd := if inObj then true else s.expectingKeyOrEnd,
             expectingValue := if inObj then false else s.expectingValue,
             needsColon := false, justClosedString := false }
  else if isQuoteChar c.toNat then
    if s.justClosedString then
      let out1 := match s.out with
                  | '\x22' :: r => r
                  | _ => s.out
      { s with out := out1, inString := true, stringQuote := c,
               stack := ContextType.STRING :: s.stack,
               justClosedString := false }
    else
      { s with out := '\x22' :: s.out, inString := true, stringQuote := c,
               stack := ContextType.STRING :: s.stack,
               inObjectKey := if s.expectingKeyOrEnd then true else s.inObjectKey,
               needsColon := false, justClosedString := false }
  else if s.expectingKeyOrEnd ∧ isIdentifierStart c.toNat then
    { s with inUnquotedKey := true, unquotedKey := String.mk [c],
             justClosedString := false }
  else if c = 't' ∨ c = 'f' ∨ c = 'n' ∨ c = 'T' ∨ c = 'F' ∨ c = 'N' ∨
          c = '-' ∨ (48 ≤ c.toNat ∧ c.toNat ≤ 57) ∨
          (isIdentifierStart c.toNat ∧ ¬s.expectingKeyOrEnd) then
    { s with out := c :: s.out, currentValue := String.mk [c],
             inValue := true, needsColon := false,
             justClosedString := false }
  else
    { s with out := c :: s.out, justClosedString := false }

/-- The structural tail of the batch loop body (lines 450-689): comment
openers, whitespace normalization, ellipsis, concatenation `+`, the
`justClosedString` reset, and then the structural-character switch.  `n1`
and `n2` are the one- and two-character lookaheads; the returned `Nat` is
how many extra input characters were consumed (`i++`/`i += 2`). -/
def structuralStepB (s : BState) (c : Char) (n1 n2 : Option Char) : BState × Nat :=
  if c = '/' ∧ n1 = some '/' then
    ({ s with inSingleLineComment := true }, 1)
  else if c = '/' ∧ n1 = some '*' then
    ({ s with inMultiLineComment := true }, 1)
  else if isWhitespace c.toNat then
    ({ s with out := ' ' :: s.out }, 0)
  else if c = '.' ∧ n1 = some '.' ∧ n2 = some '.' then
    (s, 2)
  else if c = '+' ∧ s.justClosedString then
    (s, 0)
  else
    let s0 := if c ≠ '\x22' ∧ c ≠ '\x27' ∧ ¬isQuoteChar c.toNat ∧
                 ¬isWhitespace c.toNat then { s with justClosedString := false }
              else s
    (structuralSwitchB s0 c, 0)

/-- One iteration of the batch scan loop body (`for` loop of
`repairJson`, lines 309-690): mode branches first, then the structural
tail; `rest` supplies the lookahead and the returned `Nat` is how many
extra input characters were consumed. -/
def scanStep (s : BState) (c : Char) (rest : List Char) : Option (BState × Nat) :=
  if s.inSingleLineComment then
    if c.toNat == 10 || c.toNat == 13 then
      some ({ s with inSingleLineComment := false, out := c :: s.out }, 0)
    else some (s, 0)
  else if s.inMultiLineComment then
    if c = '*' ∧ rest.head? = some '/' then
      some ({ s with inMultiLineComment := false }, 1)
    else some (s, 0)
  else
    let m := mongoStep s c
    let s1 := m.1
    if m.2 then some (s1, 0)
    else if s1.inString then some (stringStepB s1 c, 0)
    else
      let k := if s1.inUnquotedKey then unquotedKeyStepB s1 c else (s1, false)
      let s2 := k.1
      if k.2 then some (s2, 0)
      else
        match (if s2.inValue then valueStepB s2 c else some (s2, false)) with
        | none => none
        | some (s3, vcont) =>
          if vcont then some (s3, 0)
          else some (structuralStepB s3 c rest.head? (rest.drop 1).head?)

/-- The batch scan loop: iterate `scanStep` over the preprocessed
characters. -/
def scanO : BState → List Char → Option BState
  | s, [] => some s
  | s, c :: rest =>
    match scanStep s c rest with
    | none => none
    | some (s1, skip) =>
      match skip with
      | 0 => scanO s1 rest
      | 1 =>
        match rest with
        | _ :: r1 => scanO s1 r1
        | [] => some s1
      | _ =>
        match rest with
        | _ :: _ :: r2 => scanO s1 r2
        | _ => some s1

/-- The stack-draining loop at the end of `repairJson` (lines 766-775):
pop remaining contexts innermost-first, appending matching closers and
incrementing the root-element count whenever the stack empties. -/
def drainStack : List ContextType → List Char → Nat → List Char × Nat
  | [], out, rc => (out, rc)
  | ctx :: rest, out, rc =>
    match ctx with
    | ContextType.OBJECT =>
        drainStack rest ('\x7d' :: out) (if rest = [] then rc + 1 else rc)
    | ContextType.ARRAY =>
        drainStack rest (']' :: out) (if rest = [] then rc + 1 else rc)
    | ContextType.STRING => drainStack rest out rc

/-- The finalize phase of `repairJson` (lines 692-784): completes pending
tokens, closes the open string, settles owed colons/values, strips one
trailing comma, and drains the context stack.  Returns the reversed output
buffer and the final root-element count; `none` again signals an unguarded
retraction underflow. -/
def finalizeO (s : BState) : Option (List Char × Nat) :=
  let out0 :=
    if s.inUnquotedKey ∧ s.unquotedKey ≠ "" then
      'l' :: 'l' :: 'u' :: 'n' :: ':' :: '\x22' ::
        (s.unquotedKey.data.reverse ++ ('\x22' :: s.out))
    else s.out
  let step2 : Option (List Char) :=
    if s.inValue ∧ s.currentValue ≠ "" then
      match INCOMPLETE_LITERALS s.currentValue with
      | some comp =>
        if s.currentValue.length ≤ out0.length then
          some (comp.data.reverse ++ out0.drop s.currentValue.length)
        else none
      | none => some out0
    else some out0
  match step2 with
  | none => none
  | some out1 =>
    let out2 :=
      if s.inString then
        let outA := if s.escaped ∧ out1.head? = some '\x5c' then out1.tail else out1
        let outB := '\x22' :: outA
        if s.inObjectKey ∨ s.expectingKeyOrEnd then
          'l' :: 'l' :: 'u' :: 'n' :: ':' :: outB
        else outB
      else out1
    let stack2 := if s.inString then s.stack.tail else s.stack
    let needsColon2 :=
      if s.inString then
        (if s.inObjectKey ∨ s.expectingKeyOrEnd then false else s.needsColon)
      else s.needsColon
    let out3 := if needsColon2 then 'l' :: 'l' :: 'u' :: 'n' :: ':' :: out2 else out2
    let out4 :=
      if s.expectingValue ∧ ¬s.inString ∧ ¬s.inValue then
        let past := out3.dropWhile (fun c => c = ' ' ∨ c = '\t' ∨ c = '\n' ∨ c = '\x0d')
        if past.head? = some ':' then 'l' :: 'l' :: 'u' :: 'n' :: out3 else out3
      else out3
    let out5 := removeTrailingCommaRev out4
    some (drainStack stack2 out5 s.rootElementCount)

/-- Embeds `repairJson` (with its `Option`-guarded buffer retraction):
empty-input early return, preprocessing, the scan, finalize, and the
NDJSON array wrap. -/
def repairJsonO (input : String) : Option String :=
  if jsTrimEmpty input.data then some "" else
  (scanO initB (preprocessJson input).data).bind fun sFinal =>
    (finalizeO sFinal).map fun p =>
      let result := String.mk p.1.reverse
      if 1 < p.2 then "[" ++ result ++ "]" else result

/-- Total wrapper for `repairJsonO` (the retraction guard never fires;
see the totality theorem). -/
def repairJson (input : String) : String :=
  (repairJsonO input).getD ""

/-- `CharTypes` whitespace flag of the incremental module (ASCII only). -/
def ctWhitespace (c : Nat) : Bool :=
  c == 9 || c == 10 || c == 13 || c == 32

/-- `CharTypes` quote flag of the incremental module (ASCII only; the
table has 256 entries, so curly quote glyphs carry no flags). -/
def ctQuote (c : Nat) : Bool :=
  c == 34 || c == 39

/-- `CharTypes` identifier-start flag of the incremental module. -/
def ctIdStart (c : Nat) : Bool :=
  (65 ≤ c && c ≤ 90) || (97 ≤ c && c ≤ 122) || c == 95 || c == 36

/-- `CharTypes` digit flag of the incremental module. -/
def ctDigit (c : Nat) : Bool :=
  48 ≤ c && c ≤ 57

/-- `CharTypes` value-start flag of the incremental module: digits,
`T`/`F`/`N`, `t`/`f`/`n`, minus and dot. -/
def ctValueStart (c : Nat) : Bool :=
  (48 ≤ c && c ≤ 57) || c == 84 || c == 70 || c == 78 ||
  c == 116 || c == 102 || c == 110 || c == 45 || c == 46

/-- A repair event delivered to the `onRepair` sink: action name, global
character index, and context note. -/
structure REvent where
  action : String
  index : Nat
  context : String
deriving DecidableEq, Repr

/-- The persistent fields of an `IncrementalJsonRepair` instance. -/
structure IState where
  stack : List ContextType
  inString : Bool
  stringQuote : Char
  escaped : Bool
  inObjectKey : Bool
  needsColon : Bool
  expectingValue : Bool
  expectingKeyOrEnd : Bool
  inValue : Bool
  currentValue : String
  inUnquotedKey : Bool
  unquotedKey : String
  inSingleLineComment : Bool
  inMultiLineComment : Bool
  justClosedString : Bool
  rootElementCount : Nat
  totalIndex : Nat
deriving DecidableEq, Repr

/-- Constructor / `reset()` state of the incremental engine. -/
def initI : IState where
  stack := []
  inString := false
  stringQuote := '\x22'
  escaped := false
  inObjectKey := false
  needsColon := false
  expectingValue := false
  expectingKeyOrEnd := false
  inValue := false
  currentValue := ""
  inUnquotedKey := false
  unquotedKey := ""
  inSingleLineComment := false
  inMultiLineComment := false
  justClosedString := false
  rootElementCount := 0
  totalIndex := 0

/-- Append an event to the reversed event log only when a sink is
attached (the source guards every emission with `if (this.onRepair)`). -/
def emitEv (w : Bool) (ev : List REvent) (action : String) (index : Nat)
    (context : String) : List REvent :=
  if w then ⟨action, index, context⟩ :: ev else ev

/-- The per-chunk output buffer of `push` is a JavaScript array of string
fragments; `output.pop()` on an empty array is a no-op. -/
def popFrag : List String → List String
  | [] => []
  | _ :: r => r

/-- `output.pop()` iterated `n` times. -/
def popFragN : Nat → List String → List String
  | 0, l => l
  | n + 1, l => popFragN n (popFrag l)

/-- The unquoted-key continuation test of the incremental engine
(`CharTypes` IdStart or Digit). -/
def isKeyChar (code : Nat) : Bool :=
  ctIdStart code || ctDigit code

/-- The literal/number continuation test of the incremental engine
(Digit, ValueStart or IdStart flag, or `+`). -/
def isPushValueChar (code : Nat) : Bool :=
  (ctDigit code || ctValueStart code || ctIdStart code) || code == 43

/-- The structural-character switch of `IncrementalJsonRepair.push`
(part_005 lines 249-361), acting on state, reversed fragment buffer and
reversed event log; `g` is the global character index. -/
def structuralStepI (w : Bool) (s : IState) (c : Char) (g : Nat)
    (out : List String) (ev : List REvent) :
    IState × List String × List REvent :=
  let code := c.toNat
  if c = '\x7b' then
    let rootComma := s.stack = [] ∧ 0 < s.rootElementCount
    let synth := s.expectingKeyOrEnd ∧ s.stack ≠ [] ∧
                 s.stack.head? = some ContextType.OBJECT
    let out1 := if rootComma then "," :: out else out
    let ev1 := if rootComma then
                 emitEv w ev "missing_comma" g "Adding comma between root elements"
               else ev
    let out2 := if synth then "\x22_\x22:" :: out1 else out1
    let ev2 := if synth then emitEv w ev1 "synthetic_key" g "Adding synthetic key"
               else ev1
    ({ s with stack := ContextType.OBJECT :: s.stack, expectingKeyOrEnd := true,
              needsColon := false, expectingValue := false },
     "\x7b" :: out2, ev2)
  else if c = '\x7d' then
    let out1 := if s.needsColon then ":null" :: out else out
    let ev1 := if s.needsColon then
                 emitEv w ev "inserted_value" g "Adding null for key"
               else ev
    let stack1 := if s.stack.head? = some ContextType.OBJECT then
                    s.stack.tail else s.stack
    ({ s with needsColon := false, stack := stack1, expectingKeyOrEnd := false,
              expectingValue := false,
              rootElementCount := if stack1 = [] then s.rootElementCount + 1
                                  else s.rootElementCount },
     "\x7d" :: out1, ev1)
  else if c = '[' then
    let rootComma := s.stack = [] ∧ 0 < s.rootElementCount
    let out1 := if rootComma then "," :: out else out
    let ev1 := if rootComma then
                 emitEv w ev "missing_comma" g "Adding comma between root elements"
               else ev
    ({ s with stack := ContextType.ARRAY :: s.stack, expectingValue := false,
              needsColon := false },
     "[" :: out1, ev1)
  else if c = ']' then
    if s.stack = [] then (s, out, ev)
    else if s.stack.head? = some ContextType.OBJECT then (s, out, ev)
    else
      let stack1 := if s.stack.head? = some ContextType.ARRAY then
                      s.stack.tail else s.stack
      ({ s with stack := stack1, expectingValue := false,
                rootElementCount := if stack1 = [] then s.rootElementCount + 1
                                    else s.rootElementCount },
       "]" :: out, ev)
  else if c = '\x22' ∨ c = '\x27' then
    let out1 := if s.justClosedString then
                  (if out.head? = some "\x22" then out.tail else out)
                else "\x22" :: out
    let iok := if s.justClosedString then s.inObjectKey
               else if s.expectingKeyOrEnd then true else s.inObjectKey
    ({ s with inString := true, stringQuote := c,
              stack := ContextType.STRING :: s.stack, inObjectKey := iok,
              needsColon := false, justClosedString := false },
     out1, ev)
  else if c = ':' then
    if ¬s.needsColon ∧ s.stack ≠ [] then (s, out, ev)
    else if s.stack = [] then (s, out, ev)
    else
      ({ s with needsColon := false, expectingValue := true,
                expectingKeyOrEnd := false },
       ":" :: out, ev)
  else if c = ',' then
    let inObj := s.stack ≠ [] ∧ s.stack.head? = some ContextType.OBJECT
    ({ s with expectingKeyOrEnd := if inObj then true else s.expectingKeyOrEnd,
              expectingValue := if inObj then false else s.expectingValue,
              needsColon := false },
     "," :: out, ev)
  else if ctQuote code then
    let out1 := if s.justClosedString ∧ out.head? = some "\x22" then out.tail
                else "\x22" :: out
    ({ s with inString := true, stringQuote := c,
              stack := ContextType.STRING :: s.stack,
              inObjectKey := if s.expectingKeyOrEnd then true else s.inObjectKey,
              needsColon := false, justClosedString := false },
     out1, ev)
  else if s.expectingKeyOrEnd ∧ ctIdStart code then
    ({ s with inUnquotedKey := true, unquotedKey := String.mk [c] }, out, ev)
  else if ctValueStart code || ctIdStart code then
    ({ s with currentValue := String.mk [c], inValue := true, needsColon := false },
     String.mk [c] :: out, ev)
  else
    (s, String.mk [c] :: out, ev)

/-- One iteration of the `IncrementalJsonRepair.push` loop body
(part_005 lines 143-362): mode branches, comment openers, whitespace,
concatenation skip, then the structural switch.  `ahead` is the
within-chunk lookahead `chunk[i + 1]`; the returned `Nat` is how many
extra characters were consumed. -/
def pushStep (w : Bool) (s : IState) (c : Char) (g : Nat) (out : List String)
    (ev : List REvent) (ahead : Option Char) :
    IState × List String × List REvent × Nat :=
  let code := c.toNat
  if s.inSingleLineComment then
    if code == 10 || code == 13 then
      ({ s with inSingleLineComment := false }, " " :: out, ev, 0)
    else (s, out, ev, 0)
  else if s.inMultiLineComment then
    if c = '*' ∧ ahead = some '/' then
      ({ s with inMultiLineComment := false }, out, ev, 1)
    else (s, out, ev, 0)
  else if s.inString then
    if s.escaped then
      ({ s with escaped := false }, String.mk [c] :: out, ev, 0)
    else if c = '\x5c' then
      ({ s with escaped := true }, String.mk [c] :: out, ev, 0)
    else if code == s.stringQuote.toNat ∨
            (s.stringQuote ≠ '\x22' ∧ ctQuote code) then
      let sc := { s with inString := false, stack := s.stack.tail,
                         justClosedString := true }
      let sc2 :=
        if sc.inObjectKey then
          { sc with inObjectKey := false, needsColon := true,
                    expectingKeyOrEnd := false }
        else if sc.expectingValue then
          { sc with expectingValue := false }
        else sc
      (sc2, "\x22" :: out, ev, 0)
    else (s, String.mk [c] :: out, ev, 0)
  else if s.inUnquotedKey ∧ isKeyChar code then
    ({ s with unquotedKey := s.unquotedKey.push c }, out, ev, 0)
  else
    let flush := s.inUnquotedKey
    let s1 := if flush then
                { s with inUnquotedKey := false, unquotedKey := "",
                         needsColon := true, expectingKeyOrEnd := false }
              else s
    let out1 := if flush then "\x22" :: s.unquotedKey :: "\x22" :: out else out
    let ev1 := if flush then
                 emitEv w ev "inserted_quote" g
                   ("Wrapped unquoted key \x22" ++ s.unquotedKey ++ "\x22")
               else ev
    if s1.inValue ∧ isPushValueChar code then
      ({ s1 with currentValue := s1.currentValue.push c },
       String.mk [c] :: out1, ev1, 0)
    else
      let valEnd := s1.inValue
      let s2 := if valEnd then
                  { s1 with inValue := false, currentValue := "",
                            expectingValue := false, justClosedString := false }
                else s1
      let out2 := if valEnd then
                    match INCOMPLETE_LITERALS s1.currentValue with
                    | some comp => comp :: popFragN s1.currentValue.length out1
                    | none => out1
                  else out1
      let ev2 := if valEnd then
                   match INCOMPLETE_LITERALS s1.currentValue with
                   | some comp =>
                     emitEv w ev1 "fixed_literal" g
                       ("Fixed \x22" ++ s1.currentValue ++ "\x22 -> \x22" ++
                        comp ++ "\x22")
                   | none => ev1
                 else ev1
      if c = '/' ∧ ahead = some '/' then
        ({ s2 with inSingleLineComment := true }, out2, ev2, 1)
      else if c = '/' ∧ ahead = some '*' then
        ({ s2 with inMultiLineComment := true }, out2, ev2, 1)
      else if ctWhitespace code then
        (s2, " " :: out2, ev2, 0)
      else if c = '+' ∧ s2.justClosedString then
        (s2, out2, ev2, 0)
      else
        let s3 := if c ≠ '\x22' ∧ c ≠ '\x27' ∧ ¬ctQuote code then
                    { s2 with justClosedString := false } else s2
        let r := structuralStepI w s3 c g out2 ev2
        (r.1, r.2.1, r.2.2, 0)

/-- The character loop of `IncrementalJsonRepair.push`: iterate
`pushStep` over the chunk, tracking the global index `g`. -/
def pushAux (w : Bool) : IState → Nat → List String → List REvent →
    List Char → IState × List String × List REvent
  | s, _, out, ev, [] => (s, out, ev)
  | s, g, out, ev, c :: rest =>
    match pushStep w s c g out ev rest.head? with
    | (s1, out1, ev1, skip) =>
      match skip with
      | 0 => pushAux w s1 (g + 1) out1 ev1 rest
      | _ =>
        match rest with
        | _ :: r1 => pushAux w s1 (g + 2) out1 ev1 r1
        | [] => (s1, out1, ev1)

/-- Embeds `IncrementalJsonRepair.push`: processes one chunk, returns the
repaired fragment for that chunk, the emitted events (in order), and the
updated instance state (`totalIndex` advanced by the chunk length). -/
def pushI (w : Bool) (s : IState) (chunk : String) :
    String × List REvent × IState :=
  let r := pushAux w s s.totalIndex [] [] chunk.data
  (String.join r.2.1.reverse, r.2.2.reverse,
   { r.1 with totalIndex := s.totalIndex + chunk.length })

/-- The closing loop of `IncrementalJsonRepair.end` (part_005 lines
424-434): pop every remaining context, appending `\x7d`/`]` fragments and
events; the incremental engine does not touch the root counter here. -/
def endDrain (w : Bool) (idx : Nat) : List ContextType → List String →
    List REvent → List String × List REvent
  | [], out, ev => (out, ev)
  | ctx :: rest, out, ev =>
    match ctx with
    | ContextType.OBJECT =>
        endDrain w idx rest ("\x7d" :: out)
          (emitEv w ev "closed_object" idx "Closing missing \x7d")
    | ContextType.ARRAY =>
        endDrain w idx rest ("]" :: out)
          (emitEv w ev "closed_array" idx "Closing missing ]")
    | ContextType.STRING => endDrain w idx rest out ev

/-- Embeds `IncrementalJsonRepair.end`: completes pending tokens, closes
an open string, settles owed colons/values, drains the stack, and wraps
its own fragment in `[...]` when more than one root element completed.
Returns the closing fragment, the events (in order), and the updated
instance state. -/
def endI (w : Bool) (s : IState) : String × List REvent × IState :=
  let idx := s.totalIndex
  let keyPending := s.inUnquotedKey ∧ s.unquotedKey ≠ ""
  let out1 : List String :=
    if keyPending then ["\x22:null", s.unquotedKey, "\x22"] else []
  let ev1 : List REvent :=
    if keyPending then
      emitEv w [] "inserted_quote" idx
        ("Wrapped unquoted key \x22" ++ s.unquotedKey ++ "\x22")
    else []
  let valuePending := s.inValue ∧ s.currentValue ≠ ""
  let out2 : List String :=
    if valuePending then
      match INCOMPLETE_LITERALS s.currentValue with
      | some comp => String.mk (comp.data.drop s.currentValue.length) :: out1
      | none => out1
    else out1
  let ev2 : List REvent :=
    if valuePending then
      match INCOMPLETE_LITERALS s.currentValue with
      | some comp =>
        emitEv w ev1 "fixed_literal" idx
          ("Fixed \x22" ++ s.currentValue ++ "\x22 -> \x22" ++ comp ++ "\x22")
      | none => ev1
    else ev1
  let inValue2 := if valuePending then false else s.inValue
  let expectingValue2 := if valuePending then false else s.expectingValue
  let currentValue2 := if valuePending then "" else s.currentValue
  let hangingKey := s.inObjectKey ∨ s.expectingKeyOrEnd
  let out3 : List String :=
    if s.inString then
      (if hangingKey then [":null", "\x22"] else ["\x22"]) ++ out2
    else out2
  let ev3 : List REvent :=
    if s.inString ∧ hangingKey then
      emitEv w ev2 "inserted_value" idx "Adding null for hanging key"
    else ev2
  let stack3 := if s.inString then s.stack.tail else s.stack
  let out4 : List String :=
    if s.needsColon then ":null" :: out3 else out3
  let ev4 : List REvent :=
    if s.needsColon then
      emitEv w ev3 "inserted_value" idx "Adding null for single key"
    else ev3
  let fillValue := expectingValue2 ∧ ¬s.inString ∧ ¬inValue2
  let out5 : List String := if fillValue then "null" :: out4 else out4
  let ev5 : List REvent :=
    if fillValue then
      emitEv w ev4 "inserted_value" idx "Adding null after colon"
    else ev4
  let drained := endDrain w idx stack3 out5 ev5
  let joined := String.join drained.1.reverse
  let result := if 1 < s.rootElementCount then "[" ++ joined ++ "]" else joined
  (result, drained.2.reverse,
   { s with stack := [], inValue := inValue2, expectingValue := expectingValue2,
            currentValue := currentValue2 })

/-- Embeds `IncrementalJsonRepair.snapshot`: runs `end` against a saved
copy of the mutable fields (stack, `inString`, `needsColon`,
`expectingValue`, `inValue`, `currentValue`) and restores them. -/
def snapshotI (w : Bool) (s : IState) : String × List REvent × IState :=
  let savedStack := s.stack
  let savedInString := s.inString
  let savedNeedsColon := s.needsColon
  let savedExpectingValue := s.expectingValue
  let savedInValue := s.inValue
  let savedCurrentValue := s.currentValue
  let res := endI w s
  (res.1, res.2.1,
   { res.2.2 with stack := savedStack, inString := savedInString,
                  needsColon := savedNeedsColon,
                  expectingValue := savedExpectingValue,
                  inValue := savedInValue,
                  currentValue := savedCurrentValue })

/-- Run a whole chunk sequence through the incremental engine from state
`s`, concatenating the fragments returned by each `push`. -/
def pushAll (w : Bool) (s : IState) : List String → String × IState
  | [] => ("", s)
  | chunk :: rest =>
    let r := pushI w s chunk
    let rr := pushAll w r.2.2 rest
    (r.1 ++ rr.1, rr.2)

/-- `push` over a chunk sequence followed by `end`: the total text an
incremental consumer receives. -/
def incrementalRun (chunks : List String) : String :=
  let r := pushAll false initI chunks
  r.1 ++ (endI false r.2).1

/-- Batch `repairJson` with the preprocessing stage omitted, the reference
point of the chunk-boundary invariant. -/
def repairJsonNoPre (input : String) : String :=
  (if jsTrimEmpty input.data then some "" else
   (scanO initB input.data).bind fun sFinal =>
     (finalizeO sFinal).map fun p =>
       let result := String.mk p.1.reverse
       if 1 < p.2 then "[" ++ result ++ "]" else result).getD ""

/-- Modelled from the spec: "parses successfully" refers to `JSON.parse`,
which is external to this repository.  `JVal` is the shape of a parsed
JSON text; string and number lexemes are kept verbatim, so equality of
`JVal` trees refines the spec's "structurally equal" parsed values. -/
inductive JVal where
  | jnull
  | jtrue
  | jfalse
  | jnum (lexeme : List Char)
  | jstr (lexeme : List Char)
  | jarr (elems : List JVal)
  | jobj (members : List (List Char × JVal))

/-- JSON insignificant whitespace (space, tab, line feed, carriage
return), per the `JSON.parse` grammar. -/
def skipJWs (l : List Char) : List Char :=
  l.dropWhile (fun c => c = ' ' ∨ c = '\t' ∨ c = '\n' ∨ c = '\x0d')

/-- Hexadecimal digit test for `\x5cu` escapes. -/
def isHexDigit (c : Char) : Bool :=
  (48 ≤ c.toNat && c.toNat ≤ 57) || (65 ≤ c.toNat && c.toNat ≤ 70) ||
  (97 ≤ c.toNat && c.toNat ≤ 102)

/-- Modelled from the spec: the string production of `JSON.parse` after
the opening quote.  Returns the raw body (escapes kept verbatim) and the
remainder after the closing quote. -/
def parseJStringBody : List Char → Option (List Char × List Char)
  | [] => none
  | c :: r =>
    if c = '\x22' then some ([], r)
    else if c = '\x5c' then
      match r with
      | e :: r2 =>
        if e = '\x22' ∨ e = '\x5c' ∨ e = '/' ∨ e = 'b' ∨ e = 'f' ∨
           e = 'n' ∨ e = 'r' ∨ e = 't' then
          (parseJStringBody r2).map (fun p => (c :: e :: p.1, p.2))
        else if e = 'u' then
          match r2 with
          | h1 :: h2 :: h3 :: h4 :: r3 =>
            if isHexDigit h1 && isHexDigit h2 && isHexDigit h3 && isHexDigit h4 then
              (parseJStringBody r3).map
                (fun p => (c :: e :: h1 :: h2 :: h3 :: h4 :: p.1, p.2))
            else none
          | _ => none
        else none
      | [] => none
    else if 32 ≤ c.toNat then
      (parseJStringBody r).map (fun p => (c :: p.1, p.2))
    else none

/-- Decimal digit test. -/
def isDigitChar (c : Char) : Bool :=
  48 ≤ c.toNat && c.toNat ≤ 57

/-- Modelled from the spec: the number production of `JSON.parse`.
Returns the lexeme and the remainder. -/
def jnumInt : List Char → Option (List Char × List Char)
  | [] => none
  | c :: r =>
    if c = '0' then some (['0'], r)
    else if 49 ≤ c.toNat ∧ c.toNat ≤ 57 then
      some (c :: r.takeWhile isDigitChar, r.dropWhile isDigitChar)
    else none

/-- Modelled from the spec: the optional fraction part of a number. -/
def jnumFrac (l2 : List Char) : List Char × List Char :=
  if l2.head? = some '.' ∧ l2.tail.takeWhile isDigitChar ≠ [] then
    ('.' :: l2.tail.takeWhile isDigitChar, l2.tail.dropWhile isDigitChar)
  else ([], l2)

/-- Modelled from the spec: the optional exponent part of a number. -/
def jnumExp (l3 : List Char) : List Char × List Char :=
  match l3 with
  | [] => ([], l3)
  | e :: r =>
    if e = 'e' ∨ e = 'E' then
      let sg : List Char :=
        if r.head? = some '+' then ['+']
        else if r.head? = some '-' then ['-'] else []
      let r1 :=
        if r.head? = some '+' ∨ r.head? = some '-' then r.tail else r
      if r1.takeWhile isDigitChar ≠ [] then
        (e :: (sg ++ r1.takeWhile isDigitChar), r1.dropWhile isDigitChar)
      else ([], l3)
    else ([], l3)

/-- Modelled from the spec: fraction, exponent and the trailing guards of
the number production, after the integer part. -/
def jnumAfterInt (sign ip l2 : List Char) : Option (List Char × List Char) :=
  let fp := (jnumFrac l2).1
  let l3 := (jnumFrac l2).2
  if l2.head? = some '.' ∧ fp = [] then none
  else
    let ep := (jnumExp l3).1
    let l4 := (jnumExp l3).2
    match l3 with
    | e :: _ =>
      if (e = 'e' ∨ e = 'E') ∧ ep = [] then none
      else some (sign ++ ip ++ fp ++ ep, l4)
    | [] => some (sign ++ ip ++ fp ++ ep, l4)

def parseJNumber (l : List Char) : Option (List Char × List Char) :=
  let sign : List Char := if l.head? = some '-' then ['-'] else []
  let l1 := if l.head? = some '-' then l.tail else l
  match jnumInt l1 with
  | none => none
  | some (ip, l2) => jnumAfterInt sign ip l2

mutual

/-- Modelled from the spec: the value production of `JSON.parse`. -/
def parseJValue : Nat → List Char → Option (JVal × List Char)
  | 0, _ => none
  | Nat.succ fuel, l =>
    match l with
    | '\x22' :: r => (parseJStringBody r).map (fun p => (JVal.jstr p.1, p.2))
    | '\x7b' :: r =>
      (match skipJWs r with
       | '\x7d' :: r2 => some (JVal.jobj [], r2)
       | _ => (parseJMembers fuel r).map (fun p => (JVal.jobj p.1, p.2)))
    | '[' :: r =>
      (match skipJWs r with
       | ']' :: r2 => some (JVal.jarr [], r2)
       | _ => (parseJItems fuel r).map (fun p => (JVal.jarr p.1, p.2)))
    | 't' :: 'r' :: 'u' :: 'e' :: r => some (JVal.jtrue, r)
    | 'f' :: 'a' :: 'l' :: 's' :: 'e' :: r => some (JVal.jfalse, r)
    | 'n' :: 'u' :: 'l' :: 'l' :: r => some (JVal.jnull, r)
    | _ => (parseJNumber l).map (fun p => (JVal.jnum p.1, p.2))

/-- Modelled from the spec: the members production (one or more
`ws string ws : element` separated by commas, closed by `\x7d`). -/
def parseJMembers : Nat → List Char → Option (List (List Char × JVal) × List Char)
  | 0, _ => none
  | Nat.succ fuel, l =>
    match skipJWs l with
    | '\x22' :: r =>
      (match parseJStringBody r with
       | some (key, r2) =>
         (match skipJWs r2 with
          | ':' :: r4 =>
            (match parseJElement fuel r4 with
             | some (v, r5) =>
               (match r5 with
                | ',' :: r6 =>
                  (parseJMembers fuel r6).map (fun p => ((key, v) :: p.1, p.2))
                | '\x7d' :: r6 => some ([(key, v)], r6)
                | _ => none)
             | none => none)
          | _ => none)
       | none => none)
    | _ => none

/-- Modelled from the spec: the elements production of an array (one or
more elements separated by commas, closed by `]`). -/
def parseJItems : Nat → List Char → Option (List JVal × List Char)
  | 0, _ => none
  | Nat.succ fuel, l =>
    match parseJElement fuel l with
    | some (v, r) =>
      (match r with
       | ',' :: r2 => (parseJItems fuel r2).map (fun p => (v :: p.1, p.2))
       | ']' :: r2 => some ([v], r2)
       | _ => none)
    | none => none

/-- Modelled from the spec: the element production (`ws value ws`). -/
def parseJElement : Nat → List Char → Option (JVal × List Char)
  | 0, _ => none
  | Nat.succ fuel, l =>
    match parseJValue fuel (skipJWs l) with
    | some (v, r) => some (v, skipJWs r)
    | none => none

end

/-- Modelled from the spec: `JSON.parse` on a whole text — a single
element consuming the entire input.  The fuel is generous: every level of
the call chain either consumes input or moves to a production that does. -/
def parseJson (s : String) : Option JVal :=
  match parseJElement (4 * s.data.length + 8) s.data with
  | some (v, []) => some v
  | _ => none

/-- Whether `JSON.parse` succeeds on `s`. -/
def jsonParses (s : String) : Bool :=
  (parseJson s).isSome

/-- The scan-plus-finalize core of `repairJson`: reversed output buffer
and final root-element count, before the NDJSON array wrap. -/
def repairScan (input : String) : Option (List Char × Nat) :=
  (scanO initB (preprocessJson input).data).bind finalizeO

/-- C1 (counterexample): already for the single-chunk partition of
`[1,]`, `push` + `end` yields `[1,]` (the incremental engine never strips
a trailing comma before a closer) while batch `repairJson` without
preprocessing yields `[1]`. -/
theorem incremental_batch_single_chunk_mismatch :
    incrementalRun ["[1,]"] = "[1,]" ∧ repairJsonNoPre "[1,]" = "[1]" ∧
    incrementalRun ["[1,]"] ≠ repairJsonNoPre "[1,]" := by
  refine ⟨rfl, rfl, ?_⟩
  rw [show incrementalRun ["[1,]"] = "[1,]" from rfl,
      show repairJsonNoPre "[1,]" = "[1]" from rfl]
  decide

/-- C1 (amended): the chunk-boundary equation
`push(c1)+...+push(ck)+end() = repairJson(S)` (preprocessing omitted)
does hold on every chunking exercised by the repository's incremental
tests — the three-chunk object, the incomplete literals, the incomplete
string, the nested structures, the reset and factory one-chunk inputs,
the partition with empty chunks, the two-chunk array, and the
cross-chunk single-quoted partition. -/
theorem incremental_batch_agree_on_test_chunkings :
    incrementalRun ["\x7b\x22name\x22: \x22Jo", "hn\x22, \x22age\x22: ", "30"] =
      repairJsonNoPre "\x7b\x22name\x22: \x22John\x22, \x22age\x22: 30" ∧
    incrementalRun ["\x7b\x22active\x22: tru"] =
      repairJsonNoPre "\x7b\x22active\x22: tru" ∧
    incrementalRun ["\x7b\x22message\x22: \x22Hello"] =
      repairJsonNoPre "\x7b\x22message\x22: \x22Hello" ∧
    incrementalRun ["\x7b\x22data\x22: \x7b\x22items\x22: [1, 2, 3"] =
      repairJsonNoPre "\x7b\x22data\x22: \x7b\x22items\x22: [1, 2, 3" ∧
    incrementalRun ["\x7b\x22a\x22: tru"] =
      repairJsonNoPre "\x7b\x22a\x22: tru" ∧
    incrementalRun ["\x7b\x22a\x22: 1"] = repairJsonNoPre "\x7b\x22a\x22: 1" ∧
    incrementalRun ["\x7b\x22b\x22: 2"] = repairJsonNoPre "\x7b\x22b\x22: 2" ∧
    incrementalRun ["\x7b\x22x\x22: 1"] = repairJsonNoPre "\x7b\x22x\x22: 1" ∧
    incrementalRun ["[1, 2, ", "3, 4"] = repairJsonNoPre "[1, 2, 3, 4" ∧
    incrementalRun ["\x7b\x22a\x22:", "", " 1", ""] =
      repairJsonNoPre "\x7b\x22a\x22: 1" ∧
    incrementalRun ["\x7b\x27key\x27: \x27val", "ue\x27\x7d"] =
      repairJsonNoPre "\x7b\x27key\x27: \x27value\x27\x7d" :=
  ⟨rfl, rfl, rfl, rfl, rfl, rfl, rfl, rfl, rfl, rfl, rfl⟩

/-- C2 (counterexample): `repairJson "a"` is the non-empty string `"a"`,
which `JSON.parse` rejects. -/
theorem repairJson_nonempty_unparseable :
    repairJson "a" = "a" ∧ repairJson "a" ≠ "" ∧
    jsonParses (repairJson "a") = false := by
  refine ⟨rfl, ?_, ?_⟩ <;>
    rw [show repairJson "a" = "a" from rfl] <;> decide

/-- C2 (amended): on the spec's documented repair examples the output does
parse, and empty input yields the empty string; in general a bare
non-JSON token is echoed unparseable. -/
theorem repairJson_output_parses_on_documented_examples :
    repairJson "" = "" ∧
    jsonParses (repairJson "\x7b\x22a\x22: tru") = true ∧
    jsonParses (repairJson "\x7b\x22a\x22: Non") = true ∧
    jsonParses (repairJson "\x7b\x22a\x22: [1, 2, 3") = true ∧
    jsonParses (repairJson "[1, 2, 3,]") = true ∧
    jsonParses (repairJson "\x7bname: \x27John\x27\x7d") = true ∧
    jsonParses (repairJson "\x7b\x22a\x22:1\x7d\n\x7b\x22b\x22:2\x7d") = true ∧
    jsonParses (repairJson "\x7b\x22count\x22: NumberLong(123)\x7d") = true ∧
    jsonParses (repairJson "\x7b\x22t\x22: \x22a\x22 + \x22b\x22\x7d") = true := by
  refine ⟨rfl, ?_, ?_, ?_, ?_, ?_, ?_, ?_, ?_⟩
  · rw [show repairJson "\x7b\x22a\x22: tru" = "\x7b\x22a\x22: true\x7d" from rfl]
    decide
  · rw [show repairJson "\x7b\x22a\x22: Non" = "\x7b\x22a\x22: null\x7d" from rfl]
    decide
  · rw [show repairJson "\x7b\x22a\x22: [1, 2, 3" =
          "\x7b\x22a\x22: [1, 2, 3]\x7d" from rfl]
    decide
  · rw [show repairJson "[1, 2, 3,]" = "[1, 2, 3]" from rfl]
    decide
  · rw [show repairJson "\x7bname: \x27John\x27\x7d" =
          "\x7b\x22name\x22: \x22John\x22\x7d" from rfl]
    decide
  · rw [show repairJson "\x7b\x22a\x22:1\x7d\n\x7b\x22b\x22:2\x7d" =
          "[\x7b\x22a\x22:1\x7d ,\x7b\x22b\x22:2\x7d]" from rfl]
    decide
  · rw [show repairJson "\x7b\x22count\x22: NumberLong(123)\x7d" =
          "\x7b\x22count\x22: 123\x7d" from rfl]
    decide
  · rw [show repairJson "\x7b\x22t\x22: \x22a\x22 + \x22b\x22\x7d" =
          "\x7b\x22t\x22: \x22ab\x22\x7d" from rfl]
    decide

/-- C5 (counterexample): `repairJson` on the NDJSON example returns
`[\x7b"a":1\x7d ,\x7b"b":2\x7d]` — the newline between the two root
objects is normalized to a space that lands before the inserted comma —
not the claimed exact string without the space. -/
theorem repairJson_ndjson_exact_output_differs :
    repairJson "\x7b\x22a\x22:1\x7d\n\x7b\x22b\x22:2\x7d" =
      "[\x7b\x22a\x22:1\x7d ,\x7b\x22b\x22:2\x7d]" ∧
    repairJson "\x7b\x22a\x22:1\x7d\n\x7b\x22b\x22:2\x7d" ≠
      "[\x7b\x22a\x22:1\x7d,\x7b\x22b\x22:2\x7d]" := by
  refine ⟨rfl, ?_⟩
  rw [show repairJson "\x7b\x22a\x22:1\x7d\n\x7b\x22b\x22:2\x7d" =
        "[\x7b\x22a\x22:1\x7d ,\x7b\x22b\x22:2\x7d]" from rfl]
  decide

/-- C5 (amended): the NDJSON example yields
`[\x7b"a":1\x7d ,\x7b"b":2\x7d]` (same parsed value, with a
normalized space before the inserted comma); the result is wrapped in
`[...]` exactly when the final root-element count exceeds 1, so a single
top-level object is never wrapped. -/
theorem repairJson_ndjson_wrap :
    repairJson "\x7b\x22a\x22:1\x7d\n\x7b\x22b\x22:2\x7d" =
      "[\x7b\x22a\x22:1\x7d ,\x7b\x22b\x22:2\x7d]" ∧
    repairJson "\x7b\x22a\x22:1\x7d" = "\x7b\x22a\x22:1\x7d" ∧
    (∀ input out rc, jsTrimEmpty input.data = false →
      repairScan input = some (out, rc) →
      repairJson input =
        if 1 < rc then "[" ++ String.mk out.reverse ++ "]"
        else String.mk out.reverse) := by
  refine ⟨rfl, rfl, fun input out rc hne hscan => ?_⟩
  unfold repairJson repairJsonO
  unfold repairScan at hscan
  rw [hne]
  cases hs : scanO initB (preprocessJson input).data with
  | none => rw [hs] at hscan; exact absurd hscan (by simp)
  | some sF =>
    rw [hs] at hscan
    simp only [Option.some_bind] at hscan
    cases hf : finalizeO sF with
    | none => rw [hf] at hscan; exact absurd hscan (by simp)
    | some p =>
      rw [hf] at hscan
      cases hscan
      simp [hs, hf]

lemma structuralStepI_sink (w w' : Bool) (s : IState) (c : Char) (g : Nat)
    (out : List String) (ev ev' : List REvent) :
    (structuralStepI w s c g out ev).1 = (structuralStepI w' s c g out ev').1 ∧
    (structuralStepI w s c g out ev).2.1 = (structuralStepI w' s c g out ev').2.1 := by
  unfold structuralStepI
  by_cases h1 : c = '\x7b'
  · simp only [if_pos h1]; exact ⟨by trivial, by trivial⟩
  simp only [if_neg h1]
  by_cases h2 : c = '\x7d'
  · simp only [if_pos h2]; exact ⟨by trivial, by trivial⟩
  simp only [if_neg h2]
  by_cases h3 : c = '['
  · simp only [if_pos h3]; exact ⟨by trivial, by trivial⟩
  simp only [if_neg h3]
  by_cases h4 : c = ']'
  · simp only [if_pos h4]
    by_cases h4a : s.stack = []
    · simp only [if_pos h4a]; exact ⟨by trivial, by trivial⟩
    simp only [if_neg h4a]
    by_cases h4b : s.stack.head? = some ContextType.OBJECT
    · simp only [if_pos h4b]; exact ⟨by trivial, by trivial⟩
    · simp only [if_neg h4b]; exact ⟨by trivial, by trivial⟩
  simp only [if_neg h4]
  by_cases h5 : c = '\x22' ∨ c = '\x27'
  · simp only [if_pos h5]; exact ⟨by trivial, by trivial⟩
  simp only [if_neg h5]
  by_cases h6 : c = ':'
  · simp only [if_pos h6]
    by_cases h6a : ¬s.needsColon = true ∧ s.stack ≠ []
    · simp only [if_pos h6a]; exact ⟨by trivial, by trivial⟩
    simp only [if_neg h6a]
    by_cases h6b : s.stack = []
    · simp only [if_pos h6b]; exact ⟨by trivial, by trivial⟩
    · simp only [if_neg h6b]; exact ⟨by trivial, by trivial⟩
  simp only [if_neg h6]
  by_cases h7 : c = ','
  · simp only [if_pos h7]; exact ⟨by trivial, by trivial⟩
  simp only [if_neg h7]
  by_cases h8 : ctQuote c.toNat = true
  · simp only [if_pos h8]; exact ⟨by trivial, by trivial⟩
  simp only [if_neg h8]
  by_cases h9 : s.expectingKeyOrEnd = true ∧ ctIdStart c.toNat = true
  · simp only [if_pos h9]; exact ⟨by trivial, by trivial⟩
  simp only [if_neg h9]
  by_cases h10 : (ctValueStart c.toNat || ctIdStart c.toNat) = true
  · simp only [if_pos h10]; exact ⟨by trivial, by trivial⟩
  · simp only [if_neg h10]; exact ⟨by trivial, by trivial⟩

lemma pushStep_sink (w w' : Bool) (s : IState) (c : Char) (g : Nat)
    (out : List String) (ev ev' : List REvent) (a : Option Char) :
    (pushStep w s c g out ev a).1 = (pushStep w' s c g out ev' a).1 ∧
    (pushStep w s c g out ev a).2.1 = (pushStep w' s c g out ev' a).2.1 ∧
    (pushStep w s c g out ev a).2.2.2 = (pushStep w' s c g out ev' a).2.2.2 := by
  unfold pushStep
  by_cases p1 : s.inSingleLineComment = true
  · simp only [if_pos p1]
    by_cases p1a : (c.toNat == 10 || c.toNat == 13) = true
    · simp only [if_pos p1a]; exact ⟨by trivial, by trivial, by trivial⟩
    · simp only [if_neg p1a]; exact ⟨by trivial, by trivial, by trivial⟩
  simp only [if_neg p1]
  by_cases p2 : s.inMultiLineComment = true
  · simp only [if_pos p2]
    by_cases p2a : c = '*' ∧ a = some '/'
    · simp only [if_pos p2a]; exact ⟨by trivial, by trivial, by trivial⟩
    · simp only [if_neg p2a]; exact ⟨by trivial, by trivial, by trivial⟩
  simp only [if_neg p2]
  by_cases p3 : s.inString = true
  · simp only [if_pos p3]
    by_cases p3a : s.escaped = true
    · simp only [if_pos p3a]; exact ⟨by trivial, by trivial, by trivial⟩
    simp only [if_neg p3a]
    by_cases p3b : c = '\x5c'
    · simp only [if_pos p3b]; exact ⟨by trivial, by trivial, by trivial⟩
    simp only [if_neg p3b]
    by_cases p3c : (c.toNat == s.stringQuote.toNat) = true ∨
        (s.stringQuote ≠ '\x22' ∧ ctQuote c.toNat = true)
    · simp only [if_pos p3c]; exact ⟨by trivial, by trivial, by trivial⟩
    · simp only [if_neg p3c]; exact ⟨by trivial, by trivial, by trivial⟩
  simp only [if_neg p3]
  by_cases p4 : s.inUnquotedKey = true ∧ isKeyChar c.toNat = true
  · simp only [if_pos p4]; exact ⟨by trivial, by trivial, by trivial⟩
  simp only [if_neg p4]
  by_cases p5 : s.inUnquotedKey = true
  · simp only [if_pos p5]
    by_cases p6 : s.inValue = true ∧ isPushValueChar c.toNat = true
    · simp only [if_pos p6]; exact ⟨by trivial, by trivial, by trivial⟩
    simp only [if_neg p6]
    by_cases p7 : c = '/' ∧ a = some '/'
    · simp only [if_pos p7]; exact ⟨by trivial, by trivial, by trivial⟩
    simp only [if_neg p7]
    by_cases p8 : c = '/' ∧ a = some '*'
    · simp only [if_pos p8]; exact ⟨by trivial, by trivial, by trivial⟩
    simp only [if_neg p8]
    by_cases p9 : ctWhitespace c.toNat = true
    · simp only [if_pos p9]; exact ⟨by trivial, by trivial, by trivial⟩
    simp only [if_neg p9]
    by_cases pv : s.inValue = true
    · simp only [if_pos pv, Bool.false_eq_true, and_false, if_false]
      exact ⟨(structuralStepI_sink w w' _ c g _ _ _).1,
             (structuralStepI_sink w w' _ c g _ _ _).2, by trivial⟩
    · simp only [if_neg pv]
      by_cases p10 : c = '+' ∧ s.justClosedString = true
      · simp only [if_pos p10]; exact ⟨by trivial, by trivial, by trivial⟩
      simp only [if_neg p10]
      exact ⟨(structuralStepI_sink w w' _ c g _ _ _).1,
             (structuralStepI_sink w w' _ c g _ _ _).2, by trivial⟩
  · simp only [if_neg p5]
    by_cases p6 : s.inValue = true ∧ isPushValueChar c.toNat = true
    · simp only [if_pos p6]; exact ⟨by trivial, by trivial, by trivial⟩
    simp only [if_neg p6]
    by_cases p7 : c = '/' ∧ a = some '/'
    · simp only [if_pos p7]; exact ⟨by trivial, by trivial, by trivial⟩
    simp only [if_neg p7]
    by_cases p8 : c = '/' ∧ a = some '*'
    · simp only [if_pos p8]; exact ⟨by trivial, by trivial, by trivial⟩
    simp only [if_neg p8]
    by_cases p9 : ctWhitespace c.toNat = true
    · simp only [if_pos p9]; exact ⟨by trivial, by trivial, by trivial⟩
    simp only [if_neg p9]
    by_cases pv : s.inValue = true
    · simp only [if_pos pv, Bool.false_eq_true, and_false, if_false]
      exact ⟨(structuralStepI_sink w w' _ c g _ _ _).1,
             (structuralStepI_sink w w' _ c g _ _ _).2, by trivial⟩
    · simp only [if_neg pv]
      by_cases p10 : c = '+' ∧ s.justClosedString = true
      · simp only [if_pos p10]; exact ⟨by trivial, by trivial, by trivial⟩
      simp only [if_neg p10]
      exact ⟨(structuralStepI_sink w w' _ c g _ _ _).1,
             (structuralStepI_sink w w' _ c g _ _ _).2, by trivial⟩

/-- The closing fragments appended by `end`, as a function of the stack
alone (the sink cannot change them). -/
def endCloseFrags : List ContextType → List String → List String
  | [], out => out
  | ctx :: rest, out =>
    match ctx with
    | ContextType.OBJECT => endCloseFrags rest ("\x7d" :: out)
    | ContextType.ARRAY => endCloseFrags rest ("]" :: out)
    | ContextType.STRING => endCloseFrags rest out

lemma endDrain_fst : ∀ (st : List ContextType) (w : Bool) (idx : Nat)
    (out : List String) (ev : List REvent),
    (endDrain w idx st out ev).1 = endCloseFrags st out := by
  intro st
  induction st with
  | nil => intro w idx out ev; rfl
  | cons ctx rest ih =>
    intro w idx out ev
    cases ctx <;> simp only [endDrain, endCloseFrags] <;> apply ih

lemma pushAux_sink_fuel : ∀ (n : Nat) (l : List Char), l.length ≤ n →
    ∀ (w w' : Bool) (s : IState) (g : Nat) (out : List String)
      (ev ev' : List REvent),
    (pushAux w s g out ev l).1 = (pushAux w' s g out ev' l).1 ∧
    (pushAux w s g out ev l).2.1 = (pushAux w' s g out ev' l).2.1 := by
  intro n
  induction n with
  | zero =>
    intro l hl w w' s g out ev ev'
    rw [List.eq_nil_of_length_eq_zero (Nat.le_zero.mp hl)]
    exact ⟨rfl, rfl⟩
  | succ n ih =>
    intro l hl w w' s g out ev ev'
    cases l with
    | nil => exact ⟨rfl, rfl⟩
    | cons c rest =>
      have hs := pushStep_sink w w' s c g out ev ev' rest.head?
      rcases e1 : pushStep w s c g out ev rest.head? with ⟨s1, out1, ev1, k1⟩
      rcases e2 : pushStep w' s c g out ev' rest.head? with ⟨s1', out1', ev1', k1'⟩
      rw [e1, e2] at hs
      obtain ⟨hss, hoo, hkk⟩ := hs
      dsimp only at hss hoo hkk
      subst hss hoo hkk
      simp only [pushAux, e1, e2]
      have hrest : rest.length ≤ n := by
        have := hl
        simp only [List.length_cons] at this
        omega
      cases k1 with
      | zero => exact ih rest hrest w w' s1 (g + 1) out1 ev1 ev1'
      | succ k =>
        cases rest with
        | nil => exact ⟨rfl, rfl⟩
        | cons d r1 =>
          have hr1 : r1.length ≤ n := by
            simp only [List.length_cons] at hrest
            omega
          exact ih r1 hr1 w w' s1 (g + 2) out1 ev1 ev1'

lemma pushAux_sink (l : List Char) (w w' : Bool) (s : IState) (g : Nat)
    (out : List String) (ev ev' : List REvent) :
    (pushAux w s g out ev l).1 = (pushAux w' s g out ev' l).1 ∧
    (pushAux w s g out ev l).2.1 = (pushAux w' s g out ev' l).2.1 :=
  pushAux_sink_fuel l.length l le_rfl w w' s g out ev ev'

/-- C8: the event sink never influences the repaired output — with or
without an `onRepair` callback, every `push` returns the same fragment
and leaves the same state, `end` returns the same closing fragment and
state, and a whole chunk sequence produces identical results. -/
theorem sink_does_not_affect_output :
    ∀ (s : IState) (chunk : String) (chunks : List String),
      (pushI true s chunk).1 = (pushI false s chunk).1 ∧
      (pushI true s chunk).2.2 = (pushI false s chunk).2.2 ∧
      (endI true s).1 = (endI false s).1 ∧
      (endI true s).2.2 = (endI false s).2.2 ∧
      pushAll true s chunks = pushAll false s chunks := by
  have key : ∀ (s : IState) (chunk : String),
      (pushI true s chunk).1 = (pushI false s chunk).1 ∧
      (pushI true s chunk).2.2 = (pushI false s chunk).2.2 := by
    intro s chunk
    have hp := pushAux_sink chunk.data true false s s.totalIndex [] [] []
    constructor
    · show String.join (pushAux true s s.totalIndex [] [] chunk.data).2.1.reverse =
        String.join (pushAux false s s.totalIndex [] [] chunk.data).2.1.reverse
      rw [hp.2]
    · show { (pushAux true s s.totalIndex [] [] chunk.data).1 with
               totalIndex := s.totalIndex + chunk.length } =
        { (pushAux false s s.totalIndex [] [] chunk.data).1 with
            totalIndex := s.totalIndex + chunk.length }
      rw [hp.1]
  have hall : ∀ (chunks : List String) (s : IState),
      pushAll true s chunks = pushAll false s chunks := by
    intro chunks
    induction chunks with
    | nil => intro s; rfl
    | cons c t ih =>
      intro s
      have hk := key s c
      simp only [pushAll]
      rw [hk.1, hk.2, ih ((pushI false s c).2.2)]
  intro s chunk chunks
  refine ⟨(key s chunk).1, (key s chunk).2, ?_, rfl, hall chunks s⟩
  unfold endI
  simp only [endDrain_fst]

/-- C7: `snapshot` returns exactly the string `end` would return in the
same state, and restores every state field, so the engine state after
`snapshot` is the state before it. -/
theorem snapshot_equals_end_and_preserves_state (w : Bool) (s : IState) :
    (snapshotI w s).1 = (endI w s).1 ∧ (snapshotI w s).2.2 = s :=
  ⟨rfl, rfl⟩

/-- C10: pushing the empty chunk returns the empty string, emits no
events and leaves the state unchanged; hence inserting an empty chunk
anywhere in a chunk sequence changes neither the concatenated output nor
the final state. -/
theorem push_empty_chunk_identity :
    (∀ (w : Bool) (s : IState), pushI w s "" = ("", [], s)) ∧
    (∀ (w : Bool) (s : IState) (l1 l2 : List String),
      pushAll w s (l1 ++ "" :: l2) = pushAll w s (l1 ++ l2)) := by
  refine ⟨fun w s => rfl, fun w s l1 l2 => ?_⟩
  induction l1 generalizing s with
  | nil =>
    show pushAll w s ("" :: l2) = pushAll w s l2
    simp only [pushAll]
    rw [show pushI w s "" = ("", [], s) from rfl]
    rcases h : pushAll w s l2 with ⟨outRest, sRest⟩
    simp
  | cons c t ih =>
    simp only [List.cons_append, pushAll, List.append_eq]
    rw [ih]

/-- C6 (counterexample): on `[1//x\n,2]` the batch scan writes the raw
line terminator `\n` into the output — not a normalized space — while
the incremental engine writes a space, so the two engines disagree and
the batch half of the claim is false. -/
theorem repairJson_line_comment_raw_newline :
    repairJson "[1//x\n,2]" = "[1\n,2]" ∧
    incrementalRun ["[1//x\n,2]"] = "[1 ,2]" ∧
    repairJson "[1//x\n,2]" ≠ "[1 ,2]" := by
  refine ⟨rfl, rfl, ?_⟩
  rw [show repairJson "[1//x\n,2]" = "[1\n,2]" from rfl]
  decide

/-- C6 (amended): inside a line comment every character is discarded in
both engines; at a line terminator the incremental `push` emits a single
normalized space, while the batch scan preserves the raw terminator
character itself. -/
theorem line_comment_terminator_handling :
    (∀ (w : Bool) (s : IState) (c : Char) (g : Nat) (out : List String)
       (ev : List REvent) (a : Option Char), s.inSingleLineComment = true →
      (c.toNat = 10 ∨ c.toNat = 13) →
      pushStep w s c g out ev a =
        ({ s with inSingleLineComment := false }, " " :: out, ev, 0)) ∧
    (∀ (w : Bool) (s : IState) (c : Char) (g : Nat) (out : List String)
       (ev : List REvent) (a : Option Char), s.inSingleLineComment = true →
      ¬(c.toNat = 10 ∨ c.toNat = 13) →
      pushStep w s c g out ev a = (s, out, ev, 0)) ∧
    (∀ (s : BState) (c : Char) (rest : List Char),
      s.inSingleLineComment = true → (c.toNat = 10 ∨ c.toNat = 13) →
      scanStep s c rest =
        some ({ s with inSingleLineComment := false, out := c :: s.out }, 0)) ∧
    (∀ (s : BState) (c : Char) (rest : List Char),
      s.inSingleLineComment = true → ¬(c.toNat = 10 ∨ c.toNat = 13) →
      scanStep s c rest = some (s, 0)) := by
  refine ⟨?_, ?_, ?_, ?_⟩
  · intro w s c g out ev a hc hnl
    have hb : (c.toNat == 10 || c.toNat == 13) = true := by
      rcases hnl with h | h <;> simp [h]
    unfold pushStep
    rw [if_pos hc, if_pos hb]
  · intro w s c g out ev a hc hnl
    have hb : (c.toNat == 10 || c.toNat == 13) = false := by
      push_neg at hnl
      simp [hnl.1, hnl.2]
    unfold pushStep
    rw [if_pos hc, if_neg (by simp [hb])]
  · intro s c rest hc hnl
    have hb : (c.toNat == 10 || c.toNat == 13) = true := by
      rcases hnl with h | h <;> simp [h]
    unfold scanStep
    rw [if_pos hc, if_pos hb]
  · intro s c rest hc hnl
    have hb : (c.toNat == 10 || c.toNat == 13) = false := by
      push_neg at hnl
      simp [hnl.1, hnl.2]
    unfold scanStep
    rw [if_pos hc, if_neg (by simp [hb])]

/-- Witness for the line-comment theorem: concrete comment states stepped
on a line feed and on `x`. -/
theorem line_comment_terminator_handling_witness :
    pushStep false { initI with inSingleLineComment := true } '\n' 0 [] [] none =
      ({ initI with inSingleLineComment := false }, [" "], [], 0) ∧
    pushStep false { initI with inSingleLineComment := true } 'x' 0 [] [] none =
      ({ initI with inSingleLineComment := true }, [], [], 0) ∧
    scanStep { initB with inSingleLineComment := true } '\n' [] =
      some ({ initB with inSingleLineComment := false, out := ['\n'] }, 0) ∧
    scanStep { initB with inSingleLineComment := true } 'x' [] =
      some ({ initB with inSingleLineComment := true }, 0) :=
  ⟨line_comment_terminator_handling.1 false _ '\n' 0 [] [] none rfl (Or.inl rfl),
   line_comment_terminator_handling.2.1 false _ 'x' 0 [] [] none rfl (by decide),
   line_comment_terminator_handling.2.2.1 _ '\n' [] rfl (Or.inl rfl),
   line_comment_terminator_handling.2.2.2 _ 'x' [] rfl (by decide)⟩

/-- Witness for the NDJSON wrap theorem: the documented NDJSON input has
root-element count 2, and the general wrap rule instantiates to it. -/
theorem repairJson_ndjson_wrap_witness :
    jsTrimEmpty ("\x7b\x22a\x22:1\x7d\n\x7b\x22b\x22:2\x7d").data = false ∧
    repairScan "\x7b\x22a\x22:1\x7d\n\x7b\x22b\x22:2\x7d" =
      some (("\x7b\x22a\x22:1\x7d ,\x7b\x22b\x22:2\x7d").data.reverse, 2) ∧
    repairJson "\x7b\x22a\x22:1\x7d\n\x7b\x22b\x22:2\x7d" =
      (if 1 < 2 then
        "[" ++ String.mk ("\x7b\x22a\x22:1\x7d ,\x7b\x22b\x22:2\x7d").data.reverse.reverse ++ "]"
       else
        String.mk ("\x7b\x22a\x22:1\x7d ,\x7b\x22b\x22:2\x7d").data.reverse.reverse) :=
  ⟨rfl, rfl,
   repairJson_ndjson_wrap.2.2 "\x7b\x22a\x22:1\x7d\n\x7b\x22b\x22:2\x7d"
     (("\x7b\x22a\x22:1\x7d ,\x7b\x22b\x22:2\x7d").data.reverse) 2 rfl rfl⟩

/-- The STRING-tag discipline of the context stack: while inside a string
the STRING tag is the top element and occurs nowhere below; outside a
string it does not occur at all. -/
def StringTagOkB (s : BState) : Prop :=
  (s.inString = true → s.stack.head? = some ContextType.STRING ∧
     ContextType.STRING ∉ s.stack.tail) ∧
  (s.inString = false → ContextType.STRING ∉ s.stack)

/-- The same STRING-tag discipline for the incremental engine. -/
def StringTagOkI (s : IState) : Prop :=
  (s.inString = true → s.stack.head? = some ContextType.STRING ∧
     ContextType.STRING ∉ s.stack.tail) ∧
  (s.inString = false → ContextType.STRING ∉ s.stack)

lemma stringTagOkB_transfer {s s' : BState} (hst : s'.stack = s.stack)
    (hin : s'.inString = s.inString) (h : StringTagOkB s) : StringTagOkB s' := by
  unfold StringTagOkB at h ⊢
  rw [hst, hin]
  exact h

lemma mongoStep_fields (s : BState) (c : Char) :
    (mongoStep s c).1.stack = s.stack ∧ (mongoStep s c).1.inString = s.inString ∧
    (mongoStep s c).1.inUnquotedKey = s.inUnquotedKey ∧
    (mongoStep s c).1.inValue = s.inValue := by
  refine ⟨?_, ?_, ?_, ?_⟩ <;> (unfold mongoStep; dsimp only; split_ifs <;> rfl)

lemma unquotedKeyStepB_fields (s : BState) (c : Char) :
    (unquotedKeyStepB s c).1.stack = s.stack ∧
    (unquotedKeyStepB s c).1.inString = s.inString ∧
    (unquotedKeyStepB s c).1.inValue = s.inValue := by
  refine ⟨?_, ?_, ?_⟩ <;> (unfold unquotedKeyStepB; split_ifs <;> rfl)

lemma valueStepB_fields (s : BState) (c : Char) (s' : BState) (b : Bool)
    (h : valueStepB s c = some (s', b)) :
    s'.stack = s.stack ∧ s'.inString = s.inString := by
  unfold valueStepB at h
  dsimp only at h
  by_cases h1 : isBatchValueChar c.toNat = true
  · rw [if_pos h1] at h
    simp only [Option.some.injEq, Prod.mk.injEq] at h
    rw [← h.1]
    exact ⟨rfl, rfl⟩
  rw [if_neg h1] at h
  by_cases h2 : c = '(' ∧ s.currentValue ∈ MONGO_WRAPPERS
  · rw [if_pos h2] at h
    by_cases h3 : s.currentValue.length ≤ s.out.length
    · rw [if_pos h3] at h
      simp only [Option.some.injEq, Prod.mk.injEq] at h
      rw [← h.1]
      exact ⟨rfl, rfl⟩
    · rw [if_neg h3] at h
      exact absurd h (by simp)
  rw [if_neg h2] at h
  cases hm : INCOMPLETE_LITERALS s.currentValue with
  | some comp =>
    simp only [hm] at h
    by_cases h3 : s.currentValue.length ≤ s.out.length
    · rw [if_pos h3] at h
      simp only [Option.some.injEq, Prod.mk.injEq] at h
      rw [← h.1]
      exact ⟨rfl, rfl⟩
    · rw [if_neg h3] at h
      exact absurd h (by simp)
  | none =>
    simp only [hm] at h
    simp only [Option.some.injEq, Prod.mk.injEq] at h
    rw [← h.1]
    exact ⟨rfl, rfl⟩


lemma structuralSwitchB_stringTag (s : BState) (c : Char)
    (h : StringTagOkB s) (hin : s.inString = false) :
    StringTagOkB (structuralSwitchB s c) := by
  have hmem : ContextType.STRING ∉ s.stack := h.2 hin
  have hmemtail : ContextType.STRING ∉ s.stack.tail :=
    fun hx => hmem (List.mem_of_mem_tail hx)
  have hopen : ∀ t : ContextType, t ≠ ContextType.STRING →
      ContextType.STRING ∉ t :: s.stack := by
    intro t ht hx
    rcases List.mem_cons.mp hx with hx | hx
    · exact ht hx.symm
    · exact hmem hx
  unfold structuralSwitchB
  by_cases h1 : c = '\x7b'
  · rw [if_pos h1]
    exact ⟨fun hh => by simp [hin] at hh,
           fun _ => hopen _ (by decide)⟩
  rw [if_neg h1]
  by_cases h2 : c = '\x7d'
  · rw [if_pos h2]
    refine ⟨fun hh => by simp [hin] at hh, fun _ => ?_⟩
    dsimp only
    split_ifs <;> first | exact hmemtail | exact hmem
  rw [if_neg h2]
  by_cases h3 : c = '['
  · rw [if_pos h3]
    exact ⟨fun hh => by simp [hin] at hh,
           fun _ => hopen _ (by decide)⟩
  rw [if_neg h3]
  by_cases h4 : c = ']'
  · rw [if_pos h4]
    by_cases h4a : s.stack = []
    · rw [if_pos h4a]; exact h
    rw [if_neg h4a]
    by_cases h4b : s.stack.head? = some ContextType.OBJECT
    · rw [if_pos h4b]; exact h
    rw [if_neg h4b]
    refine ⟨fun hh => by simp [hin] at hh, fun _ => ?_⟩
    dsimp only
    split_ifs <;> first | exact hmemtail | exact hmem
  rw [if_neg h4]
  by_cases h5 : c = '\x22' ∨ c = '\x27'
  · rw [if_pos h5]
    by_cases h5a : s.justClosedString = true
    · rw [if_pos h5a]
      exact ⟨fun _ => ⟨rfl, hmem⟩, fun hh => by simp at hh⟩
    · rw [if_neg h5a]
      exact ⟨fun _ => ⟨rfl, hmem⟩, fun hh => by simp at hh⟩
  rw [if_neg h5]
  by_cases h6 : c = ':'
  · rw [if_pos h6]
    by_cases h6a : ¬s.needsColon = true ∧ s.stack ≠ [] ∧
        s.stack.head? = some ContextType.OBJECT
    · rw [if_pos h6a]; exact h
    rw [if_neg h6a]
    by_cases h6b : s.stack = []
    · rw [if_pos h6b]; exact h
    · rw [if_neg h6b]; exact h
  rw [if_neg h6]
  by_cases h7 : c = ','
  · rw [if_pos h7]; exact h
  rw [if_neg h7]
  by_cases h8 : isQuoteChar c.toNat = true
  · rw [if_pos h8]
    by_cases h8a : s.justClosedString = true
    · rw [if_pos h8a]
      exact ⟨fun _ => ⟨rfl, hmem⟩, fun hh => by simp at hh⟩
    · rw [if_neg h8a]
      exact ⟨fun _ => ⟨rfl, hmem⟩, fun hh => by simp at hh⟩
  rw [if_neg h8]
  by_cases h9 : s.expectingKeyOrEnd = true ∧ isIdentifierStart c.toNat = true
  · rw [if_pos h9]; exact h
  rw [if_neg h9]
  by_cases h10 : c = 't' ∨ c = 'f' ∨ c = 'n' ∨ c = 'T' ∨ c = 'F' ∨ c = 'N' ∨
      c = '-' ∨ (48 ≤ c.toNat ∧ c.toNat ≤ 57) ∨
      (isIdentifierStart c.toNat = true ∧ ¬s.expectingKeyOrEnd = true)
  · rw [if_pos h10]; exact h
  · rw [if_neg h10]; exact h

lemma stringStepB_stringTag (s : BState) (c : Char)
    (h : StringTagOkB s) (hin : s.inString = true) :
    StringTagOkB (stringStepB s c) := by
  unfold stringStepB
  by_cases h1 : s.escaped = true
  · rw [if_pos h1]; exact h
  rw [if_neg h1]
  by_cases h2 : c = '\x5c'
  · rw [if_pos h2]; exact h
  rw [if_neg h2]
  by_cases h3 : (c.toNat == s.stringQuote.toNat) = true ∨
      (s.stringQuote ≠ '\x22' ∧ isQuoteChar c.toNat = true)
  · rw [if_pos h3]
    have hmem := (h.1 hin).2
    dsimp only
    split_ifs with h4 h5 <;>
      exact ⟨fun hh => by simp at hh, fun _ => hmem⟩
  · rw [if_neg h3]; exact h

lemma structuralStepI_stringTag (w : Bool) (s : IState) (c : Char) (g : Nat)
    (out : List String) (ev : List REvent)
    (h : StringTagOkI s) (hin : s.inString = false) :
    StringTagOkI (structuralStepI w s c g out ev).1 := by
  have hmem : ContextType.STRING ∉ s.stack := h.2 hin
  have hmemtail : ContextType.STRING ∉ s.stack.tail :=
    fun hx => hmem (List.mem_of_mem_tail hx)
  have hopen : ∀ t : ContextType, t ≠ ContextType.STRING →
      ContextType.STRING ∉ t :: s.stack := by
    intro t ht hx
    rcases List.mem_cons.mp hx with hx | hx
    · exact ht hx.symm
    · exact hmem hx
  unfold structuralStepI
  by_cases h1 : c = '\x7b'
  · simp only [if_pos h1]
    exact ⟨fun hh => by simp [hin] at hh, fun _ => hopen _ (by decide)⟩
  simp only [if_neg h1]
  by_cases h2 : c = '\x7d'
  · simp only [if_pos h2]
    refine ⟨fun hh => by simp [hin] at hh, fun _ => ?_⟩
    dsimp only
    split_ifs <;> first | exact hmemtail | exact hmem
  simp only [if_neg h2]
  by_cases h3 : c = '['
  · simp only [if_pos h3]
    exact ⟨fun hh => by simp [hin] at hh, fun _ => hopen _ (by decide)⟩
  simp only [if_neg h3]
  by_cases h4 : c = ']'
  · simp only [if_pos h4]
    by_cases h4a : s.stack = []
    · simp only [if_pos h4a]; exact h
    simp only [if_neg h4a]
    by_cases h4b : s.stack.head? = some ContextType.OBJECT
    · simp only [if_pos h4b]; exact h
    simp only [if_neg h4b]
    refine ⟨fun hh => by simp [hin] at hh, fun _ => ?_⟩
    dsimp only
    split_ifs <;> first | exact hmemtail | exact hmem
  simp only [if_neg h4]
  by_cases h5 : c = '\x22' ∨ c = '\x27'
  · simp only [if_pos h5]
    exact ⟨fun _ => ⟨rfl, hmem⟩, fun hh => by simp at hh⟩
  simp only [if_neg h5]
  by_cases h6 : c = ':'
  · simp only [if_pos h6]
    by_cases h6a : ¬s.needsColon = true ∧ s.stack ≠ []
    · simp only [if_pos h6a]; exact h
    simp only [if_neg h6a]
    by_cases h6b : s.stack = []
    · simp only [if_pos h6b]; exact h
    · simp only [if_neg h6b]; exact h
  simp only [if_neg h6]
  by_cases h7 : c = ','
  · simp only [if_pos h7]; exact h
  simp only [if_neg h7]
  by_cases h8 : ctQuote c.toNat = true
  · simp only [if_pos h8]
    exact ⟨fun _ => ⟨rfl, hmem⟩, fun hh => by simp at hh⟩
  simp only [if_neg h8]
  by_cases h9 : s.expectingKeyOrEnd = true ∧ ctIdStart c.toNat = true
  · simp only [if_pos h9]; exact h
  simp only [if_neg h9]
  by_cases h10 : (ctValueStart c.toNat || ctIdStart c.toNat) = true
  · simp only [if_pos h10]; exact h
  · simp only [if_neg h10]; exact h


lemma pushStep_stringTag (w : Bool) (s : IState) (c : Char) (g : Nat)
    (out : List String) (ev : List REvent) (a : Option Char)
    (h : StringTagOkI s) : StringTagOkI (pushStep w s c g out ev a).1 := by
  unfold pushStep
  by_cases p1 : s.inSingleLineComment = true
  · simp only [if_pos p1]
    by_cases p1a : (c.toNat == 10 || c.toNat == 13) = true
    · simp only [if_pos p1a]; exact h
    · simp only [if_neg p1a]; exact h
  simp only [if_neg p1]
  by_cases p2 : s.inMultiLineComment = true
  · simp only [if_pos p2]
    by_cases p2a : c = '*' ∧ a = some '/'
    · simp only [if_pos p2a]; exact h
    · simp only [if_neg p2a]; exact h
  simp only [if_neg p2]
  by_cases p3 : s.inString = true
  · simp only [if_pos p3]
    by_cases p3a : s.escaped = true
    · simp only [if_pos p3a]; exact h
    simp only [if_neg p3a]
    by_cases p3b : c = '\x5c'
    · simp only [if_pos p3b]; exact h
    simp only [if_neg p3b]
    by_cases p3c : (c.toNat == s.stringQuote.toNat) = true ∨
        (s.stringQuote ≠ '\x22' ∧ ctQuote c.toNat = true)
    · simp only [if_pos p3c]
      have hmem := (h.1 p3).2
      split_ifs <;> exact ⟨fun hh => by simp at hh, fun _ => hmem⟩
    · simp only [if_neg p3c]; exact h
  simp only [if_neg p3]
  have hin : s.inString = false := by
    revert p3; cases s.inString <;> simp
  by_cases p4 : s.inUnquotedKey = true ∧ isKeyChar c.toNat = true
  · simp only [if_pos p4]; exact h
  simp only [if_neg p4]
  by_cases p5 : s.inUnquotedKey = true
  · simp only [if_pos p5]
    by_cases p6 : s.inValue = true ∧ isPushValueChar c.toNat = true
    · simp only [if_pos p6]; exact h
    simp only [if_neg p6]
    by_cases pv : s.inValue = true
    · simp only [if_pos pv]
      by_cases p7 : c = '/' ∧ a = some '/'
      · simp only [if_pos p7]; exact h
      simp only [if_neg p7]
      by_cases p8 : c = '/' ∧ a = some '*'
      · simp only [if_pos p8]; exact h
      simp only [if_neg p8]
      by_cases p9 : ctWhitespace c.toNat = true
      · simp only [if_pos p9]; exact h
      simp only [if_neg p9]
      simp only [Bool.false_eq_true, and_false, if_false]
      by_cases pr : c ≠ '\x22' ∧ c ≠ '\x27' ∧ ¬ctQuote c.toNat = true
      · simp only [if_pos pr]
        exact structuralStepI_stringTag w _ c g _ _
          ⟨fun hh => by simp [hin] at hh, fun _ => h.2 hin⟩ (by simp [hin])
      · simp only [if_neg pr]
        exact structuralStepI_stringTag w _ c g _ _
          ⟨fun hh => by simp [hin] at hh, fun _ => h.2 hin⟩ (by simp [hin])
    · simp only [if_neg pv]
      by_cases p7 : c = '/' ∧ a = some '/'
      · simp only [if_pos p7]; exact h
      simp only [if_neg p7]
      by_cases p8 : c = '/' ∧ a = some '*'
      · simp only [if_pos p8]; exact h
      simp only [if_neg p8]
      by_cases p9 : ctWhitespace c.toNat = true
      · simp only [if_pos p9]; exact h
      simp only [if_neg p9]
      by_cases p10 : c = '+' ∧ s.justClosedString = true
      · simp only [if_pos p10]; exact h
      simp only [if_neg p10]
      by_cases pr : c ≠ '\x22' ∧ c ≠ '\x27' ∧ ¬ctQuote c.toNat = true
      · simp only [if_pos pr]
        exact structuralStepI_stringTag w _ c g _ _
          ⟨fun hh => by simp [hin] at hh, fun _ => h.2 hin⟩ (by simp [hin])
      · simp only [if_neg pr]
        exact structuralStepI_stringTag w _ c g _ _
          ⟨fun hh => by simp [hin] at hh, fun _ => h.2 hin⟩ (by simp [hin])
  · simp only [if_neg p5]
    by_cases p6 : s.inValue = true ∧ isPushValueChar c.toNat = true
    · simp only [if_pos p6]; exact h
    simp only [if_neg p6]
    by_cases pv : s.inValue = true
    · simp only [if_pos pv]
      by_cases p7 : c = '/' ∧ a = some '/'
      · simp only [if_pos p7]; exact h
      simp only [if_neg p7]
      by_cases p8 : c = '/' ∧ a = some '*'
      · simp only [if_pos p8]; exact h
      simp only [if_neg p8]
      by_cases p9 : ctWhitespace c.toNat = true
      · simp only [if_pos p9]; exact h
      simp only [if_neg p9]
      simp only [Bool.false_eq_true, and_false, if_false]
      by_cases pr : c ≠ '\x22' ∧ c ≠ '\x27' ∧ ¬ctQuote c.toNat = true
      · simp only [if_pos pr]
        exact structuralStepI_stringTag w _ c g _ _
          ⟨fun hh => by simp [hin] at hh, fun _ => h.2 hin⟩ (by simp [hin])
      · simp only [if_neg pr]
        exact structuralStepI_stringTag w _ c g _ _
          ⟨fun hh => by simp [hin] at hh, fun _ => h.2 hin⟩ (by simp [hin])
    · simp only [if_neg pv]
      by_cases p7 : c = '/' ∧ a = some '/'
      · simp only [if_pos p7]; exact h
      simp only [if_neg p7]
      by_cases p8 : c = '/' ∧ a = some '*'
      · simp only [if_pos p8]; exact h
      simp only [if_neg p8]
      by_cases p9 : ctWhitespace c.toNat = true
      · simp only [if_pos p9]; exact h
      simp only [if_neg p9]
      by_cases p10 : c = '+' ∧ s.justClosedString = true
      · simp only [if_pos p10]; exact h
      simp only [if_neg p10]
      by_cases pr : c ≠ '\x22' ∧ c ≠ '\x27' ∧ ¬ctQuote c.toNat = true
      · simp only [if_pos pr]
        exact structuralStepI_stringTag w _ c g _ _
          ⟨fun hh => by simp [hin] at hh, fun _ => h.2 hin⟩ (by simp [hin])
      · simp only [if_neg pr]
        exact structuralStepI_stringTag w _ c g _ _
          ⟨fun hh => by simp [hin] at hh, fun _ => h.2 hin⟩ (by simp [hin])

lemma structuralStepB_stringTag (s : BState) (c : Char) (n1 n2 : Option Char)
    (h : StringTagOkB s) (hin : s.inString = false) :
    StringTagOkB (structuralStepB s c n1 n2).1 := by
  unfold structuralStepB
  by_cases t1 : c = '/' ∧ n1 = some '/'
  · rw [if_pos t1]; exact h
  rw [if_neg t1]
  by_cases t2 : c = '/' ∧ n1 = some '*'
  · rw [if_pos t2]; exact h
  rw [if_neg t2]
  by_cases t3 : isWhitespace c.toNat = true
  · rw [if_pos t3]; exact h
  rw [if_neg t3]
  by_cases t4 : c = '.' ∧ n1 = some '.' ∧ n2 = some '.'
  · rw [if_pos t4]; exact h
  rw [if_neg t4]
  by_cases t5 : c = '+' ∧ s.justClosedString = true
  · rw [if_pos t5]; exact h
  rw [if_neg t5]
  dsimp only
  by_cases t0 : c ≠ '\x22' ∧ c ≠ '\x27' ∧ ¬isQuoteChar c.toNat = true ∧
      ¬isWhitespace c.toNat = true
  · rw [if_pos t0]
    exact structuralSwitchB_stringTag _ c h hin
  · rw [if_neg t0]
    exact structuralSwitchB_stringTag _ c h hin

lemma scanStep_stringTag (s : BState) (c : Char) (rest : List Char)
    (s' : BState) (k : Nat) (h : StringTagOkB s)
    (hstep : scanStep s c rest = some (s', k)) : StringTagOkB s' := by
  unfold scanStep at hstep
  by_cases p1 : s.inSingleLineComment = true
  · rw [if_pos p1] at hstep
    by_cases p1a : (c.toNat == 10 || c.toNat == 13) = true
    · rw [if_pos p1a] at hstep
      simp only [Option.some.injEq, Prod.mk.injEq] at hstep
      rw [← hstep.1]
      exact h
    · rw [if_neg p1a] at hstep
      simp only [Option.some.injEq, Prod.mk.injEq] at hstep
      rw [← hstep.1]
      exact h
  rw [if_neg p1] at hstep
  by_cases p2 : s.inMultiLineComment = true
  · rw [if_pos p2] at hstep
    by_cases p2a : c = '*' ∧ rest.head? = some '/'
    · rw [if_pos p2a] at hstep
      simp only [Option.some.injEq, Prod.mk.injEq] at hstep
      rw [← hstep.1]
      exact h
    · rw [if_neg p2a] at hstep
      simp only [Option.some.injEq, Prod.mk.injEq] at hstep
      rw [← hstep.1]
      exact h
  rw [if_neg p2] at hstep
  dsimp only at hstep
  rcases hm : mongoStep s c with ⟨sm, mc⟩
  rw [hm] at hstep
  dsimp only at hstep
  have hmf := mongoStep_fields s c
  rw [hm] at hmf
  dsimp only at hmf
  have hOkm : StringTagOkB sm := stringTagOkB_transfer hmf.1 hmf.2.1 h
  cases mc with
  | true =>
    rw [if_pos rfl] at hstep
    simp only [Option.some.injEq, Prod.mk.injEq] at hstep
    rw [← hstep.1]
    exact hOkm
  | false =>
    rw [if_neg (by simp)] at hstep
    by_cases ps : sm.inString = true
    · rw [if_pos ps] at hstep
      simp only [Option.some.injEq, Prod.mk.injEq] at hstep
      rw [← hstep.1]
      exact stringStepB_stringTag sm c hOkm ps
    rw [if_neg ps] at hstep
    have hsin : sm.inString = false := by revert ps; cases sm.inString <;> simp
    rcases hk : (if sm.inUnquotedKey then unquotedKeyStepB sm c else (sm, false))
      with ⟨sk, kc⟩
    rw [hk] at hstep
    dsimp only at hstep
    have hkf : sk.stack = sm.stack ∧ sk.inString = sm.inString ∧
        sk.inValue = sm.inValue := by
      by_cases pk : sm.inUnquotedKey = true
      · rw [if_pos pk] at hk
        have hf := unquotedKeyStepB_fields sm c
        rw [hk] at hf
        exact hf
      · rw [if_neg pk] at hk
        simp only [Prod.mk.injEq] at hk
        rw [← hk.1]
        exact ⟨rfl, rfl, rfl⟩
    have hOkk : StringTagOkB sk := stringTagOkB_transfer hkf.1 hkf.2.1 hOkm
    cases kc with
    | true =>
      rw [if_pos rfl] at hstep
      simp only [Option.some.injEq, Prod.mk.injEq] at hstep
      rw [← hstep.1]
      exact hOkk
    | false =>
      rw [if_neg (by simp)] at hstep
      rcases hv : (if sk.inValue = true then valueStepB sk c else some (sk, false))
        with _ | ⟨s3, vc⟩
      · rw [hv] at hstep
        exact absurd hstep (by simp)
      rw [hv] at hstep
      dsimp only at hstep
      have hvf : s3.stack = sk.stack ∧ s3.inString = sk.inString := by
        by_cases pv : sk.inValue = true
        · rw [if_pos pv] at hv
          exact valueStepB_fields sk c s3 vc hv
        · rw [if_neg pv] at hv
          simp only [Option.some.injEq, Prod.mk.injEq] at hv
          rw [← hv.1]
          exact ⟨rfl, rfl⟩
      have hOk3 : StringTagOkB s3 := stringTagOkB_transfer hvf.1 hvf.2 hOkk
      have h3in : s3.inString = false := by rw [hvf.2, hkf.2.1, hsin]
      cases vc with
      | true =>
        rw [if_pos rfl] at hstep
        simp only [Option.some.injEq, Prod.mk.injEq] at hstep
        rw [← hstep.1]
        exact hOk3
      | false =>
        rw [if_neg (by simp)] at hstep
        simp only [Option.some.injEq] at hstep
        have hs' : s' = (structuralStepB s3 c rest.head? (rest.drop 1).head?).1 := by
          rw [hstep]
        rw [hs']
        exact structuralStepB_stringTag s3 c _ _ hOk3 h3in

lemma stringTagOkI_transfer {s s' : IState} (hst : s'.stack = s.stack)
    (hin : s'.inString = s.inString) (h : StringTagOkI s) : StringTagOkI s' := by
  unfold StringTagOkI at h ⊢
  rw [hst, hin]
  exact h

lemma stringTagOkB_init : StringTagOkB initB :=
  ⟨fun h => absurd h (by decide), fun _ => List.not_mem_nil _⟩

lemma stringTagOkI_init : StringTagOkI initI :=
  ⟨fun h => absurd h (by decide), fun _ => List.not_mem_nil _⟩

lemma scanO_stringTag_fuel : ∀ (n : Nat) (l : List Char) (s s' : BState),
    l.length ≤ n → StringTagOkB s → scanO s l = some s' → StringTagOkB s' := by
  intro n
  induction n with
  | zero =>
    intro l s s' hl h hscan
    rw [List.eq_nil_of_length_eq_zero (Nat.le_zero.mp hl)] at hscan
    have : s = s' := Option.some.inj hscan
    rw [← this]
    exact h
  | succ n ih =>
    intro l s s' hl h hscan
    cases l with
    | nil =>
      have : s = s' := Option.some.inj hscan
      rw [← this]
      exact h
    | cons c rest =>
      rw [scanO] at hscan
      rcases hst : scanStep s c rest with _ | ⟨s1, skip⟩
      · rw [hst] at hscan
        exact absurd hscan (by simp)
      rw [hst] at hscan
      have h1 : StringTagOkB s1 := scanStep_stringTag s c rest s1 skip h hst
      have hlen : rest.length ≤ n := by
        simp only [List.length_cons] at hl
        omega
      cases skip with
      | zero => exact ih rest s1 s' hlen h1 hscan
      | succ k =>
        cases k with
        | zero =>
          cases rest with
          | nil =>
            have : s1 = s' := Option.some.inj hscan
            rw [← this]
            exact h1
          | cons a r1 =>
            refine ih r1 s1 s' ?_ h1 hscan
            simp only [List.length_cons] at hlen
            omega
        | succ m =>
          cases rest with
          | nil =>
            have : s1 = s' := Option.some.inj hscan
            rw [← this]
            exact h1
          | cons a r1 =>
            cases r1 with
            | nil =>
              have : s1 = s' := Option.some.inj hscan
              rw [← this]
              exact h1
            | cons b r2 =>
              refine ih r2 s1 s' ?_ h1 hscan
              simp only [List.length_cons] at hlen
              omega

lemma pushAux_stringTag_fuel : ∀ (n : Nat) (l : List Char) (w : Bool)
    (s : IState) (g : Nat) (out : List String) (ev : List REvent),
    l.length ≤ n → StringTagOkI s → StringTagOkI (pushAux w s g out ev l).1 := by
  intro n
  induction n with
  | zero =>
    intro l w s g out ev hl h
    rw [List.eq_nil_of_length_eq_zero (Nat.le_zero.mp hl)]
    exact h
  | succ n ih =>
    intro l w s g out ev hl h
    cases l with
    | nil => exact h
    | cons c rest =>
      rw [pushAux]
      rcases hps : pushStep w s c g out ev rest.head? with ⟨s1, out1, ev1, skip⟩
      have h1 : StringTagOkI s1 := by
        have hp := pushStep_stringTag w s c g out ev rest.head? h
        rw [hps] at hp
        exact hp
      have hlen : rest.length ≤ n := by
        simp only [List.length_cons] at hl
        omega
      cases skip with
      | zero => exact ih rest w s1 (g + 1) out1 ev1 hlen h1
      | succ k =>
        cases rest with
        | nil => exact h1
        | cons a r1 =>
          refine ih r1 w s1 (g + 2) out1 ev1 ?_ h1
          simp only [List.length_cons] at hlen
          omega

lemma pushI_stringTag (w : Bool) (s : IState) (chunk : String)
    (h : StringTagOkI s) : StringTagOkI (pushI w s chunk).2.2 :=
  stringTagOkI_transfer rfl rfl
    (pushAux_stringTag_fuel chunk.data.length chunk.data w s s.totalIndex [] []
      (le_refl _) h)

lemma pushAll_stringTag : ∀ (chunks : List String) (w : Bool) (s : IState),
    StringTagOkI s → StringTagOkI (pushAll w s chunks).2 := by
  intro chunks
  induction chunks with
  | nil => intro w s h; exact h
  | cons c rest ih =>
    intro w s h
    exact ih w (pushI w s c).2.2 (pushI_stringTag w s c h)

/-- C9: In every batch state reachable by the scan loop of `repairJson`
from the initial state, and in the engine state after every sequence of
incremental `push` calls, the STRING tag heads the context stack exactly
when `inString` is set and occurs nowhere else in the stack; moreover the
step consuming the closing quote character pops the tag (the stack becomes
its tail) and clears `inString`, in both engines. -/
theorem string_tag_invariant :
    (∀ (l : List Char) (s' : BState), scanO initB l = some s' →
      StringTagOkB s') ∧
    (∀ (w : Bool) (chunks : List String),
      StringTagOkI (pushAll w initI chunks).2) ∧
    (∀ (s : BState) (c : Char), s.escaped = false → ¬c = '\x5c' →
      (c.toNat == s.stringQuote.toNat ∨
        (s.stringQuote ≠ '\x22' ∧ isQuoteChar c.toNat)) →
      (stringStepB s c).stack = s.stack.tail ∧
      (stringStepB s c).inString = false) ∧
    (∀ (w : Bool) (s : IState) (c : Char) (g : Nat) (out : List String)
       (ev : List REvent) (a : Option Char),
      s.inSingleLineComment = false → s.inMultiLineComment = false →
      s.inString = true → s.escaped = false → ¬c = '\x5c' →
      (c.toNat == s.stringQuote.toNat ∨
        (s.stringQuote ≠ '\x22' ∧ ctQuote c.toNat)) →
      (pushStep w s c g out ev a).1.stack = s.stack.tail ∧
      (pushStep w s c g out ev a).1.inString = false) := by
  refine ⟨?_, ?_, ?_, ?_⟩
  · intro l s' hscan
    exact scanO_stringTag_fuel l.length l initB s' (le_refl _)
      stringTagOkB_init hscan
  · intro w chunks
    exact pushAll_stringTag chunks w initI stringTagOkI_init
  · intro s c hesc hbs hq
    unfold stringStepB
    rw [if_neg (by simp [hesc]), if_neg hbs, if_pos hq]
    dsimp only
    split_ifs <;> exact ⟨rfl, rfl⟩
  · intro w s c g out ev a h1 h2 h3 hesc hbs hq
    unfold pushStep
    dsimp only
    rw [if_neg (by simp [h1]), if_neg (by simp [h2]), if_pos h3,
        if_neg (by simp [hesc]), if_neg hbs, if_pos hq]
    dsimp only
    split_ifs <;> exact ⟨rfl, rfl⟩

theorem string_tag_invariant_witness :
    StringTagOkB ((scanO initB "[1,\x22a".data).getD initB) ∧
    StringTagOkI (pushAll true initI ["[1", ",\x22a\x22"]).2 ∧
    ((stringStepB { initB with inString := true, stack := [ContextType.STRING] } '\x22').stack =
      ({ initB with inString := true, stack := [ContextType.STRING] } : BState).stack.tail ∧
     (stringStepB { initB with inString := true, stack := [ContextType.STRING] } '\x22').inString = false) ∧
    ((pushStep false { initI with inString := true, stack := [ContextType.STRING] } '\x22' 0 [] [] none).1.stack =
      ({ initI with inString := true, stack := [ContextType.STRING] } : IState).stack.tail ∧
     (pushStep false { initI with inString := true, stack := [ContextType.STRING] } '\x22' 0 [] [] none).1.inString =
      false) :=
  ⟨string_tag_invariant.1 "[1,\x22a".data _ rfl,
   string_tag_invariant.2.1 true ["[1", ",\x22a\x22"],
   string_tag_invariant.2.2.1 _ '\x22' rfl (by decide) (by decide),
   string_tag_invariant.2.2.2 false _ '\x22' 0 [] [] none rfl rfl rfl rfl
     (by decide) (by decide)⟩

/-- Safety of the batch value-buffer retraction: while accumulating a
value the output buffer is at least as long as the pending value text, so
subtracting `currentValue.length` from the write index cannot underflow. -/
def ValOkB (s : BState) : Prop :=
  s.inValue = true → s.currentValue.length ≤ s.out.length

lemma valOkB_grow {s s' : BState} (k : List Char) (hout : s'.out = k ++ s.out)
    (hcv : s'.currentValue = s.currentValue) (hiv : s'.inValue = s.inValue)
    (h : ValOkB s) : ValOkB s' := by
  intro hi
  rw [hcv, hout]
  have h1 : s.currentValue.length ≤ s.out.length := h (hiv ▸ hi)
  have h2 : s.out.length ≤ (k ++ s.out).length := by
    simp only [List.length_append]
    omega
  exact le_trans h1 h2

lemma valOkB_init : ValOkB initB := fun hi => absurd hi (by decide)

lemma mongoStep_val (s : BState) (c : Char) :
    (mongoStep s c).1.out = s.out ∧
    (mongoStep s c).1.currentValue = s.currentValue := by
  refine ⟨?_, ?_⟩ <;> (unfold mongoStep; dsimp only; split_ifs <;> rfl)

lemma stringStepB_val (s : BState) (c : Char) :
    ∃ k, (stringStepB s c).out = k ++ s.out ∧
      (stringStepB s c).currentValue = s.currentValue ∧
      (stringStepB s c).inValue = s.inValue := by
  unfold stringStepB
  dsimp only
  split_ifs <;> exact ⟨[_], rfl, rfl, rfl⟩

lemma unquotedKeyStepB_val (s : BState) (c : Char) :
    ∃ k, (unquotedKeyStepB s c).1.out = k ++ s.out ∧
      (unquotedKeyStepB s c).1.currentValue = s.currentValue ∧
      (unquotedKeyStepB s c).1.inValue = s.inValue := by
  unfold unquotedKeyStepB
  split_ifs
  · exact ⟨[], rfl, rfl, rfl⟩
  · exact ⟨[], rfl, rfl, rfl⟩
  · exact ⟨'\x22' :: (s.unquotedKey.data.reverse ++ ['\x22']), by simp, rfl, rfl⟩

lemma valueStepB_total (s : BState) (c : Char)
    (h : s.currentValue.length ≤ s.out.length) :
    ∃ s3 vc, valueStepB s c = some (s3, vc) ∧ ValOkB s3 ∧
      (vc = false → s3.inValue = false) := by
  unfold valueStepB
  by_cases h1 : isBatchValueChar c.toNat = true
  · rw [if_pos h1]
    refine ⟨_, _, rfl, ?_, ?_⟩
    · intro _
      show (s.currentValue.data ++ [c]).length ≤ s.out.length + 1
      simp only [List.length_append, List.length_cons, List.length_nil]
      have h' : s.currentValue.data.length ≤ s.out.length := h
      omega
    · intro hvc
      exact absurd hvc (by simp)
  · rw [if_neg h1]
    dsimp only
    split_ifs with h2
    · exact ⟨_, _, rfl, fun hi => absurd (show false = true from hi) (by simp),
        fun hvc => absurd hvc (by simp)⟩
    · rcases hil : INCOMPLETE_LITERALS s.currentValue with _ | comp
      · exact ⟨_, _, rfl, fun hi => absurd (show false = true from hi) (by simp),
          fun _ => rfl⟩
      · exact ⟨_, _, rfl, fun hi => absurd (show false = true from hi) (by simp),
          fun _ => rfl⟩

lemma structuralSwitchB_val (s : BState) (c : Char) (hiv : s.inValue = false) :
    ValOkB (structuralSwitchB s c) := by
  have hclose : ∀ b, s.inValue = true → b := fun b hi => absurd hi (by simp [hiv])
  unfold structuralSwitchB
  by_cases h1 : c = '\x7b'
  · rw [if_pos h1]
    exact fun hi => hclose _ (show s.inValue = true from hi)
  rw [if_neg h1]
  by_cases h2 : c = '\x7d'
  · rw [if_pos h2]
    exact fun hi => hclose _ (show s.inValue = true from hi)
  rw [if_neg h2]
  by_cases h3 : c = '['
  · rw [if_pos h3]
    exact fun hi => hclose _ (show s.inValue = true from hi)
  rw [if_neg h3]
  by_cases h4 : c = ']'
  · rw [if_pos h4]
    by_cases h4a : s.stack = []
    · rw [if_pos h4a]
      exact fun hi => hclose _ (show s.inValue = true from hi)
    rw [if_neg h4a]
    by_cases h4b : s.stack.head? = some ContextType.OBJECT
    · rw [if_pos h4b]
      exact fun hi => hclose _ (show s.inValue = true from hi)
    rw [if_neg h4b]
    exact fun hi => hclose _ (show s.inValue = true from hi)
  rw [if_neg h4]
  by_cases h5 : c = '\x22' ∨ c = '\x27'
  · rw [if_pos h5]
    by_cases h5a : s.justClosedString = true
    · rw [if_pos h5a]
      exact fun hi => hclose _ (show s.inValue = true from hi)
    · rw [if_neg h5a]
      exact fun hi => hclose _ (show s.inValue = true from hi)
  rw [if_neg h5]
  by_cases h6 : c = ':'
  · rw [if_pos h6]
    by_cases h6a : ¬s.needsColon = true ∧ s.stack ≠ [] ∧
        s.stack.head? = some ContextType.OBJECT
    · rw [if_pos h6a]
      exact fun hi => hclose _ (show s.inValue = true from hi)
    rw [if_neg h6a]
    by_cases h6b : s.stack = []
    · rw [if_pos h6b]
      exact fun hi => hclose _ (show s.inValue = true from hi)
    · rw [if_neg h6b]
      exact fun hi => hclose _ (show s.inValue = true from hi)
  rw [if_neg h6]
  by_cases h7 : c = ','
  · rw [if_pos h7]
    exact fun hi => hclose _ (show s.inValue = true from hi)
  rw [if_neg h7]
  by_cases h8 : isQuoteChar c.toNat = true
  · rw [if_pos h8]
    by_cases h8a : s.justClosedString = true
    · rw [if_pos h8a]
      exact fun hi => hclose _ (show s.inValue = true from hi)
    · rw [if_neg h8a]
      exact fun hi => hclose _ (show s.inValue = true from hi)
  rw [if_neg h8]
  by_cases h9 : s.expectingKeyOrEnd = true ∧ isIdentifierStart c.toNat = true
  · rw [if_pos h9]
    exact fun hi => hclose _ (show s.inValue = true from hi)
  rw [if_neg h9]
  by_cases h10 : c = 't' ∨ c = 'f' ∨ c = 'n' ∨ c = 'T' ∨ c = 'F' ∨ c = 'N' ∨
      c = '-' ∨ (48 ≤ c.toNat ∧ c.toNat ≤ 57) ∨
      (isIdentifierStart c.toNat = true ∧ ¬s.expectingKeyOrEnd = true)
  · rw [if_pos h10]
    exact fun _ => by
      show [c].length ≤ s.out.length + 1
      simp
  · rw [if_neg h10]
    exact fun hi => hclose _ (show s.inValue = true from hi)

lemma structuralStepB_val (s : BState) (c : Char) (n1 n2 : Option Char)
    (hiv : s.inValue = false) : ValOkB (structuralStepB s c n1 n2).1 := by
  have hclose : ∀ b, s.inValue = true → b := fun b hi => absurd hi (by simp [hiv])
  unfold structuralStepB
  by_cases t1 : c = '/' ∧ n1 = some '/'
  · rw [if_pos t1]
    exact fun hi => hclose _ (show s.inValue = true from hi)
  rw [if_neg t1]
  by_cases t2 : c = '/' ∧ n1 = some '*'
  · rw [if_pos t2]
    exact fun hi => hclose _ (show s.inValue = true from hi)
  rw [if_neg t2]
  by_cases t3 : isWhitespace c.toNat = true
  · rw [if_pos t3]
    exact fun hi => hclose _ (show s.inValue = true from hi)
  rw [if_neg t3]
  by_cases t4 : c = '.' ∧ n1 = some '.' ∧ n2 = some '.'
  · rw [if_pos t4]
    exact fun hi => hclose _ (show s.inValue = true from hi)
  rw [if_neg t4]
  by_cases t5 : c = '+' ∧ s.justClosedString = true
  · rw [if_pos t5]
    exact fun hi => hclose _ (show s.inValue = true from hi)
  rw [if_neg t5]
  dsimp only
  by_cases t0 : c ≠ '\x22' ∧ c ≠ '\x27' ∧ ¬isQuoteChar c.toNat = true ∧
      ¬isWhitespace c.toNat = true
  · rw [if_pos t0]
    exact structuralSwitchB_val _ c hiv
  · rw [if_neg t0]
    exact structuralSwitchB_val _ c hiv

lemma scanStep_valTotal (s : BState) (c : Char) (rest : List Char)
    (h : ValOkB s) :
    ∃ s' k, scanStep s c rest = some (s', k) ∧ ValOkB s' := by
  unfold scanStep
  by_cases p1 : s.inSingleLineComment = true
  · rw [if_pos p1]
    by_cases p1a : (c.toNat == 10 || c.toNat == 13) = true
    · rw [if_pos p1a]
      exact ⟨_, _, rfl, valOkB_grow [c] rfl rfl rfl h⟩
    · rw [if_neg p1a]
      exact ⟨_, _, rfl, h⟩
  rw [if_neg p1]
  by_cases p2 : s.inMultiLineComment = true
  · rw [if_pos p2]
    by_cases p2a : c = '*' ∧ rest.head? = some '/'
    · rw [if_pos p2a]
      exact ⟨_, _, rfl, valOkB_grow [] rfl rfl rfl h⟩
    · rw [if_neg p2a]
      exact ⟨_, _, rfl, h⟩
  rw [if_neg p2]
  dsimp only
  rcases hm : mongoStep s c with ⟨sm, mc⟩
  have hmv := mongoStep_val s c
  rw [hm] at hmv
  have hmf := mongoStep_fields s c
  rw [hm] at hmf
  have hvm : ValOkB sm := valOkB_grow [] (by simpa using hmv.1) hmv.2 hmf.2.2.2 h
  dsimp only
  cases mc with
  | true =>
    rw [if_pos rfl]
    exact ⟨_, _, rfl, hvm⟩
  | false =>
    rw [if_neg (by simp)]
    by_cases ps : sm.inString = true
    · rw [if_pos ps]
      obtain ⟨k, hko, hkc, hki⟩ := stringStepB_val sm c
      exact ⟨_, _, rfl, valOkB_grow k hko hkc hki hvm⟩
    rw [if_neg ps]
    rcases hk : (if sm.inUnquotedKey = true then unquotedKeyStepB sm c
      else (sm, false)) with ⟨sk, kc⟩
    have hvk : ValOkB sk := by
      by_cases pk : sm.inUnquotedKey = true
      · rw [if_pos pk] at hk
        obtain ⟨k2, hko, hkc, hki⟩ := unquotedKeyStepB_val sm c
        rw [hk] at hko hkc hki
        exact valOkB_grow k2 hko hkc hki hvm
      · rw [if_neg pk] at hk
        simp only [Prod.mk.injEq] at hk
        rw [← hk.1]
        exact hvm
    dsimp only
    cases kc with
    | true =>
      rw [if_pos rfl]
      exact ⟨_, _, rfl, hvk⟩
    | false =>
      rw [if_neg (by simp)]
      by_cases pv : sk.inValue = true
      · rw [if_pos pv]
        obtain ⟨s3, vc, heq, hv3, hvi⟩ := valueStepB_total sk c (hvk pv)
        rw [heq]
        dsimp only
        cases vc with
        | true =>
          rw [if_pos rfl]
          exact ⟨_, _, rfl, hv3⟩
        | false =>
          rw [if_neg (by simp)]
          exact ⟨_, _, rfl, structuralStepB_val s3 c _ _ (hvi rfl)⟩
      · rw [if_neg pv]
        dsimp only
        have hsin : sk.inValue = false := by revert pv; cases sk.inValue <;> simp
        exact ⟨_, _, rfl, structuralStepB_val sk c _ _ hsin⟩

lemma scanO_valTotal_fuel : ∀ (n : Nat) (l : List Char) (s : BState),
    l.length ≤ n → ValOkB s → ∃ s', scanO s l = some s' ∧ ValOkB s' := by
  intro n
  induction n with
  | zero =>
    intro l s hl h
    rw [List.eq_nil_of_length_eq_zero (Nat.le_zero.mp hl)]
    exact ⟨s, rfl, h⟩
  | succ n ih =>
    intro l s hl h
    cases l with
    | nil => exact ⟨s, rfl, h⟩
    | cons c rest =>
      rw [scanO]
      obtain ⟨s1, k, hst, hv1⟩ := scanStep_valTotal s c rest h
      rw [hst]
      have hlen : rest.length ≤ n := by
        simp only [List.length_cons] at hl
        omega
      cases k with
      | zero => exact ih rest s1 hlen hv1
      | succ k2 =>
        cases k2 with
        | zero =>
          cases rest with
          | nil => exact ⟨s1, rfl, hv1⟩
          | cons a r1 =>
            refine ih r1 s1 ?_ hv1
            simp only [List.length_cons] at hlen
            omega
        | succ m =>
          cases rest with
          | nil => exact ⟨s1, rfl, hv1⟩
          | cons a r1 =>
            cases r1 with
            | nil => exact ⟨s1, rfl, hv1⟩
            | cons b r2 =>
              refine ih r2 s1 ?_ hv1
              simp only [List.length_cons] at hlen
              omega

lemma finalizeO_total (s : BState) (h : ValOkB s) : ∃ r, finalizeO s = some r := by
  unfold finalizeO
  dsimp only
  by_cases h2 : s.inUnquotedKey = true ∧ s.unquotedKey ≠ ""
  · rw [if_pos h2]
    by_cases h1 : s.inValue = true ∧ s.currentValue ≠ ""
    · rw [if_pos h1]
      rcases hil : INCOMPLETE_LITERALS s.currentValue with _ | comp
      · exact ⟨_, rfl⟩
      · have hg : s.currentValue.length ≤
            ('l' :: 'l' :: 'u' :: 'n' :: ':' :: '\x22' ::
              (s.unquotedKey.data.reverse ++ ('\x22' :: s.out))).length := by
          have hb := h h1.1
          simp only [List.length_cons, List.length_append, List.length_reverse]
          omega
        dsimp only
        rw [if_pos hg]
        exact ⟨_, rfl⟩
    · rw [if_neg h1]
      exact ⟨_, rfl⟩
  · rw [if_neg h2]
    by_cases h1 : s.inValue = true ∧ s.currentValue ≠ ""
    · rw [if_pos h1]
      rcases hil : INCOMPLETE_LITERALS s.currentValue with _ | comp
      · exact ⟨_, rfl⟩
      · dsimp only
        rw [if_pos (h h1.1)]
        exact ⟨_, rfl⟩
    · rw [if_neg h1]
      exact ⟨_, rfl⟩

/-- C3: `repairJson` is a total function: for every input string the
`Option`-guarded embedding `repairJsonO` (whose `none` marks the only
failure points of the source, the unchecked buffer retractions) returns
`some`, and `repairJson` returns that string — the retraction guards can
never fire, so the scan terminates and yields a string on every input. -/
theorem repairJson_total (input : String) :
    ∃ out : String, repairJsonO input = some out ∧ repairJson input = out := by
  have hmain : ∃ r, repairJsonO input = some r := by
    unfold repairJsonO
    by_cases he : jsTrimEmpty input.data = true
    · rw [if_pos he]
      exact ⟨_, rfl⟩
    · rw [if_neg he]
      obtain ⟨sF, hscan, hval⟩ := scanO_valTotal_fuel
        (preprocessJson input).data.length (preprocessJson input).data initB
        (le_refl _) valOkB_init
      rw [hscan]
      simp only [Option.some_bind]
      obtain ⟨r, hfin⟩ := finalizeO_total sF hval
      rw [hfin]
      exact ⟨_, rfl⟩
  obtain ⟨r, hr⟩ := hmain
  refine ⟨r, hr, ?_⟩
  unfold repairJson
  rw [hr]
  rfl

lemma char_toNat_inj {a b : Char} (h : a.toNat = b.toNat) : a = b :=
  Char.eq_of_val_eq (UInt32.eq_of_val_eq (Fin.val_injective h))

lemma toNat_beq_false {c d : Char} (h : ¬c = d) : (c.toNat == d.toNat) = false := by
  simp only [beq_eq_false_iff_ne, ne_eq]
  intro hn
  exact h (char_toNat_inj hn)

/-- The four JSON whitespace characters (also the buffer-whitespace set of
`removeTrailingCommaFromBuffer`). -/
def JWs (c : Char) : Prop :=
  c = ' ' ∨ c = '\t' ∨ c = '\n' ∨ c = '\x0d'

lemma takeWhile_sat_append {α : Type} (p : α → Bool) (l1 : List α)
    (h : ∀ c ∈ l1, p c = true) (d : α) (hd : p d = false) (t : List α) :
    (l1 ++ d :: t).takeWhile p = l1 := by
  induction l1 with
  | nil => simp [List.takeWhile_cons, hd]
  | cons a r ih =>
    simp only [List.cons_append, List.takeWhile_cons, h a (by simp), if_true]
    rw [ih (fun c hc => h c (by simp [hc]))]

lemma dropWhile_sat_append {α : Type} (p : α → Bool) (l1 : List α)
    (h : ∀ c ∈ l1, p c = true) (d : α) (hd : p d = false) (t : List α) :
    (l1 ++ d :: t).dropWhile p = d :: t := by
  induction l1 with
  | nil => simp [List.dropWhile_cons, hd]
  | cons a r ih =>
    simp only [List.cons_append, List.dropWhile_cons, h a (by simp), if_true]
    exact ih (fun c hc => h c (by simp [hc]))

lemma jws_decide_true {c : Char} (h : JWs c) :
    (decide (c = ' ' ∨ c = '\t' ∨ c = '\n' ∨ c = '\x0d')) = true := by
  simp [JWs] at h
  simp [h]

lemma skipJWs_sat_append (w : List Char) (hw : ∀ c ∈ w, JWs c) (d : Char)
    (hd : ¬JWs d) (t : List Char) : skipJWs (w ++ d :: t) = d :: t := by
  unfold skipJWs
  refine dropWhile_sat_append _ w (fun c hc => jws_decide_true (hw c hc)) d ?_ t
  simp [JWs] at hd
  simp [hd]

lemma skipJWs_not_head (d : Char) (hd : ¬JWs d) (t : List Char) :
    skipJWs (d :: t) = d :: t := skipJWs_sat_append [] (by simp) d hd t

lemma skipJWs_nil : skipJWs [] = [] := rfl

lemma skipJWs_decomp (l : List Char) :
    ∃ w, (∀ c ∈ w, JWs c) ∧ l = w ++ skipJWs l := by
  refine ⟨l.takeWhile (fun c => decide (c = ' ' ∨ c = '\t' ∨ c = '\n' ∨ c = '\x0d')),
    ?_, (List.takeWhile_append_dropWhile _ _).symm⟩
  intro c hc
  have := List.mem_takeWhile_imp hc
  simp only [decide_eq_true_eq] at this
  exact this

lemma removeTrailingCommaRev_noop (k : Nat) (d : Char) (t : List Char)
    (hd : ¬JWs d) (hc : ¬d = ',') :
    removeTrailingCommaRev (List.replicate k ' ' ++ d :: t) =
      List.replicate k ' ' ++ d :: t := by
  unfold removeTrailingCommaRev
  dsimp only
  have hsat : ∀ c ∈ List.replicate k ' ',
      (decide (c = ' ' ∨ c = '\t' ∨ c = '\n' ∨ c = '\x0d')) = true := by
    intro c hcm
    rw [List.eq_of_mem_replicate hcm]
    rfl
  have hdf : (decide (d = ' ' ∨ d = '\t' ∨ d = '\n' ∨ d = '\x0d')) = false := by
    simp [JWs] at hd
    simp [hd]
  rw [dropWhile_sat_append _ _ hsat d hdf t]
  split
  · rename_i s hs
    injection hs with h1 _
    exact absurd h1 hc
  · rfl

/-- A batch-scan state with every lexical mode off, as the automaton
stands between tokens of a well-formed document. -/
def interS (out : List Char) (stack : List ContextType) (q : Char)
    (ev eke iok nc jcs iv : Bool) (cv uk : String) (rc mpd : Nat) : BState where
  out := out
  stack := stack
  inString := false
  stringQuote := q
  escaped := false
  inObjectKey := iok
  needsColon := nc
  expectingValue := ev
  expectingKeyOrEnd := eke
  inValue := iv
  currentValue := cv
  inUnquotedKey := false
  unquotedKey := uk
  inSingleLineComment := false
  inMultiLineComment := false
  justClosedString := jcs
  rootElementCount := rc
  inMongoWrapper := false
  mongoParenDepth := mpd

/-- A batch-scan state inside a double-quoted string of a well-formed
document (the STRING tag on top of the stack). -/
def strS (out : List Char) (st : List ContextType) (esc iok ev eke : Bool)
    (cv uk : String) (rc mpd : Nat) : BState where
  out := out
  stack := ContextType.STRING :: st
  inString := true
  stringQuote := '\x22'
  escaped := esc
  inObjectKey := iok
  needsColon := false
  expectingValue := ev
  expectingKeyOrEnd := eke
  inValue := false
  currentValue := cv
  inUnquotedKey := false
  unquotedKey := uk
  inSingleLineComment := false
  inMultiLineComment := false
  justClosedString := false
  rootElementCount := rc
  inMongoWrapper := false
  mongoParenDepth := mpd

lemma scanO_step0 {s s1 : BState} {c : Char}
    (h : ∀ r, scanStep s c r = some (s1, 0)) (l : List Char) :
    scanO s (c :: l) = scanO s1 l := by
  rw [scanO, h l]

lemma step_ws_clean (c : Char) (hc : JWs c) (out : List Char)
    (st : List ContextType) (q : Char) (ev eke iok nc jcs : Bool)
    (cv uk : String) (rc mpd : Nat) (r : List Char) :
    scanStep (interS out st q ev eke iok nc jcs false cv uk rc mpd) c r =
      some (interS (' ' :: out) st q ev eke iok nc jcs false cv uk rc mpd, 0) := by
  rcases hc with rfl | rfl | rfl | rfl <;> rfl

lemma step_quote_open_val (out : List Char) (st : List ContextType) (q : Char)
    (ev : Bool) (cv uk : String) (rc mpd : Nat) (r : List Char) :
    scanStep (interS out st q ev false false false false false cv uk rc mpd)
        '\x22' r =
      some (strS ('\x22' :: out) st false false ev false cv uk rc mpd, 0) := rfl

lemma step_quote_open_key (out : List Char) (st : List ContextType) (q : Char)
    (cv uk : String) (rc mpd : Nat) (r : List Char) :
    scanStep (interS out st q false true false false false false cv uk rc mpd)
        '\x22' r =
      some (strS ('\x22' :: out) st false true false true cv uk rc mpd, 0) := rfl

lemma step_str_escaped (c : Char) (out : List Char) (st : List ContextType)
    (iok ev eke : Bool) (cv uk : String) (rc mpd : Nat) (r : List Char) :
    scanStep (strS out st true iok ev eke cv uk rc mpd) c r =
      some (strS (c :: out) st false iok ev eke cv uk rc mpd, 0) := rfl

lemma step_str_backslash (out : List Char) (st : List ContextType)
    (iok ev eke : Bool) (cv uk : String) (rc mpd : Nat) (r : List Char) :
    scanStep (strS out st false iok ev eke cv uk rc mpd) '\x5c' r =
      some (strS ('\x5c' :: out) st true iok ev eke cv uk rc mpd, 0) := rfl

lemma step_str_close_key (out : List Char) (st : List ContextType)
    (cv uk : String) (rc mpd : Nat) (r : List Char) :
    scanStep (strS out st false true false true cv uk rc mpd) '\x22' r =
      some (interS ('\x22' :: out) st '\x22' false false false true true false
        cv uk rc mpd, 0) := rfl

lemma step_str_close_val (out : List Char) (st : List ContextType) (ev : Bool)
    (cv uk : String) (rc mpd : Nat) (r : List Char) :
    scanStep (strS out st false false ev false cv uk rc mpd) '\x22' r =
      some (interS ('\x22' :: out) st '\x22' false false false false true false
        cv uk rc mpd, 0) := by
  cases ev <;> rfl

lemma step_str_plain (c : Char) (hq : (c.toNat == '\x22'.toNat) = false)
    (hbs : ¬c = '\x5c') (out : List Char) (st : List ContextType)
    (iok ev eke : Bool) (cv uk : String) (rc mpd : Nat) (r : List Char) :
    scanStep (strS out st false iok ev eke cv uk rc mpd) c r =
      some (strS (c :: out) st false iok ev eke cv uk rc mpd, 0) := by
  simp only [scanStep, strS, mongoStep, stringStepB, hq, hbs,
    Bool.false_eq_true, if_false, if_true, ne_eq, not_true, false_and,
    or_false, or_self]

lemma step_value_cont (c : Char) (hbc : isBatchValueChar c.toNat = true)
    (out : List Char) (st : List ContextType) (q : Char) (ev : Bool)
    (cv uk : String) (rc mpd : Nat) (r : List Char) :
    scanStep (interS out st q ev false false false false true cv uk rc mpd) c r =
      some (interS (c :: out) st q ev false false false false true (cv.push c)
        uk rc mpd, 0) := by
  simp only [scanStep, interS, mongoStep, valueStepB, hbc,
    Bool.false_eq_true, if_false, if_true]
lemma step_ws_pending (c : Char) (hc : JWs c) (hIL : INCOMPLETE_LITERALS cv = none)
    (out : List Char) (st : List ContextType) (q : Char) (ev eke iok nc : Bool)
    (uk : String) (rc mpd : Nat) (r : List Char) :
    scanStep (interS out st q ev eke iok nc false true cv uk rc mpd) c r =
      some (interS (' ' :: out) st q false eke iok nc false false "" uk rc mpd, 0) := by
  rcases hc with rfl | rfl | rfl | rfl <;>
    simp only [scanStep, interS, mongoStep, valueStepB, structuralStepB, hIL,
      Bool.false_eq_true, Bool.true_eq_false, if_false, if_true, ne_eq,
      not_true, false_and, and_false, or_false, or_self] <;> rfl
lemma step_value_start_lit (c : Char) (hc : c = 't' ∨ c = 'f' ∨ c = 'n' ∨ c = '-')
    (out : List Char) (st : List ContextType) (q : Char) (ev : Bool)
    (cv uk : String) (rc mpd : Nat) (r : List Char) :
    scanStep (interS out st q ev false false false false false cv uk rc mpd) c r =
      some (interS (c :: out) st q ev false false false false true
        (String.mk [c]) uk rc mpd, 0) := by
  rcases hc with rfl | rfl | rfl | rfl <;> rfl

lemma step_value_start_digit (c : Char) (hd : 48 ≤ c.toNat ∧ c.toNat ≤ 57)
    (out : List Char) (st : List ContextType) (q : Char) (ev : Bool)
    (cv uk : String) (rc mpd : Nat) (r : List Char) :
    scanStep (interS out st q ev false false false false false cv uk rc mpd) c r =
      some (interS (c :: out) st q ev false false false false true
        (String.mk [c]) uk rc mpd, 0) := by
  have hne : ∀ d : Char, (d.toNat < 48 ∨ 57 < d.toNat) → ¬c = d := by
    intro d hdn h
    rw [h] at hd
    omega
  have h1 : ¬c = '/' := hne _ (by decide)
  have h2 : ¬c = '.' := hne _ (by decide)
  have h3 : ¬c = '+' := hne _ (by decide)
  have h4 : ¬c = '\x7b' := hne _ (by decide)
  have h5 : ¬c = '\x7d' := hne _ (by decide)
  have h6 : ¬c = '[' := hne _ (by decide)
  have h7 : ¬c = ']' := hne _ (by decide)
  have h8 : ¬c = '\x22' := hne _ (by decide)
  have h9 : ¬c = '\x27' := hne _ (by decide)
  have h10 : ¬c = ':' := hne _ (by decide)
  have h11 : ¬c = ',' := hne _ (by decide)
  have hw : isWhitespace c.toNat = false := by
    simp only [isWhitespace, Bool.or_eq_false_iff, beq_eq_false_iff_ne, ne_eq]
    omega
  have hqc : isQuoteChar c.toNat = false := by
    simp only [isQuoteChar, Bool.or_eq_false_iff, beq_eq_false_iff_ne, ne_eq]
    omega
  have hstart : c = 't' ∨ c = 'f' ∨ c = 'n' ∨ c = 'T' ∨ c = 'F' ∨ c = 'N' ∨
      c = '-' ∨ (48 ≤ c.toNat ∧ c.toNat ≤ 57) ∨ isIdentifierStart c.toNat = true :=
    Or.inr (Or.inr (Or.inr (Or.inr (Or.inr (Or.inr (Or.inr (Or.inl hd)))))))
  simp only [scanStep, interS, mongoStep, valueStepB, structuralStepB,
    structuralSwitchB, h1, h2, h3, h4, h5, h6, h7, h8, h9, h10, h11, hw, hqc,
    Bool.false_eq_true, if_false, if_true, ne_eq, not_true, not_false_iff,
    false_and, and_false, and_true, true_and, or_false, false_or, or_self]
  rw [if_pos hstart]
lemma step_lbrace_nested (out : List Char) (ct : ContextType)
    (st : List ContextType) (q : Char) (ev : Bool) (cv uk : String)
    (rc mpd : Nat) (r : List Char) :
    scanStep (interS out (ct :: st) q ev false false false false false cv uk rc mpd)
        '\x7b' r =
      some (interS ('\x7b' :: out) (ContextType.OBJECT :: ct :: st) q false true
        false false false false cv uk rc mpd, 0) := by
  cases ct <;> rfl

lemma step_lbrace_root (out : List Char) (q : Char) (ev : Bool) (cv uk : String)
    (mpd : Nat) (r : List Char) :
    scanStep (interS out [] q ev false false false false false cv uk 0 mpd)
        '\x7b' r =
      some (interS ('\x7b' :: out) [ContextType.OBJECT] q false true
        false false false false cv uk 0 mpd, 0) := rfl

lemma step_lbrack_nested (out : List Char) (ct : ContextType)
    (st : List ContextType) (q : Char) (ev : Bool) (cv uk : String)
    (rc mpd : Nat) (r : List Char) :
    scanStep (interS out (ct :: st) q ev false false false false false cv uk rc mpd)
        '[' r =
      some (interS ('[' :: out) (ContextType.ARRAY :: ct :: st) q false false
        false false false false cv uk rc mpd, 0) := by
  cases ct <;> rfl

lemma step_lbrack_root (out : List Char) (q : Char) (ev : Bool) (cv uk : String)
    (mpd : Nat) (r : List Char) :
    scanStep (interS out [] q ev false false false false false cv uk 0 mpd)
        '[' r =
      some (interS ('[' :: out) [ContextType.ARRAY] q false false
        false false false false cv uk 0 mpd, 0) := rfl

lemma step_colon (out : List Char) (st : List ContextType) (q : Char)
    (jcs : Bool) (cv uk : String) (rc mpd : Nat) (r : List Char) :
    scanStep (interS out (ContextType.OBJECT :: st) q false false false true jcs
        false cv uk rc mpd) ':' r =
      some (interS (':' :: out) (ContextType.OBJECT :: st) q true false false
        false false false cv uk rc mpd, 0) := by
  cases jcs <;> rfl
lemma step_comma_obj (out : List Char) (st : List ContextType) (q : Char)
    (jcs : Bool) (cv uk : String) (rc mpd : Nat) (r : List Char) :
    scanStep (interS out (ContextType.OBJECT :: st) q false false false false jcs
        false cv uk rc mpd) ',' r =
      some (interS (',' :: out) (ContextType.OBJECT :: st) q false true false
        false false false cv uk rc mpd, 0) := by
  cases jcs <;> rfl

lemma step_comma_obj_pending {cv : String} (hIL : INCOMPLETE_LITERALS cv = none)
    (out : List Char) (st : List ContextType) (q : Char) (ev : Bool)
    (uk : String) (rc mpd : Nat) (r : List Char) :
    scanStep (interS out (ContextType.OBJECT :: st) q ev false false false false
        true cv uk rc mpd) ',' r =
      some (interS (',' :: out) (ContextType.OBJECT :: st) q false true false
        false false false "" uk rc mpd, 0) := by
  simp only [scanStep, interS, mongoStep, valueStepB, structuralStepB,
    structuralSwitchB, hIL, Bool.false_eq_true, if_false, if_true, ne_eq,
    not_true, not_false_iff, false_and, and_false, and_true, true_and,
    or_false, false_or, or_self]
  rfl

lemma step_comma_arr (out : List Char) (st : List ContextType) (q : Char)
    (jcs : Bool) (cv uk : String) (rc mpd : Nat) (r : List Char) :
    scanStep (interS out (ContextType.ARRAY :: st) q false false false false jcs
        false cv uk rc mpd) ',' r =
      some (interS (',' :: out) (ContextType.ARRAY :: st) q false false false
        false false false cv uk rc mpd, 0) := by
  cases jcs <;> rfl

lemma step_comma_arr_pending {cv : String} (hIL : INCOMPLETE_LITERALS cv = none)
    (out : List Char) (st : List ContextType) (q : Char)
    (uk : String) (rc mpd : Nat) (r : List Char) :
    scanStep (interS out (ContextType.ARRAY :: st) q false false false false false
        true cv uk rc mpd) ',' r =
      some (interS (',' :: out) (ContextType.ARRAY :: st) q false false false
        false false false "" uk rc mpd, 0) := by
  simp only [scanStep, interS, mongoStep, valueStepB, structuralStepB,
    structuralSwitchB, hIL, Bool.false_eq_true, if_false, if_true, ne_eq,
    not_true, not_false_iff, false_and, and_false, and_true, true_and,
    or_false, false_or, or_self]
  rfl
lemma step_rbrace (k : Nat) (d : Char) (t : List Char) (hd : ¬JWs d)
    (hc : ¬d = ',') (st : List ContextType) (q : Char) (jcs : Bool)
    (cv uk : String) (rc mpd : Nat) (r : List Char) :
    scanStep (interS (List.replicate k ' ' ++ d :: t)
        (ContextType.OBJECT :: st) q false false false false jcs false cv uk
        rc mpd) '\x7d' r =
      some (interS ('\x7d' :: (List.replicate k ' ' ++ d :: t)) st q false false
        false false false false cv uk (if st = [] then rc + 1 else rc) mpd, 0) := by
  cases jcs <;>
    simp +decide only [scanStep, interS, mongoStep, valueStepB, structuralStepB,
      structuralSwitchB, removeTrailingCommaRev_noop k d t hd hc,
      Bool.false_eq_true, Bool.true_eq_false, if_false, if_true, ne_eq,
      not_true, not_false_iff, false_and, and_false, and_true, true_and,
      or_false, false_or, or_self] <;> rfl

lemma step_rbrace_pending {cv : String} (hIL : INCOMPLETE_LITERALS cv = none)
    (k : Nat) (d : Char) (t : List Char) (hd : ¬JWs d)
    (hc : ¬d = ',') (st : List ContextType) (q : Char) (ev : Bool)
    (uk : String) (rc mpd : Nat) (r : List Char) :
    scanStep (interS (List.replicate k ' ' ++ d :: t)
        (ContextType.OBJECT :: st) q ev false false false false true cv uk
        rc mpd) '\x7d' r =
      some (interS ('\x7d' :: (List.replicate k ' ' ++ d :: t)) st q false false
        false false false false "" uk (if st = [] then rc + 1 else rc) mpd, 0) := by
  simp +decide only [scanStep, interS, mongoStep, valueStepB, structuralStepB,
    structuralSwitchB, hIL, removeTrailingCommaRev_noop k d t hd hc,
    Bool.false_eq_true, if_false, if_true, ne_eq,
    not_true, not_false_iff, false_and, and_false, and_true, true_and,
    or_false, false_or, or_self]
  rfl

lemma step_rbrack (k : Nat) (d : Char) (t : List Char) (hd : ¬JWs d)
    (hc : ¬d = ',') (st : List ContextType) (q : Char) (jcs : Bool)
    (cv uk : String) (rc mpd : Nat) (r : List Char) :
    scanStep (interS (List.replicate k ' ' ++ d :: t)
        (ContextType.ARRAY :: st) q false false false false jcs false cv uk
        rc mpd) ']' r =
      some (interS (']' :: (List.replicate k ' ' ++ d :: t)) st q false false
        false false false false cv uk (if st = [] then rc + 1 else rc) mpd, 0) := by
  cases jcs <;>
    simp +decide only [scanStep, interS, mongoStep, valueStepB, structuralStepB,
      structuralSwitchB, removeTrailingCommaRev_noop k d t hd hc,
      Bool.false_eq_true, Bool.true_eq_false, if_false, if_true, ne_eq,
      not_true, not_false_iff, false_and, and_false, and_true, true_and,
      or_false, false_or, or_self] <;> rfl

lemma step_rbrack_pending {cv : String} (hIL : INCOMPLETE_LITERALS cv = none)
    (k : Nat) (d : Char) (t : List Char) (hd : ¬JWs d)
    (hc : ¬d = ',') (st : List ContextType) (q : Char)
    (uk : String) (rc mpd : Nat) (r : List Char) :
    scanStep (interS (List.replicate k ' ' ++ d :: t)
        (ContextType.ARRAY :: st) q false false false false false true cv uk
        rc mpd) ']' r =
      some (interS (']' :: (List.replicate k ' ' ++ d :: t)) st q false false
        false false false false "" uk (if st = [] then rc + 1 else rc) mpd, 0) := by
  simp +decide only [scanStep, interS, mongoStep, valueStepB, structuralStepB,
    structuralSwitchB, hIL, removeTrailingCommaRev_noop k d t hd hc,
    Bool.false_eq_true, if_false, if_true, ne_eq,
    not_true, not_false_iff, false_and, and_false, and_true, true_and,
    or_false, false_or, or_self]
  rfl
lemma scan_ws_run (w : List Char) (hw : ∀ c ∈ w, JWs c) :
    ∀ (out : List Char) (st : List ContextType) (q : Char)
      (ev eke iok nc jcs : Bool) (cv uk : String) (rc mpd : Nat)
      (rest : List Char),
    scanO (interS out st q ev eke iok nc jcs false cv uk rc mpd) (w ++ rest) =
      scanO (interS (List.replicate w.length ' ' ++ out) st q ev eke iok nc jcs
        false cv uk rc mpd) rest := by
  induction w with
  | nil => intro out st q ev eke iok nc jcs cv uk rc mpd rest; rfl
  | cons a w' ih =>
    intro out st q ev eke iok nc jcs cv uk rc mpd rest
    rw [List.cons_append,
      scanO_step0 (step_ws_clean a (hw a (by simp)) out st q ev eke iok nc jcs
        cv uk rc mpd) (w' ++ rest),
      ih (fun c hc => hw c (by simp [hc])) (' ' :: out) st q ev eke iok nc jcs
        cv uk rc mpd rest]
    have hrep : List.replicate (a :: w').length ' ' ++ out =
        List.replicate w'.length ' ' ++ (' ' :: out) := by
      rw [List.length_cons, List.replicate_succ', List.append_assoc]
      rfl
    rw [hrep]

lemma hex_plain (c : Char) (h : isHexDigit c = true) :
    (c.toNat == '\x22'.toNat) = false ∧ ¬c = '\x5c' := by
  simp only [isHexDigit, Bool.or_eq_true, Bool.and_eq_true, decide_eq_true_eq] at h
  constructor
  · simp only [beq_eq_false_iff_ne, ne_eq]
    intro hn
    rw [show '\x22'.toNat = 34 from rfl] at hn
    omega
  · intro hn
    rw [hn] at h
    revert h
    decide
lemma stringBody_facts : ∀ (n : Nat) (l b r : List Char), l.length ≤ n →
    parseJStringBody l = some (b, r) →
    l = b ++ '\x22' :: r ∧
    (∀ r2, parseJStringBody (b ++ '\x22' :: r2) = some (b, r2)) ∧
    (∀ (out : List Char) (st : List ContextType) (iok evx : Bool)
       (cv uk : String) (rc mpd : Nat) (rest : List Char),
      (iok = true → evx = false) →
      scanO (strS out st false iok evx iok cv uk rc mpd)
          (b ++ '\x22' :: rest) =
        scanO (interS ('\x22' :: (b.reverse ++ out)) st '\x22'
          false false false iok true false cv uk rc mpd) rest) := by
  intro n
  induction n with
  | zero =>
    intro l b r hl hp
    rw [List.eq_nil_of_length_eq_zero (Nat.le_zero.mp hl)] at hp
    exact absurd hp (by simp [parseJStringBody])
  | succ n ih =>
    intro l b r hl hp
    cases l with
    | nil => exact absurd hp (by simp [parseJStringBody])
    | cons c r0 =>
      rw [parseJStringBody.eq_def] at hp
      dsimp only at hp
      by_cases hc : c = '\x22'
      · subst hc
        rw [if_pos rfl] at hp
        simp only [Option.some.injEq, Prod.mk.injEq] at hp
        obtain ⟨hb, hr⟩ := hp
        subst hb; subst hr
        refine ⟨rfl, ?_, ?_⟩
        · intro r2
          rw [List.nil_append, parseJStringBody.eq_def]
          dsimp only
          rw [if_pos rfl]
        · intro out st iok evx cv uk rc mpd rest hke
          cases iok with
          | true =>
            rw [hke rfl, List.nil_append,
              scanO_step0 (step_str_close_key out st cv uk rc mpd) rest]
            rw [List.reverse_nil, List.nil_append]
          | false =>
            rw [List.nil_append,
              scanO_step0 (step_str_close_val out st evx cv uk rc mpd) rest]
            rw [List.reverse_nil, List.nil_append]
      · rw [if_neg hc] at hp
        by_cases hbs : c = '\x5c'
        · subst hbs
          rw [if_pos rfl] at hp
          cases r0 with
          | nil => exact absurd hp (by simp)
          | cons e r2 =>
            dsimp only at hp
            by_cases he : e = '\x22' ∨ e = '\x5c' ∨ e = '/' ∨ e = 'b' ∨
                e = 'f' ∨ e = 'n' ∨ e = 'r' ∨ e = 't'
            · rw [if_pos he] at hp
              rcases hrec : parseJStringBody r2 with _ | ⟨b2, r3⟩
              · rw [hrec] at hp; exact Option.noConfusion hp
              rw [hrec] at hp
              simp only [Option.map_some', Option.some.injEq, Prod.mk.injEq] at hp
              obtain ⟨hb, hr⟩ := hp
              subst hr
              have hlen : r2.length ≤ n := by
                simp only [List.length_cons] at hl; omega
              obtain ⟨ihdec, ihrep, ihscan⟩ := ih r2 b2 _ hlen hrec
              subst hb
              refine ⟨by rw [ihdec]; rfl, ?_, ?_⟩
              · intro r4
                rw [List.cons_append, List.cons_append, parseJStringBody.eq_def]
                dsimp only
                rw [if_neg (by decide), if_pos rfl, if_pos he, ihrep r4]
                rfl
              · intro out st iok evx cv uk rc mpd rest hke
                rw [List.cons_append, List.cons_append,
                  scanO_step0 (step_str_backslash out st iok evx iok cv uk
                    rc mpd) (e :: (b2 ++ '\x22' :: rest)),
                  scanO_step0 (step_str_escaped e ('\x5c' :: out) st iok evx iok
                    cv uk rc mpd) (b2 ++ '\x22' :: rest),
                  ihscan (e :: '\x5c' :: out) st iok evx cv uk rc mpd rest hke]
                have hout : b2.reverse ++ (e :: '\x5c' :: out) =
                    ('\x5c' :: e :: b2).reverse ++ out := by
                  simp
                rw [hout]
            · rw [if_neg he] at hp
              by_cases heu : e = 'u'
              · subst heu
                rw [if_pos rfl] at hp
                match r2, hp with
                | h1 :: h2 :: h3 :: h4 :: r3, hp => ?_
                dsimp only at hp
                by_cases hhex : (isHexDigit h1 && isHexDigit h2 && isHexDigit h3
                    && isHexDigit h4) = true
                · rw [if_pos hhex] at hp
                  rcases hrec : parseJStringBody r3 with _ | ⟨b2, r4⟩
                  · rw [hrec] at hp; exact Option.noConfusion hp
                  rw [hrec] at hp
                  simp only [Option.map_some', Option.some.injEq,
                    Prod.mk.injEq] at hp
                  obtain ⟨hb, hr⟩ := hp
                  subst hr
                  have hlen : r3.length ≤ n := by
                    simp only [List.length_cons] at hl; omega
                  obtain ⟨ihdec, ihrep, ihscan⟩ := ih r3 b2 _ hlen hrec
                  subst hb
                  simp only [Bool.and_eq_true] at hhex
                  obtain ⟨⟨⟨hx1, hx2⟩, hx3⟩, hx4⟩ := hhex
                  refine ⟨by rw [ihdec]; rfl, ?_, ?_⟩
                  · intro r5
                    simp only [List.cons_append]
                    rw [parseJStringBody.eq_def]
                    dsimp only
                    rw [if_neg (by decide), if_pos rfl]
                    rw [if_neg (by decide), if_pos rfl]
                    rw [if_pos (by simp [hx1, hx2, hx3, hx4]), ihrep r5]
                    rfl
                  · intro out st iok evx cv uk rc mpd rest hke
                    simp only [List.cons_append]
                    rw [scanO_step0 (step_str_backslash out st iok evx iok
                        cv uk rc mpd) _,
                      scanO_step0 (step_str_escaped 'u' ('\x5c' :: out) st iok
                        evx iok cv uk rc mpd) _,
                      scanO_step0 (step_str_plain h1 (hex_plain h1 hx1).1
                        (hex_plain h1 hx1).2 ('u' :: '\x5c' :: out) st iok
                        evx iok cv uk rc mpd) _,
                      scanO_step0 (step_str_plain h2 (hex_plain h2 hx2).1
                        (hex_plain h2 hx2).2 _ st iok evx iok cv uk rc mpd) _,
                      scanO_step0 (step_str_plain h3 (hex_plain h3 hx3).1
                        (hex_plain h3 hx3).2 _ st iok evx iok cv uk rc mpd) _,
                      scanO_step0 (step_str_plain h4 (hex_plain h4 hx4).1
                        (hex_plain h4 hx4).2 _ st iok evx iok cv uk rc mpd) _,
                      ihscan (h4 :: h3 :: h2 :: h1 :: 'u' :: '\x5c' :: out) st
                        iok evx cv uk rc mpd rest hke]
                    have hout : b2.reverse ++
                        (h4 :: h3 :: h2 :: h1 :: 'u' :: '\x5c' :: out) =
                        ('\x5c' :: 'u' :: h1 :: h2 :: h3 :: h4 :: b2).reverse ++
                          out := by
                      simp
                    rw [hout]
                · rw [if_neg hhex] at hp
                  exact absurd hp (by simp)
              · rw [if_neg heu] at hp
                exact absurd hp (by simp)
        · rw [if_neg hbs] at hp
          by_cases h32 : 32 ≤ c.toNat
          · rw [if_pos h32] at hp
            rcases hrec : parseJStringBody r0 with _ | ⟨b2, r3⟩
            · rw [hrec] at hp; exact Option.noConfusion hp
            rw [hrec] at hp
            simp only [Option.map_some', Option.some.injEq, Prod.mk.injEq] at hp
            obtain ⟨hb, hr⟩ := hp
            subst hr
            have hlen : r0.length ≤ n := by
              simp only [List.length_cons] at hl; omega
            obtain ⟨ihdec, ihrep, ihscan⟩ := ih r0 b2 _ hlen hrec
            subst hb
            refine ⟨by rw [ihdec]; rfl, ?_, ?_⟩
            · intro r4
              rw [List.cons_append, parseJStringBody.eq_def]
              dsimp only
              rw [if_neg hc, if_neg hbs, if_pos h32, ihrep r4]
              rfl
            · intro out st iok evx cv uk rc mpd rest hke
              rw [List.cons_append,
                scanO_step0 (step_str_plain c (toNat_beq_false hc) hbs out st
                  iok evx iok cv uk rc mpd) _,
                ihscan (c :: out) st iok evx cv uk rc mpd rest hke]
              have hout : b2.reverse ++ (c :: out) =
                  (c :: b2).reverse ++ out := by
                simp
              rw [hout]
          · rw [if_neg h32] at hp
            exact absurd hp (by simp)
lemma takeWhile_eq_self_of_sat {α : Type} (p : α → Bool) (l : List α)
    (h : ∀ c ∈ l, p c = true) : l.takeWhile p = l := by
  induction l with
  | nil => rfl
  | cons a r ih =>
    simp only [List.takeWhile_cons, h a (by simp), if_true]
    rw [ih (fun c hc => h c (by simp [hc]))]

lemma dropWhile_eq_nil_of_sat {α : Type} (p : α → Bool) (l : List α)
    (h : ∀ c ∈ l, p c = true) : l.dropWhile p = [] := by
  induction l with
  | nil => rfl
  | cons a r ih =>
    simp only [List.dropWhile_cons, h a (by simp), if_true]
    exact ih (fun c hc => h c (by simp [hc]))

lemma takeWhile_split {α : Type} (p : α → Bool) (l1 l2 : List α)
    (h : ∀ c ∈ l1, p c = true) (h2 : ∀ c, l2.head? = some c → p c = false) :
    (l1 ++ l2).takeWhile p = l1 ∧ (l1 ++ l2).dropWhile p = l2 := by
  cases l2 with
  | nil =>
    rw [List.append_nil]
    exact ⟨takeWhile_eq_self_of_sat p l1 h, dropWhile_eq_nil_of_sat p l1 h⟩
  | cons d t =>
    exact ⟨takeWhile_sat_append p l1 h d (h2 d rfl) t,
      dropWhile_sat_append p l1 h d (h2 d rfl) t⟩

/-- The characters at which a JSON value lexeme may legitimately stop in
the residues produced by the surrounding productions. -/
def HeadOkV (l : List Char) : Prop :=
  ∀ c, l.head? = some c → c = ' ' ∨ c = ',' ∨ c = '\x7d' ∨ c = ']'

lemma IL_none_of_start (c0 : Char) (t0 : List Char)
    (h : c0 = '-' ∨ (48 ≤ c0.toNat ∧ c0.toNat ≤ 57)) :
    INCOMPLETE_LITERALS (String.mk (c0 :: t0)) = none := by
  rw [INCOMPLETE_LITERALS.eq_def]
  split <;> try rfl
  all_goals (rename_i hs
             have hc0x := Option.some.inj
               (congrArg (fun s : String => s.data.head?) hs)
             rcases h with rfl | hd
             · exact absurd hc0x (by decide)
             · rw [hc0x] at hd
               exact absurd hd (by decide))
lemma isDigitChar_iff (c : Char) :
    isDigitChar c = true ↔ (48 ≤ c.toNat ∧ c.toNat ≤ 57) := by
  simp [isDigitChar]

lemma jnumInt_facts (l1 ip l2 : List Char) (h : jnumInt l1 = some (ip, l2)) :
    l1 = ip ++ l2 ∧
    (∃ c0 t0, ip = c0 :: t0 ∧ 48 ≤ c0.toNat ∧ c0.toNat ≤ 57) ∧
    (∀ c ∈ ip, 48 ≤ c.toNat ∧ c.toNat ≤ 57) ∧
    (∃ dl tl, ip.reverse = dl :: tl ∧ 48 ≤ dl.toNat ∧ dl.toNat ≤ 57) ∧
    (∀ r2, (∀ c, r2.head? = some c → isDigitChar c = false) →
      jnumInt (ip ++ r2) = some (ip, r2)) := by
  cases l1 with
  | nil => exact absurd h (by simp [jnumInt])
  | cons c r =>
    rw [jnumInt.eq_def] at h
    dsimp only at h
    by_cases h0 : c = '0'
    · subst h0
      rw [if_pos rfl] at h
      simp only [Option.some.injEq, Prod.mk.injEq] at h
      obtain ⟨hip, hl2⟩ := h
      subst hl2
      rw [← hip]
      refine ⟨rfl, ⟨'0', [], rfl, by decide⟩, by decide, ⟨'0', [], rfl, by decide⟩, ?_⟩
      intro r2 hr2
      rw [jnumInt.eq_def]
      rfl
    · rw [if_neg h0] at h
      by_cases h19 : 49 ≤ c.toNat ∧ c.toNat ≤ 57
      · rw [if_pos h19] at h
        simp only [Option.some.injEq, Prod.mk.injEq] at h
        obtain ⟨hip, hl2⟩ := h
        subst hl2
        rw [← hip]
        have htw : ∀ x ∈ r.takeWhile isDigitChar, 48 ≤ x.toNat ∧ x.toNat ≤ 57 :=
          fun x hx => (isDigitChar_iff x).mp (List.mem_takeWhile_imp hx)
        refine ⟨by rw [List.cons_append, List.takeWhile_append_dropWhile],
          ⟨c, _, rfl, by omega, by omega⟩, ?_, ?_, ?_⟩
        · intro x hx
          rcases List.mem_cons.mp hx with rfl | hx2
          · omega
          · exact htw x hx2
        · rcases hrev : (r.takeWhile isDigitChar).reverse with _ | ⟨dl, tl⟩
          · have : r.takeWhile isDigitChar = [] := by
              rw [← List.reverse_reverse (r.takeWhile isDigitChar), hrev]
              rfl
            refine ⟨c, [], ?_, by omega, by omega⟩
            rw [this]
            rfl
          · refine ⟨dl, tl ++ [c], ?_, ?_⟩
            · rw [List.reverse_cons, hrev]
              rfl
            · have : dl ∈ r.takeWhile isDigitChar := by
                rw [← List.reverse_reverse (r.takeWhile isDigitChar), hrev]
                simp
              exact htw dl this
        · intro r2 hr2
          rw [List.cons_append, jnumInt.eq_def]
          dsimp only
          rw [if_neg h0, if_pos h19]
          have hsp := takeWhile_split isDigitChar (r.takeWhile isDigitChar) r2
            (fun x hx => List.mem_takeWhile_imp hx) hr2
          rw [hsp.1, hsp.2]
      · rw [if_neg h19] at h
        exact Option.noConfusion h
lemma jnumFrac_facts (l2 fp l3 : List Char) (h : jnumFrac l2 = (fp, l3)) :
    l2 = fp ++ l3 ∧
    (fp = [] → l3 = l2) ∧
    (fp ≠ [] → ∃ ds, fp = '.' :: ds ∧ ds ≠ [] ∧
      (∀ c ∈ ds, 48 ≤ c.toNat ∧ c.toNat ≤ 57) ∧
      (∃ dl tl, fp.reverse = dl :: tl ∧ 48 ≤ dl.toNat ∧ dl.toNat ≤ 57)) ∧
    (∀ x, (∀ c, x.head? = some c → isDigitChar c = false ∧ ¬c = '.') →
      jnumFrac (fp ++ x) = (fp, x)) := by
  unfold jnumFrac at h
  by_cases hc : l2.head? = some '.' ∧ l2.tail.takeWhile isDigitChar ≠ []
  · rw [if_pos hc] at h
    simp only [Prod.mk.injEq] at h
    obtain ⟨hfp, hl3⟩ := h
    obtain ⟨hdot, hne⟩ := hc
    cases l2 with
    | nil => exact absurd hdot (by simp)
    | cons a t =>
      have ha : a = '.' := by
        simp only [List.head?_cons, Option.some.injEq] at hdot
        exact hdot
      subst ha
      dsimp only [List.tail_cons] at hfp hl3 hne
      have htw : ∀ x ∈ t.takeWhile isDigitChar, 48 ≤ x.toNat ∧ x.toNat ≤ 57 :=
        fun x hx => (isDigitChar_iff x).mp (List.mem_takeWhile_imp hx)
      refine ⟨?_, ?_, ?_, ?_⟩
      · rw [← hfp, ← hl3, List.cons_append, List.takeWhile_append_dropWhile]
      · intro hfpnil
        rw [← hfp] at hfpnil
        exact absurd hfpnil (by simp)
      · intro _
        refine ⟨t.takeWhile isDigitChar, hfp.symm, hne, htw, ?_⟩
        rcases hrev : (t.takeWhile isDigitChar).reverse with _ | ⟨dl, tl⟩
        · exact absurd (List.reverse_eq_nil_iff.mp hrev) hne
        · have hmem : dl ∈ t.takeWhile isDigitChar :=
            List.mem_reverse.mp (by rw [hrev]; simp)
          exact ⟨dl, tl ++ ['.'],
            by rw [← hfp, List.reverse_cons, hrev]; rfl,
            (htw dl hmem).1, (htw dl hmem).2⟩
      · intro x hx
        rw [← hfp, List.cons_append]
        unfold jnumFrac
        have hsp := takeWhile_split isDigitChar (t.takeWhile isDigitChar) x
          (fun c hc2 => List.mem_takeWhile_imp hc2) (fun c hc2 => (hx c hc2).1)
        rw [if_pos ?_]
        · rw [List.tail_cons, hsp.1, hsp.2]
        · refine ⟨rfl, ?_⟩
          rw [List.tail_cons, hsp.1]
          exact hne
  · rw [if_neg hc] at h
    simp only [Prod.mk.injEq] at h
    obtain ⟨hfp, hl3⟩ := h
    subst hfp
    refine ⟨by rw [← hl3]; rfl, fun _ => hl3.symm, fun hne => absurd rfl hne, ?_⟩
    intro x hx
    rw [List.nil_append]
    unfold jnumFrac
    rw [if_neg ?_]
    intro hcc
    obtain ⟨hdot, _⟩ := hcc
    cases x with
    | nil => exact absurd hdot (by simp)
    | cons a t =>
      simp only [List.head?_cons, Option.some.injEq] at hdot
      exact absurd hdot (hx a rfl).2
lemma jnumExp_pos_plus (e : Char) (hee : e = 'e' ∨ e = 'E') (rt : List Char)
    (hdig : rt.takeWhile isDigitChar ≠ []) :
    ∀ x, (∀ c, x.head? = some c → isDigitChar c = false) →
      jnumExp ((e :: '+' :: rt.takeWhile isDigitChar) ++ x) =
        (e :: '+' :: rt.takeWhile isDigitChar, x) := by
  intro x hx
  rw [List.cons_append, List.cons_append, jnumExp, if_pos hee]
  dsimp only
  have hsp := takeWhile_split isDigitChar (rt.takeWhile isDigitChar) x
    (fun c hc2 => List.mem_takeWhile_imp hc2) (fun c hc2 => hx c hc2)
  simp only [List.head?_cons, Option.some.injEq, eq_self_iff_true, true_or,
    if_true, List.tail_cons]
  rw [hsp.1, hsp.2, if_pos hdig]
  rfl

lemma jnumExp_pos_minus (e : Char) (hee : e = 'e' ∨ e = 'E') (rt : List Char)
    (hdig : rt.takeWhile isDigitChar ≠ []) :
    ∀ x, (∀ c, x.head? = some c → isDigitChar c = false) →
      jnumExp ((e :: '-' :: rt.takeWhile isDigitChar) ++ x) =
        (e :: '-' :: rt.takeWhile isDigitChar, x) := by
  intro x hx
  rw [List.cons_append, List.cons_append, jnumExp, if_pos hee]
  dsimp only
  have hsp := takeWhile_split isDigitChar (rt.takeWhile isDigitChar) x
    (fun c hc2 => List.mem_takeWhile_imp hc2) (fun c hc2 => hx c hc2)
  simp +decide only [List.head?_cons, Option.some.injEq, eq_self_iff_true,
    true_or, or_true, if_true, if_false, List.tail_cons]
  rw [hsp.1, hsp.2, if_pos hdig]
  rfl

lemma jnumExp_pos_nosign (e : Char) (hee : e = 'e' ∨ e = 'E') (rt : List Char)
    (hdig : rt.takeWhile isDigitChar ≠ []) :
    ∀ x, (∀ c, x.head? = some c → isDigitChar c = false) →
      jnumExp ((e :: rt.takeWhile isDigitChar) ++ x) =
        (e :: rt.takeWhile isDigitChar, x) := by
  intro x hx
  rw [List.cons_append, jnumExp, if_pos hee]
  dsimp only
  have hsp := takeWhile_split isDigitChar (rt.takeWhile isDigitChar) x
    (fun c hc2 => List.mem_takeWhile_imp hc2) (fun c hc2 => hx c hc2)
  have hh : ∀ c, (rt.takeWhile isDigitChar ++ x).head? = some c →
      ¬c = '+' ∧ ¬c = '-' := by
    intro c hc2
    rcases hl : rt.takeWhile isDigitChar with _ | ⟨a, t⟩
    · exact absurd hl hdig
    · rw [hl, List.cons_append, List.head?_cons] at hc2
      have ha : a = c := Option.some.inj hc2
      have hmem : a ∈ rt.takeWhile isDigitChar := by rw [hl]; simp
      have hdg : isDigitChar a = true := List.mem_takeWhile_imp hmem
      rw [ha] at hdg
      simp only [isDigitChar, Bool.and_eq_true, decide_eq_true_eq] at hdg
      constructor <;> (intro hcc; rw [hcc] at hdg; revert hdg; decide)
  have hne1 : ¬(rt.takeWhile isDigitChar ++ x).head? = some '+' := by
    intro hcc
    exact (hh '+' hcc).1 rfl
  have hne2 : ¬(rt.takeWhile isDigitChar ++ x).head? = some '-' := by
    intro hcc
    exact (hh '-' hcc).2 rfl
  have hpm : ¬((rt.takeWhile isDigitChar ++ x).head? = some '+' ∨
      (rt.takeWhile isDigitChar ++ x).head? = some '-') := by
    rintro (hcc | hcc)
    exacts [hne1 hcc, hne2 hcc]
  rw [if_neg hne1, if_neg hne2, if_neg hpm, hsp.1, hsp.2, if_pos hdig]
  rfl

lemma jnumExp_none_replay (ep : List Char) (hep : ep = []) :
    ∀ x, (∀ c, x.head? = some c → ¬c = 'e' ∧ ¬c = 'E') →
      jnumExp (ep ++ x) = (ep, x) := by
  subst hep
  intro x hx
  rw [List.nil_append]
  cases x with
  | nil => rfl
  | cons a t =>
    rw [jnumExp]
    rw [if_neg ?_]
    rintro (rfl | rfl)
    · exact absurd rfl (hx 'e' rfl).1
    · exact absurd rfl (hx 'E' rfl).2
lemma rev_last_digit (pre tw : List Char)
    (htw : ∀ c ∈ tw, 48 ≤ c.toNat ∧ c.toNat ≤ 57) (hne : tw ≠ []) :
    ∃ dl tl, (pre ++ tw).reverse = dl :: tl ∧ 48 ≤ dl.toNat ∧ dl.toNat ≤ 57 := by
  rcases hrev : tw.reverse with _ | ⟨dl, tl⟩
  · exact absurd (List.reverse_eq_nil_iff.mp hrev) hne
  · have hmem : dl ∈ tw := List.mem_reverse.mp (by rw [hrev]; simp)
    exact ⟨dl, tl ++ pre.reverse, by rw [List.reverse_append, hrev]; rfl,
      (htw dl hmem).1, (htw dl hmem).2⟩

lemma jnumExp_facts (l3 ep l4 : List Char) (h : jnumExp l3 = (ep, l4)) :
    l3 = ep ++ l4 ∧
    (ep = [] → l4 = l3) ∧
    (ep ≠ [] → ∃ e sg tw, ep = e :: (sg ++ tw) ∧ (e = 'e' ∨ e = 'E') ∧
      (sg = [] ∨ sg = ['+'] ∨ sg = ['-']) ∧ tw ≠ [] ∧
      (∀ c ∈ tw, 48 ≤ c.toNat ∧ c.toNat ≤ 57) ∧
      (∃ dl tl, ep.reverse = dl :: tl ∧ 48 ≤ dl.toNat ∧ dl.toNat ≤ 57)) ∧
    (∀ x, (∀ c, x.head? = some c → isDigitChar c = false ∧ ¬c = 'e' ∧
        ¬c = 'E' ∧ ¬c = '+' ∧ ¬c = '-') →
      jnumExp (ep ++ x) = (ep, x)) := by
  cases l3 with
  | nil =>
    rw [jnumExp] at h
    simp only [Prod.mk.injEq] at h
    obtain ⟨hep, hl4⟩ := h
    subst hep
    exact ⟨by rw [← hl4]; rfl, fun _ => hl4.symm, fun hne => absurd rfl hne,
      fun x hx => jnumExp_none_replay [] rfl x
        (fun c hc => ⟨(hx c hc).2.1, (hx c hc).2.2.1⟩)⟩
  | cons e rr =>
    rw [jnumExp] at h
    by_cases hee : e = 'e' ∨ e = 'E'
    · rw [if_pos hee] at h
      dsimp only at h
      by_cases hplus : rr.head? = some '+'
      · cases rr with
        | nil => exact absurd hplus (by simp)
        | cons a rt =>
          have ha : a = '+' := by simpa using hplus
          subst ha
          simp +decide only [List.head?_cons, Option.some.injEq,
            eq_self_iff_true, true_or, if_true, List.tail_cons] at h
          by_cases hdig : rt.takeWhile isDigitChar ≠ []
          · rw [if_pos hdig] at h
            simp only [Prod.mk.injEq] at h
            obtain ⟨hep, hl4⟩ := h
            have htw : ∀ c ∈ rt.takeWhile isDigitChar,
                48 ≤ c.toNat ∧ c.toNat ≤ 57 :=
              fun c hc => (isDigitChar_iff c).mp (List.mem_takeWhile_imp hc)
            refine ⟨?_, ?_, ?_, ?_⟩
            · rw [← hep, ← hl4]
              simp only [List.cons_append, List.append_assoc,
                List.singleton_append, List.takeWhile_append_dropWhile]
              rfl
            · intro hepnil
              rw [← hep] at hepnil
              exact absurd hepnil (by simp)
            · intro _
              refine ⟨e, ['+'], rt.takeWhile isDigitChar, hep.symm, hee,
                Or.inr (Or.inl rfl), hdig, htw, ?_⟩
              have hsh : ep = (e :: ['+']) ++ rt.takeWhile isDigitChar := by
                rw [← hep]
                rfl
              rw [hsh]
              exact rev_last_digit (e :: ['+']) _ htw hdig
            · intro x hx
              rw [← hep]
              exact jnumExp_pos_plus e hee rt hdig x (fun c hc => (hx c hc).1)
          · rw [if_neg hdig] at h
            simp only [Prod.mk.injEq] at h
            obtain ⟨hep, hl4⟩ := h
            subst hep
            exact ⟨by rw [← hl4]; rfl, fun _ => hl4.symm,
              fun hne => absurd rfl hne,
              fun x hx => jnumExp_none_replay [] rfl x
                (fun c hc => ⟨(hx c hc).2.1, (hx c hc).2.2.1⟩)⟩
      · by_cases hminus : rr.head? = some '-'
        · cases rr with
          | nil => exact absurd hminus (by simp)
          | cons a rt =>
            have ha : a = '-' := by simpa using hminus
            subst ha
            simp +decide only [List.head?_cons, Option.some.injEq,
              eq_self_iff_true, or_true, if_true, if_false,
              List.tail_cons] at h
            by_cases hdig : rt.takeWhile isDigitChar ≠ []
            · rw [if_pos hdig] at h
              simp only [Prod.mk.injEq] at h
              obtain ⟨hep, hl4⟩ := h
              have htw : ∀ c ∈ rt.takeWhile isDigitChar,
                  48 ≤ c.toNat ∧ c.toNat ≤ 57 :=
                fun c hc => (isDigitChar_iff c).mp (List.mem_takeWhile_imp hc)
              refine ⟨?_, ?_, ?_, ?_⟩
              · rw [← hep, ← hl4]
                simp only [List.cons_append, List.append_assoc,
                  List.singleton_append, List.takeWhile_append_dropWhile]
                rfl
              · intro hepnil
                rw [← hep] at hepnil
                exact absurd hepnil (by simp)
              · intro _
                refine ⟨e, ['-'], rt.takeWhile isDigitChar, hep.symm, hee,
                  Or.inr (Or.inr rfl), hdig, htw, ?_⟩
                have hsh : ep = (e :: ['-']) ++ rt.takeWhile isDigitChar := by
                  rw [← hep]
                  rfl
                rw [hsh]
                exact rev_last_digit (e :: ['-']) _ htw hdig
              · intro x hx
                rw [← hep]
                exact jnumExp_pos_minus e hee rt hdig x
                  (fun c hc => (hx c hc).1)
            · rw [if_neg hdig] at h
              simp only [Prod.mk.injEq] at h
              obtain ⟨hep, hl4⟩ := h
              subst hep
              exact ⟨by rw [← hl4]; rfl, fun _ => hl4.symm,
                fun hne => absurd rfl hne,
                fun x hx => jnumExp_none_replay [] rfl x
                  (fun c hc => ⟨(hx c hc).2.1, (hx c hc).2.2.1⟩)⟩
        · have hpm : ¬(rr.head? = some '+' ∨ rr.head? = some '-') := by
            rintro (hcc | hcc)
            exacts [hplus hcc, hminus hcc]
          rw [if_neg hplus, if_neg hminus, if_neg hpm] at h
          by_cases hdig : rr.takeWhile isDigitChar ≠ []
          · rw [if_pos hdig] at h
            simp only [Prod.mk.injEq] at h
            obtain ⟨hep, hl4⟩ := h
            have htw : ∀ c ∈ rr.takeWhile isDigitChar,
                48 ≤ c.toNat ∧ c.toNat ≤ 57 :=
              fun c hc => (isDigitChar_iff c).mp (List.mem_takeWhile_imp hc)
            refine ⟨?_, ?_, ?_, ?_⟩
            · rw [← hep, ← hl4]
              simp only [List.cons_append, List.nil_append,
                List.takeWhile_append_dropWhile]
            · intro hepnil
              rw [← hep] at hepnil
              exact absurd hepnil (by simp)
            · intro _
              refine ⟨e, [], rr.takeWhile isDigitChar, by rw [← hep], hee,
                Or.inl rfl, hdig, htw, ?_⟩
              have hsh : ep = [e] ++ rr.takeWhile isDigitChar := by
                rw [← hep]
                rfl
              rw [hsh]
              exact rev_last_digit [e] _ htw hdig
            · intro x hx
              have hsh : ep = e :: rr.takeWhile isDigitChar := by
                rw [← hep]
                rfl
              rw [hsh]
              exact jnumExp_pos_nosign e hee rr hdig x
                (fun c hc => (hx c hc).1)
          · rw [if_neg hdig] at h
            simp only [Prod.mk.injEq] at h
            obtain ⟨hep, hl4⟩ := h
            subst hep
            exact ⟨by rw [← hl4]; rfl, fun _ => hl4.symm,
              fun hne => absurd rfl hne,
              fun x hx => jnumExp_none_replay [] rfl x
                (fun c hc => ⟨(hx c hc).2.1, (hx c hc).2.2.1⟩)⟩
    · rw [if_neg hee] at h
      simp only [Prod.mk.injEq] at h
      obtain ⟨hep, hl4⟩ := h
      subst hep
      exact ⟨by rw [← hl4]; rfl, fun _ => hl4.symm, fun hne => absurd rfl hne,
        fun x hx => jnumExp_none_replay [] rfl x
          (fun c hc => ⟨(hx c hc).2.1, (hx c hc).2.2.1⟩)⟩
lemma isBatchValueChar_of_digit (c : Char) (h : 48 ≤ c.toNat ∧ c.toNat ≤ 57) :
    isBatchValueChar c.toNat = true := by
  simp only [isBatchValueChar, Bool.or_eq_true, Bool.and_eq_true,
    decide_eq_true_eq, beq_iff_eq]
  omega

lemma jnumAfterInt_facts (sign ip l2 lex r : List Char)
    (hp : jnumAfterInt sign ip l2 = some (lex, r)) :
    ∃ fp ep, l2 = fp ++ (ep ++ r) ∧ lex = sign ++ ip ++ fp ++ ep ∧
      (∀ c ∈ fp, isBatchValueChar c.toNat = true) ∧
      (∀ c ∈ ep, isBatchValueChar c.toNat = true) ∧
      ((fp = [] ∧ ep = []) ∨ ∃ dl tl, (fp ++ ep).reverse = dl :: tl ∧
        48 ≤ dl.toNat ∧ dl.toNat ≤ 57) ∧
      (∀ x, HeadOkV x →
        (∀ c, (fp ++ (ep ++ x)).head? = some c → isDigitChar c = false) ∧
        jnumAfterInt sign ip (fp ++ (ep ++ x)) = some (lex, x)) := by
  unfold jnumAfterInt at hp
  dsimp only at hp
  rcases hfr : jnumFrac l2 with ⟨fp, l3⟩
  rw [hfr] at hp
  dsimp only at hp
  obtain ⟨hfdec, hfnil, hfpos, hfrep⟩ := jnumFrac_facts l2 fp l3 hfr
  by_cases hguard : l2.head? = some '.' ∧ fp = []
  · rw [if_pos hguard] at hp
    exact Option.noConfusion hp
  rw [if_neg hguard] at hp
  rcases hex : jnumExp l3 with ⟨ep, l4⟩
  rw [hex] at hp
  dsimp only at hp
  obtain ⟨hedec, henil, hepos, herep⟩ := jnumExp_facts l3 ep l4 hex
  have hokx : ∀ x : List Char, HeadOkV x →
      (∀ c, x.head? = some c → isDigitChar c = false ∧ ¬c = 'e' ∧ ¬c = 'E' ∧
        ¬c = '+' ∧ ¬c = '-' ∧ ¬c = '.') := by
    intro x hx c hc
    rcases hx c hc with rfl | rfl | rfl | rfl <;>
      exact ⟨by decide, by decide, by decide, by decide, by decide, by decide⟩
  have hheadE : ∀ (x : List Char), HeadOkV x → ∀ c,
      (ep ++ x).head? = some c → isDigitChar c = false ∧ ¬c = '.' := by
    intro x hx c hc
    by_cases hepn : ep = []
    · subst hepn
      rw [List.nil_append] at hc
      obtain ⟨q1, q2, q3, q4, q5, q6⟩ := hokx x hx c hc
      exact ⟨q1, q6⟩
    · obtain ⟨e, sg, tw, hsh, hee, _, _, _, _⟩ := hepos hepn
      rw [hsh, List.cons_append, List.head?_cons] at hc
      have hce : e = c := Option.some.inj hc
      rcases hee with rfl | rfl <;> rw [← hce] <;>
        exact ⟨by decide, by decide⟩
  have hpex : sign ++ ip ++ fp ++ ep = lex ∧ l4 = r := by
    cases l3 with
    | nil =>
      simp only [Option.some.injEq, Prod.mk.injEq] at hp
      exact hp
    | cons e l3t =>
      dsimp only at hp
      by_cases hg2 : (e = 'e' ∨ e = 'E') ∧ ep = []
      · rw [if_pos hg2] at hp
        exact Option.noConfusion hp
      · rw [if_neg hg2] at hp
        simp only [Option.some.injEq, Prod.mk.injEq] at hp
        exact hp
  obtain ⟨hlex, hl4r⟩ := hpex
  refine ⟨fp, ep, ?_, hlex.symm, ?_, ?_, ?_, ?_⟩
  · rw [hfdec, hedec, hl4r]
  · by_cases hfpn : fp = []
    · subst hfpn
      simp
    · obtain ⟨ds, hds, _, hdsd, _⟩ := hfpos hfpn
      rw [hds]
      intro c hc
      rcases List.mem_cons.mp hc with rfl | hc2
      · decide
      · exact isBatchValueChar_of_digit c (hdsd c hc2)
  · by_cases hepn : ep = []
    · subst hepn
      simp
    · obtain ⟨e, sg, tw, hsh, hee, hsg, _, htw, _⟩ := hepos hepn
      rw [hsh]
      intro c hc
      rcases List.mem_cons.mp hc with rfl | hc2
      · rcases hee with rfl | rfl <;> decide
      · rcases List.mem_append.mp hc2 with hc3 | hc3
        · rcases hsg with rfl | rfl | rfl
          · exact absurd hc3 (by simp)
          · rw [List.mem_singleton.mp hc3]
            decide
          · rw [List.mem_singleton.mp hc3]
            decide
        · exact isBatchValueChar_of_digit c (htw c hc3)
  · by_cases hepn : ep = []
    · subst hepn
      by_cases hfpn : fp = []
      · exact Or.inl ⟨hfpn, rfl⟩
      · obtain ⟨ds, hds, hdsne, hdsd, dl, tl, hfr2, hd1, hd2⟩ := hfpos hfpn
        refine Or.inr ⟨dl, tl, ?_, hd1, hd2⟩
        rw [List.append_nil]
        exact hfr2
    · obtain ⟨e, sg, tw, hsh, hee, hsg, htne, htw, dl, tl, her2, hd1, hd2⟩ :=
        hepos hepn
      refine Or.inr ⟨dl, tl ++ fp.reverse, ?_, hd1, hd2⟩
      rw [List.reverse_append, her2]
      rfl
  · intro x hx
    have hheadF : ∀ c, (fp ++ (ep ++ x)).head? = some c →
        isDigitChar c = false := by
      intro c hc
      by_cases hfpn : fp = []
      · subst hfpn
        rw [List.nil_append] at hc
        exact (hheadE x hx c hc).1
      · obtain ⟨ds, hds, _, _, _⟩ := hfpos hfpn
        rw [hds, List.cons_append, List.head?_cons] at hc
        rw [← Option.some.inj hc]
        decide
    refine ⟨hheadF, ?_⟩
    unfold jnumAfterInt
    dsimp only
    rw [hfrep (ep ++ x) (fun c hc => hheadE x hx c hc)]
    dsimp only
    rw [if_neg ?_]
    swap
    · intro hgg
      obtain ⟨hdot, hfpn⟩ := hgg
      subst hfpn
      rw [List.nil_append] at hdot
      cases hq : (ep ++ x).head? with
      | none => rw [hq] at hdot; exact Option.noConfusion hdot
      | some c =>
        rw [hq] at hdot
        exact (hheadE x hx c hq).2 (Option.some.inj hdot)
    rw [herep x (fun c hc => ⟨(hokx x hx c hc).1, (hokx x hx c hc).2.1,
      (hokx x hx c hc).2.2.1, (hokx x hx c hc).2.2.2.1,
      (hokx x hx c hc).2.2.2.2.1⟩)]
    dsimp only
    by_cases hepn : ep = []
    · subst hepn
      rw [List.nil_append]
      cases x with
      | nil => rw [hlex]
      | cons c xt =>
        dsimp only
        rw [if_neg ?_]
        · rw [hlex]
        · intro hgg
          obtain ⟨hce, _⟩ := hgg
          rcases hx c rfl with rfl | rfl | rfl | rfl <;>
            rcases hce with hcc | hcc <;> exact absurd hcc (by decide)
    · cases ep with
      | nil => exact absurd rfl hepn
      | cons e0 ept =>
        rw [List.cons_append]
        dsimp only
        rw [if_neg (fun hgg => absurd hgg.2 (by simp))]
        rw [hlex]
lemma parseJNumber_facts (l lex r : List Char)
    (hp : parseJNumber l = some (lex, r)) :
    l = lex ++ r ∧
    (∃ c0 t0, lex = c0 :: t0 ∧ (c0 = '-' ∨ (48 ≤ c0.toNat ∧ c0.toNat ≤ 57))) ∧
    (∀ c ∈ lex, isBatchValueChar c.toNat = true) ∧
    (∃ dl tl, lex.reverse = dl :: tl ∧ 48 ≤ dl.toNat ∧ dl.toNat ≤ 57) ∧
    INCOMPLETE_LITERALS (String.mk lex) = none ∧
    (∀ r2, HeadOkV r2 → parseJNumber (lex ++ r2) = some (lex, r2)) := by
  unfold parseJNumber at hp
  dsimp only at hp
  by_cases hsig : l.head? = some '-'
  · rw [if_pos hsig, if_pos hsig] at hp
    cases l with
    | nil => exact absurd hsig (by simp)
    | cons a lt =>
      have ha : a = '-' := by simpa using hsig
      subst ha
      dsimp only [List.tail_cons] at hp
      rcases hint : jnumInt lt with _ | ⟨ip, l2⟩
      · rw [hint] at hp
        exact Option.noConfusion hp
      rw [hint] at hp
      dsimp only at hp
      obtain ⟨hidec, ⟨ci, ti, hip, hci⟩, hichars, hilast, hirep⟩ :=
        jnumInt_facts lt ip l2 hint
      obtain ⟨fp, ep, hl2, hlex, hfpc, hepc, hlast2, hrep2⟩ :=
        jnumAfterInt_facts ['-'] ip l2 lex r hp
      have hlexc : lex = '-' :: (ip ++ (fp ++ ep)) := by
        rw [hlex]
        simp [List.append_assoc]
      refine ⟨?_, ⟨'-', ip ++ (fp ++ ep), hlexc, Or.inl rfl⟩, ?_, ?_, ?_, ?_⟩
      · rw [hlexc, hidec, hl2]
        simp [List.append_assoc]
      · rw [hlexc]
        intro c hc
        rcases List.mem_cons.mp hc with rfl | hc2
        · decide
        · rcases List.mem_append.mp hc2 with hc3 | hc3
          · exact isBatchValueChar_of_digit c (hichars c hc3)
          · rcases List.mem_append.mp hc3 with hc4 | hc4
            · exact hfpc c hc4
            · exact hepc c hc4
      · rcases hlast2 with ⟨hfpn, hepn⟩ | ⟨dl, tl, hfe, hd1, hd2⟩
        · subst hfpn
          subst hepn
          obtain ⟨dl, tl, hir, hd1, hd2⟩ := hilast
          refine ⟨dl, tl ++ ['-'], ?_, hd1, hd2⟩
          rw [hlexc]
          simp only [List.append_nil, List.reverse_cons, List.reverse_append,
            hir]
          rfl
        · refine ⟨dl, tl ++ (ip.reverse ++ ['-']), ?_, hd1, hd2⟩
          rw [hlexc]
          simp only [List.reverse_cons, List.reverse_append, hfe]
          simp [List.append_assoc]
      · rw [hlexc]
        exact IL_none_of_start '-' _ (Or.inl rfl)
      · intro r2 hx
        have hsplit : lex ++ r2 = '-' :: (ip ++ (fp ++ (ep ++ r2))) := by
          rw [hlexc]
          simp [List.append_assoc]
        rw [hsplit]
        unfold parseJNumber
        dsimp only
        simp only [List.head?_cons, Option.some.injEq, eq_self_iff_true,
          if_true]
        dsimp only [List.tail_cons]
        rw [hirep (fp ++ (ep ++ r2)) (fun c hc => (hrep2 r2 hx).1 c hc)]
        dsimp only
        exact (hrep2 r2 hx).2
  · rw [if_neg hsig, if_neg hsig] at hp
    rcases hint : jnumInt l with _ | ⟨ip, l2⟩
    · rw [hint] at hp
      exact Option.noConfusion hp
    rw [hint] at hp
    dsimp only at hp
    obtain ⟨hidec, ⟨ci, ti, hip, hci⟩, hichars, hilast, hirep⟩ :=
      jnumInt_facts l ip l2 hint
    obtain ⟨fp, ep, hl2, hlex, hfpc, hepc, hlast2, hrep2⟩ :=
      jnumAfterInt_facts [] ip l2 lex r hp
    have hlexc : lex = ip ++ (fp ++ ep) := by
      rw [hlex]
      simp [List.append_assoc]
    have hlexc2 : lex = ci :: (ti ++ (fp ++ ep)) := by
      rw [hlexc, hip]
      rfl
    refine ⟨?_, ⟨ci, ti ++ (fp ++ ep), hlexc2, Or.inr hci⟩, ?_, ?_, ?_, ?_⟩
    · rw [hlexc, hidec, hl2]
      simp [List.append_assoc]
    · rw [hlexc]
      intro c hc
      rcases List.mem_append.mp hc with hc3 | hc3
      · exact isBatchValueChar_of_digit c (hichars c hc3)
      · rcases List.mem_append.mp hc3 with hc4 | hc4
        · exact hfpc c hc4
        · exact hepc c hc4
    · rcases hlast2 with ⟨hfpn, hepn⟩ | ⟨dl, tl, hfe, hd1, hd2⟩
      · subst hfpn
        subst hepn
        obtain ⟨dl, tl, hir, hd1, hd2⟩ := hilast
        refine ⟨dl, tl, ?_, hd1, hd2⟩
        rw [hlexc]
        simp only [List.append_nil, hir]
      · refine ⟨dl, tl ++ ip.reverse, ?_, hd1, hd2⟩
        rw [hlexc]
        simp only [List.reverse_append, hfe]
        simp [List.append_assoc]
    · rw [hlexc2]
      exact IL_none_of_start ci _ (Or.inr hci)
    · intro r2 hx
      have hsplit : lex ++ r2 = ip ++ (fp ++ (ep ++ r2)) := by
        rw [hlexc]
        simp [List.append_assoc]
      rw [hsplit]
      unfold parseJNumber
      dsimp only
      have hnm : ¬(ip ++ (fp ++ (ep ++ r2))).head? = some '-' := by
        rw [hip, List.cons_append, List.head?_cons]
        intro hcc
        have hcm := Option.some.inj hcc
        rw [hcm] at hci
        exact absurd hci (by decide)
      rw [if_neg hnm, if_neg hnm]
      rw [hirep (fp ++ (ep ++ r2)) (fun c hc => (hrep2 r2 hx).1 c hc)]
      dsimp only
      exact (hrep2 r2 hx).2
lemma scan_num_tail : ∀ (t : List Char),
    (∀ c ∈ t, isBatchValueChar c.toNat = true) →
    ∀ (out : List Char) (st : List ContextType) (q : Char) (ev : Bool)
      (cv uk : String) (rc mpd : Nat) (rest : List Char),
    scanO (interS out st q ev false false false false true cv uk rc mpd)
        (t ++ rest) =
      scanO (interS (t.reverse ++ out) st q ev false false false false true
        (String.mk (cv.data ++ t)) uk rc mpd) rest := by
  intro t
  induction t with
  | nil =>
    intro hall out st q ev cv uk rc mpd rest
    simp only [List.nil_append, List.reverse_nil, List.append_nil]
  | cons c t' ih =>
    intro hall out st q ev cv uk rc mpd rest
    rw [List.cons_append,
      scanO_step0 (step_value_cont c (hall c (by simp)) out st q ev cv uk rc
        mpd) (t' ++ rest),
      ih (fun x hx => hall x (by simp [hx])) (c :: out) st q ev (cv.push c) uk
        rc mpd rest]
    have h1 : (c :: t').reverse ++ out = t'.reverse ++ (c :: out) := by
      simp
    have h2 : String.mk ((cv.push c).data ++ t') =
        String.mk (cv.data ++ (c :: t')) := by
      show String.mk ((cv.data ++ [c]) ++ t') = String.mk (cv.data ++ (c :: t'))
      rw [List.append_assoc]
      rfl
    rw [h1, h2]

lemma scan_value_token (c0 : Char) (t0 : List Char)
    (hc0 : c0 = 't' ∨ c0 = 'f' ∨ c0 = 'n' ∨ c0 = '-' ∨
      (48 ≤ c0.toNat ∧ c0.toNat ≤ 57))
    (hall : ∀ c ∈ t0, isBatchValueChar c.toNat = true)
    (out : List Char) (st : List ContextType) (q : Char) (ev : Bool)
    (cv uk : String) (rc mpd : Nat) (rest : List Char) :
    scanO (interS out st q ev false false false false false cv uk rc mpd)
        ((c0 :: t0) ++ rest) =
      scanO (interS ((c0 :: t0).reverse ++ out) st q ev false false false false
        true (String.mk (c0 :: t0)) uk rc mpd) rest := by
  have hstep : ∀ r, scanStep
      (interS out st q ev false false false false false cv uk rc mpd) c0 r =
      some (interS (c0 :: out) st q ev false false false false true
        (String.mk [c0]) uk rc mpd, 0) := by
    rcases hc0 with rfl | rfl | rfl | rfl | hd
    · exact fun r => step_value_start_lit 't' (by simp) out st q ev cv uk rc mpd r
    · exact fun r => step_value_start_lit 'f' (by simp) out st q ev cv uk rc mpd r
    · exact fun r => step_value_start_lit 'n' (by simp) out st q ev cv uk rc mpd r
    · exact fun r => step_value_start_lit '-' (by simp) out st q ev cv uk rc mpd r
    · exact fun r => step_value_start_digit c0 hd out st q ev cv uk rc mpd r
  rw [List.cons_append, scanO_step0 hstep (t0 ++ rest),
    scan_num_tail t0 hall (c0 :: out) st q ev (String.mk [c0]) uk rc mpd rest]
  have h1 : t0.reverse ++ (c0 :: out) = (c0 :: t0).reverse ++ out := by
    simp
  have h2 : String.mk ((String.mk [c0]).data ++ t0) = String.mk (c0 :: t0) := rfl
  rw [h1, h2]
/-- Characters that can start a JSON value. -/
def startD (c : Char) : Prop :=
  c = '\x22' ∨ c = '\x7b' ∨ c = '[' ∨ c = 't' ∨ c = 'f' ∨ c = 'n' ∨
  c = '-' ∨ (48 ≤ c.toNat ∧ c.toNat ≤ 57)

/-- Characters on which the emitted text of a value may end: never a comma
and never buffer whitespace, so the trailing-comma cleanup at closers and
at finalize is a no-op. -/
def TermD (d : Char) : Prop := ¬JWs d ∧ ¬d = ','

/-- Stack/root-counter configurations of the batch scan in which a value
may start: the root position (no completed roots yet) or any nested
position. -/
def StOk (st : List ContextType) (rc : Nat) : Prop :=
  (st = [] ∧ rc = 0) ∨ ∃ ct st2, st = ct :: st2

/-- Root-count contribution of a completed value: the batch counter is
incremented only by the `\x7d`/`]` switch cases when the stack empties. -/
def rcInc : JVal → Nat
  | JVal.jobj _ => 1
  | JVal.jarr _ => 1
  | _ => 0

/-- The batch state after scanning a complete value from an inter-token
state: strings leave `justClosedString` set, numbers and literals stay in
`inValue` with the lexeme pending, objects and arrays have been popped. -/
def postVal (v : JVal) (N out : List Char) (st : List ContextType) (q : Char)
    (ev : Bool) (cv2 uk : String) (rc mpd : Nat) : BState :=
  match v with
  | JVal.jstr _ =>
    interS (N.reverse ++ out) st q false false false false true false cv2 uk
      rc mpd
  | JVal.jobj _ =>
    interS (N.reverse ++ out) st q false false false false false false cv2 uk
      (if st = [] then rc + 1 else rc) mpd
  | JVal.jarr _ =>
    interS (N.reverse ++ out) st q false false false false false false cv2 uk
      (if st = [] then rc + 1 else rc) mpd
  | _ =>
    interS (N.reverse ++ out) st q ev false false false false true cv2 uk
      rc mpd

/-- Scan conclusion for a value: from any inter-token state the consumed
segment `C` drives the automaton to the flavored post-state while emitting
the normalized text `N` (reversed) onto the buffer. -/
def ScanVal (C N : List Char) (v : JVal) : Prop :=
  ∃ (cvf : String → String) (qf : Char → Char),
    (∀ cv, (match v with
      | JVal.jstr _ => cvf cv = cv
      | JVal.jobj _ => True
      | JVal.jarr _ => True
      | _ => cvf cv = String.mk N)) ∧
    ∀ (out : List Char) (st : List ContextType) (q : Char) (ev : Bool)
      (cv uk : String) (rc mpd : Nat) (rest : List Char), StOk st rc →
      scanO (interS out st q ev false false false false false cv uk rc mpd)
          (C ++ rest) =
        scanO (postVal v N out st (qf q) ev (cvf cv) uk rc mpd) rest

/-- Pending-lexeme condition: for numbers and literals the pending
`currentValue` completes to nothing (the completion table misses it), so
terminating the value never rewrites the buffer. -/
def PendOk : JVal → List Char → Prop
  | JVal.jstr _, _ => True
  | JVal.jobj _, _ => True
  | JVal.jarr _, _ => True
  | _, N => INCOMPLETE_LITERALS (String.mk N) = none

/-- Combined conclusion for the value production. -/
def ValueConcl (f : Nat) (l : List Char) (v : JVal) (r : List Char) : Prop :=
  ∃ C N, l = C ++ r ∧ N.length = C.length ∧
    (∃ d0 t0, N = d0 :: t0 ∧ startD d0) ∧
    (∃ d t, N.reverse = d :: t ∧ TermD d) ∧
    PendOk v N ∧
    (∀ rest2, HeadOkV rest2 → parseJValue f (N ++ rest2) = some (v, rest2)) ∧
    ScanVal C N v

/-- Combined conclusion for the members production (consumes up to and
including the closing `\x7d`; the scan starts just after the `\x7b`). -/
def MembersConcl (f : Nat) (l : List Char) (ms : List (List Char × JVal))
    (r : List Char) : Prop :=
  ∃ C N, l = C ++ r ∧ N.length = C.length ∧
    (∃ k t, N = List.replicate k ' ' ++ '\x22' :: t) ∧
    (∃ t, N.reverse = '\x7d' :: t) ∧
    (∀ rest2, parseJMembers f (N ++ rest2) = some (ms, rest2)) ∧
    ∃ (cvf : String → String) (qf : Char → Char),
    ∀ (out : List Char) (st : List ContextType) (q : Char) (cv uk : String)
      (rc mpd : Nat) (rest : List Char),
      scanO (interS out (ContextType.OBJECT :: st) q false true false false
          false false cv uk rc mpd) (C ++ rest) =
        scanO (interS (N.reverse ++ out) st (qf q) false false false false false
          false (cvf cv) uk (if st = [] then rc + 1 else rc) mpd) rest

/-- Combined conclusion for the items production (consumes up to and
including the closing `]`; the scan starts just after the `[`). -/
def ItemsConcl (f : Nat) (l : List Char) (xs : List JVal)
    (r : List Char) : Prop :=
  ∃ C N, l = C ++ r ∧ N.length = C.length ∧
    (∃ k d t, N = List.replicate k ' ' ++ d :: t ∧ startD d) ∧
    (∃ t, N.reverse = ']' :: t) ∧
    (∀ rest2, parseJItems f (N ++ rest2) = some (xs, rest2)) ∧
    ∃ (cvf : String → String) (qf : Char → Char),
    ∀ (out : List Char) (st : List ContextType) (q : Char) (cv uk : String)
      (rc mpd : Nat) (rest : List Char),
      scanO (interS out (ContextType.ARRAY :: st) q false false false false
          false false cv uk rc mpd) (C ++ rest) =
        scanO (interS (N.reverse ++ out) st (qf q) false false false false false
          false (cvf cv) uk (if st = [] then rc + 1 else rc) mpd) rest

/-- The characters at which an element's residue may start (the parser
stops skipping whitespace exactly there). -/
def HeadOkE (l : List Char) : Prop :=
  ∀ c, l.head? = some c → c = ',' ∨ c = '\x7d' ∨ c = ']'

/-- Combined conclusion for the element production (`ws value ws`). -/
def ElemConcl (f : Nat) (l : List Char) (v : JVal) (r : List Char) : Prop :=
  ∃ C N, l = C ++ r ∧ N.length = C.length ∧
    (∃ k d t, N = List.replicate k ' ' ++ d :: t ∧ startD d) ∧
    (∃ k d t, N.reverse = List.replicate k ' ' ++ d :: t ∧ TermD d) ∧
    (∀ rest2, HeadOkE rest2 → parseJElement f (N ++ rest2) = some (v, rest2)) ∧
    ∃ (iv2 b : Bool) (cvf : String → String) (qf : Char → Char),
    (iv2 = true → b = false ∧ ∀ cv, INCOMPLETE_LITERALS (cvf cv) = none) ∧
    ∀ (out : List Char) (st : List ContextType) (q : Char) (ev : Bool)
      (cv uk : String) (rc mpd : Nat) (rest : List Char), StOk st rc →
      scanO (interS out st q ev false false false false false cv uk rc mpd)
          (C ++ rest) =
        scanO (interS (N.reverse ++ out) st (qf q) (if iv2 then ev else false)
          false false false b iv2 (cvf cv) uk
          (if st = [] then rc + rcInc v else rc) mpd) rest
lemma scanO_nil (s : BState) : scanO s [] = some s := rfl

lemma pjv_str (f : Nat) (x : List Char) :
    parseJValue (f+1) ('\x22' :: x) =
      (parseJStringBody x).map (fun p => (JVal.jstr p.1, p.2)) := rfl

lemma pjv_obj (f : Nat) (x : List Char) :
    parseJValue (f+1) ('\x7b' :: x) =
      (match skipJWs x with
       | '\x7d' :: r2 => some (JVal.jobj [], r2)
       | _ => (parseJMembers f x).map (fun p => (JVal.jobj p.1, p.2))) := rfl

lemma pjv_arr (f : Nat) (x : List Char) :
    parseJValue (f+1) ('[' :: x) =
      (match skipJWs x with
       | ']' :: r2 => some (JVal.jarr [], r2)
       | _ => (parseJItems f x).map (fun p => (JVal.jarr p.1, p.2))) := rfl

lemma pjv_true (f : Nat) (x : List Char) :
    parseJValue (f+1) ('t' :: 'r' :: 'u' :: 'e' :: x) =
      some (JVal.jtrue, x) := rfl

lemma pjv_false (f : Nat) (x : List Char) :
    parseJValue (f+1) ('f' :: 'a' :: 'l' :: 's' :: 'e' :: x) =
      some (JVal.jfalse, x) := rfl

lemma pjv_null (f : Nat) (x : List Char) :
    parseJValue (f+1) ('n' :: 'u' :: 'l' :: 'l' :: x) =
      some (JVal.jnull, x) := rfl

set_option maxHeartbeats 1000000 in
lemma pjv_num (f : Nat) (c : Char) (t : List Char)
    (h1 : ¬c = '\x22') (h2 : ¬c = '\x7b') (h3 : ¬c = '[') (h4 : ¬c = 't')
    (h5 : ¬c = 'f') (h6 : ¬c = 'n') :
    parseJValue (f+1) (c :: t) =
      (parseJNumber (c :: t)).map (fun p => (JVal.jnum p.1, p.2)) := by
  unfold parseJValue
  split
  · rename_i heq
    injection heq with ha _
    exact absurd ha h1
  · rename_i heq
    injection heq with ha _
    exact absurd ha h2
  · rename_i heq
    injection heq with ha _
    exact absurd ha h3
  · rename_i heq
    injection heq with ha _
    exact absurd ha h4
  · rename_i heq
    injection heq with ha _
    exact absurd ha h5
  · rename_i heq
    injection heq with ha _
    exact absurd ha h6
  · rfl

lemma pje_eq (f : Nat) (l : List Char) :
    parseJElement (f+1) l =
      (match parseJValue f (skipJWs l) with
       | some (v, r) => some (v, skipJWs r)
       | none => none) := rfl

lemma pjm_eq (f : Nat) (l : List Char) :
    parseJMembers (f+1) l =
      (match skipJWs l with
       | '\x22' :: r =>
         (match parseJStringBody r with
          | some (key, r2) =>
            (match skipJWs r2 with
             | ':' :: r4 =>
               (match parseJElement f r4 with
                | some (v, r5) =>
                  (match r5 with
                   | ',' :: r6 =>
                     (parseJMembers f r6).map (fun p => ((key, v) :: p.1, p.2))
                   | '\x7d' :: r6 => some ([(key, v)], r6)
                   | _ => none)
                | none => none)
             | _ => none)
          | none => none)
       | _ => none) := rfl

lemma pji_eq (f : Nat) (l : List Char) :
    parseJItems (f+1) l =
      (match parseJElement f l with
       | some (v, r) =>
         (match r with
          | ',' :: r2 => (parseJItems f r2).map (fun p => (v :: p.1, p.2))
          | ']' :: r2 => some ([v], r2)
          | _ => none)
       | none => none) := rfl

lemma jws_toNat {d : Char} (h : JWs d) :
    d.toNat = 32 ∨ d.toNat = 9 ∨ d.toNat = 10 ∨ d.toNat = 13 := by
  rcases h with rfl | rfl | rfl | rfl
  · exact Or.inl (by decide)
  · exact Or.inr (Or.inl (by decide))
  · exact Or.inr (Or.inr (Or.inl (by decide)))
  · exact Or.inr (Or.inr (Or.inr (by decide)))

lemma startD_toNat {d : Char} (h : startD d) :
    d.toNat = 34 ∨ d.toNat = 123 ∨ d.toNat = 91 ∨ d.toNat = 116 ∨
    d.toNat = 102 ∨ d.toNat = 110 ∨ d.toNat = 45 ∨
    (48 ≤ d.toNat ∧ d.toNat ≤ 57) := by
  rcases h with rfl | rfl | rfl | rfl | rfl | rfl | rfl | hd
  · exact Or.inl (by decide)
  · exact Or.inr (Or.inl (by decide))
  · exact Or.inr (Or.inr (Or.inl (by decide)))
  · exact Or.inr (Or.inr (Or.inr (Or.inl (by decide))))
  · exact Or.inr (Or.inr (Or.inr (Or.inr (Or.inl (by decide)))))
  · exact Or.inr (Or.inr (Or.inr (Or.inr (Or.inr (Or.inl (by decide))))))
  · exact Or.inr (Or.inr (Or.inr (Or.inr (Or.inr (Or.inr (Or.inl (by decide)))))))
  · exact Or.inr (Or.inr (Or.inr (Or.inr (Or.inr (Or.inr (Or.inr hd))))))

lemma startD_not_jws {d : Char} (h : startD d) : ¬JWs d := by
  intro hj
  have h1 := startD_toNat h
  have h2 := jws_toNat hj
  omega

lemma startD_ne_rbrack {d : Char} (h : startD d) : ¬d = ']' := by
  intro he
  subst he
  exact absurd (startD_toNat h) (by decide)

lemma termD_of_digit {d : Char} (h : 48 ≤ d.toNat ∧ d.toNat ≤ 57) : TermD d := by
  constructor
  · intro hj
    have := jws_toNat hj
    omega
  · intro he
    subst he
    exact absurd h (by decide)

lemma headOkE_headOkV {l : List Char} (h : HeadOkE l) : HeadOkV l :=
  fun c hc => Or.inr (h c hc)

lemma replicate_space_jws (k : Nat) : ∀ c ∈ List.replicate k ' ', JWs c :=
  fun c hc => by rw [List.eq_of_mem_replicate hc]; exact Or.inl rfl

lemma headOkV_rep (k : Nat) (l : List Char) (h : HeadOkE l) :
    HeadOkV (List.replicate k ' ' ++ l) := by
  cases k with
  | zero =>
    rw [List.replicate_zero, List.nil_append]
    exact headOkE_headOkV h
  | succ k2 =>
    intro c hc
    rw [List.replicate_succ, List.cons_append, List.head?_cons] at hc
    injection hc with hc2
    exact Or.inl hc2.symm

lemma skipJWs_rep_headE (k : Nat) (l : List Char) (h : HeadOkE l) :
    skipJWs (List.replicate k ' ' ++ l) = l := by
  cases l with
  | nil =>
    rw [List.append_nil]
    unfold skipJWs
    exact dropWhile_eq_nil_of_sat _ _ (fun c hc => by
      rw [List.eq_of_mem_replicate hc]; decide)
  | cons c t =>
    refine skipJWs_sat_append _ (replicate_space_jws k) c ?_ t
    intro hj
    rcases h c rfl with h1 | h1 | h1 <;> (subst h1; exact absurd (jws_toNat hj) (by decide))

lemma step_lbrace_any (out : List Char) (st : List ContextType) (q : Char)
    (ev : Bool) (cv uk : String) (rc mpd : Nat) (hst : StOk st rc)
    (r : List Char) :
    scanStep (interS out st q ev false false false false false cv uk rc mpd)
        '\x7b' r =
      some (interS ('\x7b' :: out) (ContextType.OBJECT :: st) q false true
        false false false false cv uk rc mpd, 0) := by
  rcases hst with ⟨hst0, hrc0⟩ | ⟨ct, st2, hstc⟩
  · subst hst0
    subst hrc0
    exact step_lbrace_root out q ev cv uk mpd r
  · subst hstc
    exact step_lbrace_nested out ct st2 q ev cv uk rc mpd r

lemma step_lbrack_any (out : List Char) (st : List ContextType) (q : Char)
    (ev : Bool) (cv uk : String) (rc mpd : Nat) (hst : StOk st rc)
    (r : List Char) :
    scanStep (interS out st q ev false false false false false cv uk rc mpd)
        '[' r =
      some (interS ('[' :: out) (ContextType.ARRAY :: st) q false false
        false false false false cv uk rc mpd, 0) := by
  rcases hst with ⟨hst0, hrc0⟩ | ⟨ct, st2, hstc⟩
  · subst hst0
    subst hrc0
    exact step_lbrack_root out q ev cv uk mpd r
  · subst hstc
    exact step_lbrack_nested out ct st2 q ev cv uk rc mpd r

lemma step_rbrace_eke (k : Nat) (d : Char) (t : List Char) (hd : ¬JWs d)
    (hc : ¬d = ',') (st : List ContextType) (q : Char)
    (cv uk : String) (rc mpd : Nat) (r : List Char) :
    scanStep (interS (List.replicate k ' ' ++ d :: t)
        (ContextType.OBJECT :: st) q false true false false false false cv uk
        rc mpd) '\x7d' r =
      some (interS ('\x7d' :: (List.replicate k ' ' ++ d :: t)) st q false false
        false false false false cv uk (if st = [] then rc + 1 else rc) mpd, 0) := by
  simp +decide only [scanStep, interS, mongoStep, valueStepB, structuralStepB,
    structuralSwitchB, removeTrailingCommaRev_noop k d t hd hc,
    Bool.false_eq_true, Bool.true_eq_false, if_false, if_true, ne_eq,
    not_true, not_false_iff, false_and, and_false, and_true, true_and,
    or_false, false_or, or_self]
  rfl
lemma termD_of_toNat {d : Char} (hw : d.toNat ≠ 32 ∧ d.toNat ≠ 9 ∧
    d.toNat ≠ 10 ∧ d.toNat ≠ 13 ∧ d.toNat ≠ 44) : TermD d := by
  constructor
  · intro hj
    have := jws_toNat hj
    omega
  · intro he
    subst he
    exact hw.2.2.2.2 (by decide)

set_option maxHeartbeats 4000000 in
lemma value_step (f : Nat)
    (ihm : ∀ l ms r, parseJMembers f l = some (ms, r) → MembersConcl f l ms r)
    (ihi : ∀ l xs r, parseJItems f l = some (xs, r) → ItemsConcl f l xs r) :
    ∀ l v r, parseJValue (f+1) l = some (v, r) → ValueConcl (f+1) l v r := by
  intro l v r hp
  unfold parseJValue at hp
  split at hp
  · -- string
    rename_i r0
    rcases hb : parseJStringBody r0 with _ | ⟨b, rr⟩
    · rw [hb] at hp
      exact Option.noConfusion hp
    rw [hb, Option.map_some'] at hp
    simp only [Option.some.injEq, Prod.mk.injEq] at hp
    obtain ⟨hv, hr⟩ := hp
    subst hv
    subst hr
    obtain ⟨hdec, hreplay, hscan⟩ :=
      stringBody_facts r0.length r0 b rr (le_refl _) hb
    refine ⟨'\x22' :: (b ++ ['\x22']), '\x22' :: (b ++ ['\x22']),
      by simp [hdec], rfl,
      ⟨'\x22', b ++ ['\x22'], rfl, Or.inl rfl⟩,
      ⟨'\x22', b.reverse ++ ['\x22'], by simp, termD_of_toNat (by decide)⟩,
      trivial, ?_, ?_⟩
    · intro rest2 _
      have hN : ('\x22' :: (b ++ ['\x22'])) ++ rest2 =
          '\x22' :: (b ++ '\x22' :: rest2) := by simp
      rw [hN, pjv_str, hreplay rest2, Option.map_some']
    · refine ⟨id, fun q => '\x22', fun cv => rfl, ?_⟩
      intro out st q ev cv uk rc mpd rest hst
      have hC : ('\x22' :: (b ++ ['\x22'])) ++ rest =
          '\x22' :: (b ++ '\x22' :: rest) := by simp
      rw [hC,
        scanO_step0 (step_quote_open_val out st q ev cv uk rc mpd)
          (b ++ '\x22' :: rest),
        hscan ('\x22' :: out) st false ev cv uk rc mpd rest
          (fun h => Bool.noConfusion h)]
      dsimp only [postVal, id]
      have hout : ('\x22' :: (b ++ ['\x22'])).reverse ++ out =
          '\x22' :: (b.reverse ++ ('\x22' :: out)) := by simp
      rw [hout]
  · -- object
    rename_i r0
    split at hp
    · -- empty object
      rename_i r2 heq
      simp only [Option.some.injEq, Prod.mk.injEq] at hp
      obtain ⟨hv, hr⟩ := hp
      subst hv
      subst hr
      obtain ⟨w, hww, hw⟩ := skipJWs_decomp r0
      rw [heq] at hw
      refine ⟨'\x7b' :: (w ++ ['\x7d']),
        '\x7b' :: (List.replicate w.length ' ' ++ ['\x7d']),
        by simp [hw], by simp,
        ⟨'\x7b', List.replicate w.length ' ' ++ ['\x7d'], rfl,
          Or.inr (Or.inl rfl)⟩,
        ⟨'\x7d', List.replicate w.length ' ' ++ ['\x7b'], by simp,
          termD_of_toNat (by decide)⟩,
        trivial, ?_, ?_⟩
      · intro rest2 _
        have hsh : ('\x7b' :: (List.replicate w.length ' ' ++ ['\x7d'])) ++ rest2 =
            '\x7b' :: (List.replicate w.length ' ' ++ ('\x7d' :: rest2)) := by
          simp
        rw [hsh, pjv_obj f,
          skipJWs_sat_append _ (replicate_space_jws w.length) '\x7d'
            (fun hj => absurd (jws_toNat hj) (by decide)) rest2]
        split
        · rename_i r2x heq2
          injection heq2 with h1 h2
          rw [h2]
        · rename_i hne2
          exact absurd rfl (hne2 rest2)
      · refine ⟨id, fun q => q, fun cv => trivial, ?_⟩
        intro out st q ev cv uk rc mpd rest hst
        have hsh : ('\x7b' :: (w ++ ['\x7d'])) ++ rest =
            '\x7b' :: (w ++ ('\x7d' :: rest)) := by simp
        rw [hsh,
          scanO_step0 (fun r => step_lbrace_any out st q ev cv uk rc mpd hst r)
            (w ++ ('\x7d' :: rest)),
          scan_ws_run w hww ('\x7b' :: out) (ContextType.OBJECT :: st) q false
            true false false false cv uk rc mpd ('\x7d' :: rest),
          scanO_step0 (fun r => step_rbrace_eke w.length '\x7b' out
            (fun hj => absurd (jws_toNat hj) (by decide)) (by decide) st q cv uk
            rc mpd r) rest]
        dsimp only [postVal, id]
        have hout : ('\x7b' :: (List.replicate w.length ' ' ++ ['\x7d'])).reverse
            ++ out = '\x7d' :: (List.replicate w.length ' ' ++ ('\x7b' :: out)) := by
          simp
        rw [hout]
    · -- nonempty object
      rename_i hne0
      rcases hm : parseJMembers f r0 with _ | ⟨ms, rr⟩
      · rw [hm] at hp
        exact Option.noConfusion hp
      rw [hm, Option.map_some'] at hp
      simp only [Option.some.injEq, Prod.mk.injEq] at hp
      obtain ⟨hv, hr⟩ := hp
      subst hv
      subst hr
      obtain ⟨Cm, Nm, hdec, hlen, ⟨k, t, hshape⟩, ⟨t2, hrev⟩, hrepm, cvfm, qfm,
        hscanm⟩ := ihm r0 ms rr hm
      refine ⟨'\x7b' :: Cm, '\x7b' :: Nm, by simp [hdec], by simp [hlen],
        ⟨'\x7b', Nm, rfl, Or.inr (Or.inl rfl)⟩,
        ⟨'\x7d', t2 ++ ['\x7b'], by simp [hrev], termD_of_toNat (by decide)⟩,
        trivial, ?_, ?_⟩
      · intro rest2 _
        have hskip : skipJWs (Nm ++ rest2) = '\x22' :: (t ++ rest2) := by
          rw [hshape, List.append_assoc]
          exact skipJWs_sat_append _ (replicate_space_jws k) '\x22'
            (fun hj => absurd (jws_toNat hj) (by decide)) (t ++ rest2)
        have hsh : ('\x7b' :: Nm) ++ rest2 = '\x7b' :: (Nm ++ rest2) := rfl
        rw [hsh, pjv_obj f, hskip]
        split
        · rename_i r2x heq2
          injection heq2 with ha hb2
          exact absurd ha (by decide)
        · rw [hrepm rest2, Option.map_some']
      · refine ⟨cvfm, qfm, fun cv => trivial, ?_⟩
        intro out st q ev cv uk rc mpd rest hst
        have hsh : ('\x7b' :: Cm) ++ rest = '\x7b' :: (Cm ++ rest) := rfl
        rw [hsh,
          scanO_step0 (fun r => step_lbrace_any out st q ev cv uk rc mpd hst r)
            (Cm ++ rest),
          hscanm ('\x7b' :: out) st q cv uk rc mpd rest]
        dsimp only [postVal]
        have hout : ('\x7b' :: Nm).reverse ++ out = Nm.reverse ++ ('\x7b' :: out) := by
          simp
        rw [hout]
  · -- array
    rename_i r0
    split at hp
    · -- empty array
      rename_i r2 heq
      simp only [Option.some.injEq, Prod.mk.injEq] at hp
      obtain ⟨hv, hr⟩ := hp
      subst hv
      subst hr
      obtain ⟨w, hww, hw⟩ := skipJWs_decomp r0
      rw [heq] at hw
      refine ⟨'[' :: (w ++ [']']),
        '[' :: (List.replicate w.length ' ' ++ [']']),
        by simp [hw], by simp,
        ⟨'[', List.replicate w.length ' ' ++ [']'], rfl,
          Or.inr (Or.inr (Or.inl rfl))⟩,
        ⟨']', List.replicate w.length ' ' ++ ['['], by simp,
          termD_of_toNat (by decide)⟩,
        trivial, ?_, ?_⟩
      · intro rest2 _
        have hsh : ('[' :: (List.replicate w.length ' ' ++ [']'])) ++ rest2 =
            '[' :: (List.replicate w.length ' ' ++ (']' :: rest2)) := by
          simp
        rw [hsh, pjv_arr f,
          skipJWs_sat_append _ (replicate_space_jws w.length) ']'
            (fun hj => absurd (jws_toNat hj) (by decide)) rest2]
        split
        · rename_i r2x heq2
          injection heq2 with h1 h2
          rw [h2]
        · rename_i hne2
          exact absurd rfl (hne2 rest2)
      · refine ⟨id, fun q => q, fun cv => trivial, ?_⟩
        intro out st q ev cv uk rc mpd rest hst
        have hsh : ('[' :: (w ++ [']'])) ++ rest =
            '[' :: (w ++ (']' :: rest)) := by simp
        rw [hsh,
          scanO_step0 (fun r => step_lbrack_any out st q ev cv uk rc mpd hst r)
            (w ++ (']' :: rest)),
          scan_ws_run w hww ('[' :: out) (ContextType.ARRAY :: st) q false
            false false false false cv uk rc mpd (']' :: rest),
          scanO_step0 (fun r => step_rbrack w.length '[' out
            (fun hj => absurd (jws_toNat hj) (by decide)) (by decide) st q false
            cv uk rc mpd r) rest]
        dsimp only [postVal, id]
        have hout : ('[' :: (List.replicate w.length ' ' ++ [']'])).reverse
            ++ out = ']' :: (List.replicate w.length ' ' ++ ('[' :: out)) := by
          simp
        rw [hout]
    · -- nonempty array
      rename_i hne0
      rcases hm : parseJItems f r0 with _ | ⟨xs, rr⟩
      · rw [hm] at hp
        exact Option.noConfusion hp
      rw [hm, Option.map_some'] at hp
      simp only [Option.some.injEq, Prod.mk.injEq] at hp
      obtain ⟨hv, hr⟩ := hp
      subst hv
      subst hr
      obtain ⟨Cm, Nm, hdec, hlen, ⟨k, d, t, hshape, hd⟩, ⟨t2, hrev⟩, hrepm,
        cvfm, qfm, hscanm⟩ := ihi r0 xs rr hm
      refine ⟨'[' :: Cm, '[' :: Nm, by simp [hdec], by simp [hlen],
        ⟨'[', Nm, rfl, Or.inr (Or.inr (Or.inl rfl))⟩,
        ⟨']', t2 ++ ['['], by simp [hrev], termD_of_toNat (by decide)⟩,
        trivial, ?_, ?_⟩
      · intro rest2 _
        have hskip : skipJWs (Nm ++ rest2) = d :: (t ++ rest2) := by
          rw [hshape, List.append_assoc, List.cons_append]
          exact skipJWs_sat_append _ (replicate_space_jws k) d
            (startD_not_jws hd) (t ++ rest2)
        have hsh : ('[' :: Nm) ++ rest2 = '[' :: (Nm ++ rest2) := rfl
        rw [hsh, pjv_arr f, hskip]
        split
        · rename_i r2x heq2
          injection heq2 with ha hb2
          exact absurd ha (startD_ne_rbrack hd)
        · rw [hrepm rest2, Option.map_some']
      · refine ⟨cvfm, qfm, fun cv => trivial, ?_⟩
        intro out st q ev cv uk rc mpd rest hst
        have hsh : ('[' :: Cm) ++ rest = '[' :: (Cm ++ rest) := rfl
        rw [hsh,
          scanO_step0 (fun r => step_lbrack_any out st q ev cv uk rc mpd hst r)
            (Cm ++ rest),
          hscanm ('[' :: out) st q cv uk rc mpd rest]
        dsimp only [postVal]
        have hout : ('[' :: Nm).reverse ++ out = Nm.reverse ++ ('[' :: out) := by
          simp
        rw [hout]
  · -- true
    rename_i r0
    simp only [Option.some.injEq, Prod.mk.injEq] at hp
    obtain ⟨hv, hr⟩ := hp
    subst hv
    subst hr
    refine ⟨['t', 'r', 'u', 'e'], ['t', 'r', 'u', 'e'], rfl, rfl,
      ⟨'t', ['r', 'u', 'e'], rfl, Or.inr (Or.inr (Or.inr (Or.inl rfl)))⟩,
      ⟨'e', ['u', 'r', 't'], rfl, termD_of_toNat (by decide)⟩,
      show INCOMPLETE_LITERALS (String.mk ['t', 'r', 'u', 'e']) = none by decide,
      ?_, ?_⟩
    · intro rest2 _
      exact pjv_true f rest2
    · refine ⟨fun cv => String.mk ['t', 'r', 'u', 'e'], fun q => q,
        fun cv => rfl, ?_⟩
      intro out st q ev cv uk rc mpd rest hst
      exact scan_value_token 't' ['r', 'u', 'e'] (Or.inl rfl) (by decide) out
        st q ev cv uk rc mpd rest
  · -- false
    rename_i r0
    simp only [Option.some.injEq, Prod.mk.injEq] at hp
    obtain ⟨hv, hr⟩ := hp
    subst hv
    subst hr
    refine ⟨['f', 'a', 'l', 's', 'e'], ['f', 'a', 'l', 's', 'e'], rfl, rfl,
      ⟨'f', ['a', 'l', 's', 'e'], rfl,
        Or.inr (Or.inr (Or.inr (Or.inr (Or.inl rfl))))⟩,
      ⟨'e', ['s', 'l', 'a', 'f'], rfl, termD_of_toNat (by decide)⟩,
      show INCOMPLETE_LITERALS (String.mk ['f', 'a', 'l', 's', 'e']) = none by decide,
      ?_, ?_⟩
    · intro rest2 _
      exact pjv_false f rest2
    · refine ⟨fun cv => String.mk ['f', 'a', 'l', 's', 'e'], fun q => q,
        fun cv => rfl, ?_⟩
      intro out st q ev cv uk rc mpd rest hst
      exact scan_value_token 'f' ['a', 'l', 's', 'e'] (Or.inr (Or.inl rfl))
        (by decide) out st q ev cv uk rc mpd rest
  · -- null
    rename_i r0
    simp only [Option.some.injEq, Prod.mk.injEq] at hp
    obtain ⟨hv, hr⟩ := hp
    subst hv
    subst hr
    refine ⟨['n', 'u', 'l', 'l'], ['n', 'u', 'l', 'l'], rfl, rfl,
      ⟨'n', ['u', 'l', 'l'], rfl,
        Or.inr (Or.inr (Or.inr (Or.inr (Or.inr (Or.inl rfl)))))⟩,
      ⟨'l', ['l', 'u', 'n'], rfl, termD_of_toNat (by decide)⟩,
      show INCOMPLETE_LITERALS (String.mk ['n', 'u', 'l', 'l']) = none by decide,
      ?_, ?_⟩
    · intro rest2 _
      exact pjv_null f rest2
    · refine ⟨fun cv => String.mk ['n', 'u', 'l', 'l'], fun q => q,
        fun cv => rfl, ?_⟩
      intro out st q ev cv uk rc mpd rest hst
      exact scan_value_token 'n' ['u', 'l', 'l'] (Or.inr (Or.inr (Or.inl rfl)))
        (by decide) out st q ev cv uk rc mpd rest
  · -- number
    rename_i hx1 hx2 hx3 hx4 hx5 hx6
    rcases hnum : parseJNumber l with _ | ⟨lex, rr⟩
    · rw [hnum] at hp
      exact Option.noConfusion hp
    rw [hnum, Option.map_some'] at hp
    simp only [Option.some.injEq, Prod.mk.injEq] at hp
    obtain ⟨hv, hr⟩ := hp
    subst hv
    subst hr
    obtain ⟨hdec, ⟨c0, t0, hlex, hc0⟩, hchars, ⟨dl, tl, hrevl, hd48, hd57⟩,
      hIL, hrep⟩ := parseJNumber_facts l lex rr hnum
    have hc0s : c0 = 't' ∨ c0 = 'f' ∨ c0 = 'n' ∨ c0 = '-' ∨
        (48 ≤ c0.toNat ∧ c0.toNat ≤ 57) := by
      rcases hc0 with rfl | hd
      · exact Or.inr (Or.inr (Or.inr (Or.inl rfl)))
      · exact Or.inr (Or.inr (Or.inr (Or.inr hd)))
    have hne : ¬c0 = '\x22' ∧ ¬c0 = '\x7b' ∧ ¬c0 = '[' ∧ ¬c0 = 't' ∧
        ¬c0 = 'f' ∧ ¬c0 = 'n' := by
      rcases hc0 with rfl | hd
      · exact ⟨by decide, by decide, by decide, by decide, by decide, by decide⟩
      · refine ⟨?_, ?_, ?_, ?_, ?_, ?_⟩ <;>
          (intro he; subst he; exact absurd hd (by decide))
    refine ⟨lex, lex, hdec, rfl,
      ⟨c0, t0, hlex, ?_⟩,
      ⟨dl, tl, hrevl, termD_of_digit ⟨hd48, hd57⟩⟩, hIL, ?_, ?_⟩
    · rcases hc0 with rfl | hd
      · exact Or.inr (Or.inr (Or.inr (Or.inr (Or.inr (Or.inr (Or.inl rfl))))))
      · exact Or.inr (Or.inr (Or.inr (Or.inr (Or.inr (Or.inr (Or.inr hd))))))
    · intro rest2 hok
      have hsh : lex ++ rest2 = c0 :: (t0 ++ rest2) := by rw [hlex]; rfl
      rw [hsh, pjv_num f c0 (t0 ++ rest2) hne.1 hne.2.1 hne.2.2.1 hne.2.2.2.1
        hne.2.2.2.2.1 hne.2.2.2.2.2, ← hsh, hrep rest2 hok, Option.map_some']
    · refine ⟨fun cv => String.mk lex, fun q => q, fun cv => rfl, ?_⟩
      intro out st q ev cv uk rc mpd rest hst
      have hsh : lex ++ rest = (c0 :: t0) ++ rest := by rw [hlex]
      rw [hsh, scan_value_token c0 t0 hc0s
        (fun c hc => hchars c (by rw [hlex]; exact List.mem_cons_of_mem c0 hc))
        out st q ev cv uk rc mpd rest]
      dsimp only [postVal]
      rw [← hlex]
lemma cons_space_replicate (n : Nat) (X : List Char) :
    ' ' :: (List.replicate n ' ' ++ X) = List.replicate n ' ' ++ (' ' :: X) := by
  rw [← List.cons_append, ← List.replicate_succ, List.replicate_succ',
    List.append_assoc, List.singleton_append]

set_option maxHeartbeats 4000000 in
lemma elem_step (f : Nat)
    (ihv : ∀ l v r, parseJValue f l = some (v, r) → ValueConcl f l v r) :
    ∀ l v r, parseJElement (f+1) l = some (v, r) → ElemConcl (f+1) l v r := by
  intro l v r hp
  rw [pje_eq] at hp
  split at hp
  case h_2 => exact Option.noConfusion hp
  rename_i v0 r1 heq
  simp only [Option.some.injEq, Prod.mk.injEq] at hp
  obtain ⟨hv, hr⟩ := hp
  subst hv
  subst hr
  obtain ⟨Cv, Nv, hdecv, hlenv, ⟨d0, t0, hNh, hd0⟩, ⟨dE, tE, hNr, hdE⟩, hpend,
    hrepv, cvf, qf, hcvf, hscanv⟩ := ihv (skipJWs l) v0 r1 heq
  obtain ⟨w1, hw1w, hw1⟩ := skipJWs_decomp l
  obtain ⟨w2, hw2w, hw2⟩ := skipJWs_decomp r1
  refine ⟨w1 ++ (Cv ++ w2),
    List.replicate w1.length ' ' ++ (Nv ++ List.replicate w2.length ' '),
    ?_, by simp [hlenv], ?_, ?_, ?_, ?_⟩
  · conv_lhs => rw [hw1, hdecv]
    conv_lhs => rw [hw2]
    simp [List.append_assoc]
  · refine ⟨w1.length, d0, t0 ++ List.replicate w2.length ' ', ?_, hd0⟩
    rw [hNh]
    simp
  · refine ⟨w2.length, dE, tE ++ List.replicate w1.length ' ', ?_, hdE⟩
    simp only [List.reverse_append, List.reverse_replicate]
    rw [hNr]
    simp
  · intro rest2 hok
    rw [pje_eq]
    have hra : (List.replicate w1.length ' ' ++
        (Nv ++ List.replicate w2.length ' ')) ++ rest2 =
        List.replicate w1.length ' ' ++
          (Nv ++ (List.replicate w2.length ' ' ++ rest2)) := by
      simp [List.append_assoc]
    rw [hra]
    have hskip1 : skipJWs (List.replicate w1.length ' ' ++
        (Nv ++ (List.replicate w2.length ' ' ++ rest2))) =
        Nv ++ (List.replicate w2.length ' ' ++ rest2) := by
      rw [hNh, List.cons_append]
      exact skipJWs_sat_append _ (replicate_space_jws _) d0
        (startD_not_jws hd0) _
    rw [hskip1, hrepv (List.replicate w2.length ' ' ++ rest2)
      (headOkV_rep _ _ hok)]
    dsimp only
    rw [skipJWs_rep_headE w2.length rest2 hok]
  · rcases v0 with _ | _ | _ | lex | s | xs | ms
    case jstr =>
      refine ⟨false, true, cvf, qf, fun h => Bool.noConfusion h, ?_⟩
      intro out st q ev cv uk rc mpd rest hst
      have hCr : (w1 ++ (Cv ++ w2)) ++ rest = w1 ++ (Cv ++ (w2 ++ rest)) := by
        simp [List.append_assoc]
      rw [hCr,
        scan_ws_run w1 hw1w out st q ev false false false false cv uk rc mpd
          (Cv ++ (w2 ++ rest)),
        hscanv (List.replicate w1.length ' ' ++ out) st q ev cv uk rc mpd
          (w2 ++ rest) hst]
      dsimp only [postVal]
      rw [scan_ws_run w2 hw2w _ st (qf q) false false false false true (cvf cv)
        uk rc mpd rest]
      have hout : (List.replicate w1.length ' ' ++
          (Nv ++ List.replicate w2.length ' ')).reverse ++ out =
          List.replicate w2.length ' ' ++
            (Nv.reverse ++ (List.replicate w1.length ' ' ++ out)) := by
        simp [List.reverse_append, List.append_assoc]
      rw [hout]
      simp only [Bool.false_eq_true, if_false, rcInc, Nat.add_zero, ite_self]
    case jarr =>
      refine ⟨false, false, cvf, qf, fun h => Bool.noConfusion h, ?_⟩
      intro out st q ev cv uk rc mpd rest hst
      have hCr : (w1 ++ (Cv ++ w2)) ++ rest = w1 ++ (Cv ++ (w2 ++ rest)) := by
        simp [List.append_assoc]
      rw [hCr,
        scan_ws_run w1 hw1w out st q ev false false false false cv uk rc mpd
          (Cv ++ (w2 ++ rest)),
        hscanv (List.replicate w1.length ' ' ++ out) st q ev cv uk rc mpd
          (w2 ++ rest) hst]
      dsimp only [postVal]
      rw [scan_ws_run w2 hw2w _ st (qf q) false false false false false (cvf cv)
        uk _ mpd rest]
      have hout : (List.replicate w1.length ' ' ++
          (Nv ++ List.replicate w2.length ' ')).reverse ++ out =
          List.replicate w2.length ' ' ++
            (Nv.reverse ++ (List.replicate w1.length ' ' ++ out)) := by
        simp [List.reverse_append, List.append_assoc]
      rw [hout]
      simp only [Bool.false_eq_true, if_false, rcInc]
    case jobj =>
      refine ⟨false, false, cvf, qf, fun h => Bool.noConfusion h, ?_⟩
      intro out st q ev cv uk rc mpd rest hst
      have hCr : (w1 ++ (Cv ++ w2)) ++ rest = w1 ++ (Cv ++ (w2 ++ rest)) := by
        simp [List.append_assoc]
      rw [hCr,
        scan_ws_run w1 hw1w out st q ev false false false false cv uk rc mpd
          (Cv ++ (w2 ++ rest)),
        hscanv (List.replicate w1.length ' ' ++ out) st q ev cv uk rc mpd
          (w2 ++ rest) hst]
      dsimp only [postVal]
      rw [scan_ws_run w2 hw2w _ st (qf q) false false false false false (cvf cv)
        uk _ mpd rest]
      have hout : (List.replicate w1.length ' ' ++
          (Nv ++ List.replicate w2.length ' ')).reverse ++ out =
          List.replicate w2.length ' ' ++
            (Nv.reverse ++ (List.replicate w1.length ' ' ++ out)) := by
        simp [List.reverse_append, List.append_assoc]
      rw [hout]
      simp only [Bool.false_eq_true, if_false, rcInc]
    all_goals (
      first
      | (cases w2 with
         | nil =>
           refine ⟨true, false, cvf, qf,
             fun _ => ⟨rfl, fun cv => by rw [hcvf cv]; exact hpend⟩, ?_⟩
           intro out st q ev cv uk rc mpd rest hst
           have hCr : (w1 ++ (Cv ++ [])) ++ rest = w1 ++ (Cv ++ rest) := by
             simp [List.append_assoc]
           rw [hCr,
             scan_ws_run w1 hw1w out st q ev false false false false cv uk rc
               mpd (Cv ++ rest),
             hscanv (List.replicate w1.length ' ' ++ out) st q ev cv uk rc mpd
               rest hst]
           dsimp only [postVal]
           have hout : (List.replicate w1.length ' ' ++
               (Nv ++ List.replicate (List.length ([] : List Char)) ' ')).reverse
               ++ out = Nv.reverse ++ (List.replicate w1.length ' ' ++ out) := by
             simp [List.reverse_append, List.append_assoc]
           rw [hout]
           simp only [if_true, rcInc, Nat.add_zero, ite_self]
         | cons c2 w2t =>
           have hIL2 : ∀ cv : String, INCOMPLETE_LITERALS (cvf cv) = none :=
             fun cv => by rw [hcvf cv]; exact hpend
           refine ⟨false, false, fun cv => "", qf,
             fun h => Bool.noConfusion h, ?_⟩
           intro out st q ev cv uk rc mpd rest hst
           have hCr : (w1 ++ (Cv ++ (c2 :: w2t))) ++ rest =
               w1 ++ (Cv ++ (c2 :: (w2t ++ rest))) := by
             simp [List.append_assoc]
           rw [hCr,
             scan_ws_run w1 hw1w out st q ev false false false false cv uk rc
               mpd (Cv ++ (c2 :: (w2t ++ rest))),
             hscanv (List.replicate w1.length ' ' ++ out) st q ev cv uk rc mpd
               (c2 :: (w2t ++ rest)) hst]
           dsimp only [postVal]
           rw [scanO_step0 (step_ws_pending c2 (hw2w c2 (by simp)) (hIL2 cv) _
             st (qf q) ev false false false uk rc mpd) (w2t ++ rest),
             scan_ws_run w2t (fun c hc => hw2w c (by simp [hc])) _ st (qf q)
               false false false false false "" uk rc mpd rest]
           have hout : (List.replicate w1.length ' ' ++
               (Nv ++ List.replicate (c2 :: w2t).length ' ')).reverse ++ out =
               List.replicate w2t.length ' ' ++
                 (' ' :: (Nv.reverse ++ (List.replicate w1.length ' ' ++ out))) := by
             simp only [List.reverse_append, List.reverse_replicate,
               List.length_cons, List.replicate_succ']
             simp only [List.append_assoc, List.singleton_append,
               List.reverse_cons, List.nil_append]
             exact cons_space_replicate w2t.length _
           rw [hout]
           simp only [Bool.false_eq_true, if_false, rcInc, Nat.add_zero,
             ite_self]))
lemma headOkE_cons {c : Char} (h : c = ',' ∨ c = '\x7d' ∨ c = ']')
    (t : List Char) : HeadOkE (c :: t) := by
  intro c2 hc2
  rw [List.head?_cons, Option.some.injEq] at hc2
  rw [← hc2]
  exact h

set_option maxHeartbeats 4000000 in
lemma members_step (f : Nat)
    (ihe : ∀ l v r, parseJElement f l = some (v, r) → ElemConcl f l v r)
    (ihm : ∀ l ms r, parseJMembers f l = some (ms, r) → MembersConcl f l ms r) :
    ∀ l ms r, parseJMembers (f+1) l = some (ms, r) →
      MembersConcl (f+1) l ms r := by
  intro l ms r hp
  rw [pjm_eq] at hp
  split at hp
  case h_2 => exact Option.noConfusion hp
  rename_i r1 heq1
  split at hp
  case h_2 => exact Option.noConfusion hp
  rename_i key r2 heq2
  split at hp
  case h_2 => exact Option.noConfusion hp
  rename_i r4 heq3
  split at hp
  case h_2 => exact Option.noConfusion hp
  rename_i v0 r5 heq4
  obtain ⟨w0, hw0w, hw0⟩ := skipJWs_decomp l
  rw [heq1] at hw0
  obtain ⟨hdecK, hrepK, hscanK⟩ :=
    stringBody_facts r1.length r1 key r2 (le_refl _) heq2
  obtain ⟨w3, hw3w, hw3⟩ := skipJWs_decomp r2
  rw [heq3] at hw3
  split at hp
  · -- recursive case: r5 = ',' :: r6
    rename_i r6
    rcases hm : parseJMembers f r6 with _ | ⟨ms2, rr⟩
    · rw [hm] at hp
      exact Option.noConfusion hp
    rw [hm, Option.map_some'] at hp
    simp only [Option.some.injEq, Prod.mk.injEq] at hp
    obtain ⟨hv, hr⟩ := hp
    subst hv
    subst hr
    obtain ⟨Ce, Ne, hdecE, hlenE, ⟨kh, dh, th, hNEh, hdh⟩,
      ⟨ke, dE, tE, hNEr, hdE⟩, hrepE, iv2, b, cvfe, qfe, hcon, hscanE⟩ :=
      ihe r4 v0 (',' :: r6) heq4
    obtain ⟨Cm2, Nm2, hdec2, hlen2, ⟨k2, t2, hshape2⟩, ⟨t3, hrev2⟩, hrep2,
      cvfm2, qfm2, hscan2⟩ := ihm r6 ms2 rr hm
    have hrevN : ((List.replicate w0.length ' ' ++ ('\x22' :: (key ++ ('\x22' ::
        (List.replicate w3.length ' ' ++ (':' :: (Ne ++ (',' :: Nm2)))))))) :
        List Char).reverse =
        Nm2.reverse ++ (',' :: (Ne.reverse ++ (':' ::
          (List.replicate w3.length ' ' ++ ('\x22' :: (key.reverse ++
          ('\x22' :: List.replicate w0.length ' '))))))) := by
      simp [List.reverse_append, List.append_assoc]
    refine ⟨w0 ++ ('\x22' :: (key ++ ('\x22' :: (w3 ++ (':' ::
        (Ce ++ (',' :: Cm2))))))),
      List.replicate w0.length ' ' ++ ('\x22' :: (key ++ ('\x22' ::
        (List.replicate w3.length ' ' ++ (':' :: (Ne ++ (',' :: Nm2))))))),
      ?_, by simp [hlenE, hlen2], ⟨w0.length, _, rfl⟩,
      ⟨t3 ++ (',' :: (Ne.reverse ++ (':' :: (List.replicate w3.length ' ' ++
        ('\x22' :: (key.reverse ++ ('\x22' :: List.replicate w0.length ' '))))))),
        ?_⟩, ?_, ?_⟩
    · rw [hw0, hdecK, hw3, hdecE, hdec2]
      simp [List.append_assoc]
    · rw [hrevN, hrev2]
      simp [List.append_assoc]
    · intro rest2
      rw [pjm_eq]
      have hskip0 : skipJWs ((List.replicate w0.length ' ' ++ ('\x22' ::
          (key ++ ('\x22' :: (List.replicate w3.length ' ' ++ (':' ::
          (Ne ++ (',' :: Nm2)))))))) ++ rest2) =
          '\x22' :: (key ++ ('\x22' :: (List.replicate w3.length ' ' ++
            (':' :: (Ne ++ (',' :: (Nm2 ++ rest2))))))) := by
        rw [show (List.replicate w0.length ' ' ++ ('\x22' :: (key ++ ('\x22' ::
            (List.replicate w3.length ' ' ++ (':' :: (Ne ++ (',' :: Nm2)))))))) ++
            rest2 = List.replicate w0.length ' ' ++ ('\x22' :: (key ++ ('\x22' ::
            (List.replicate w3.length ' ' ++ (':' :: (Ne ++ (',' ::
            (Nm2 ++ rest2)))))))) from by simp [List.append_assoc]]
        exact skipJWs_sat_append _ (replicate_space_jws _) '\x22'
          (fun hj => absurd (jws_toNat hj) (by decide)) _
      rw [hskip0]
      simp only [hrepK (List.replicate w3.length ' ' ++ (':' :: (Ne ++ (',' ::
          (Nm2 ++ rest2))))),
        skipJWs_sat_append _ (replicate_space_jws w3.length) ':'
          (fun hj => absurd (jws_toNat hj) (by decide))
          (Ne ++ (',' :: (Nm2 ++ rest2))),
        hrepE (',' :: (Nm2 ++ rest2)) (headOkE_cons (Or.inl rfl) _),
        hrep2 rest2, Option.map_some']
    · cases iv2 with
      | false =>
        refine ⟨fun cv => cvfm2 (cvfe cv), fun q => qfm2 (qfe '\x22'), ?_⟩
        intro out st q cv uk rc mpd rest
        have hCr : (w0 ++ ('\x22' :: (key ++ ('\x22' :: (w3 ++ (':' ::
            (Ce ++ (',' :: Cm2)))))))) ++ rest =
            w0 ++ ('\x22' :: (key ++ ('\x22' :: (w3 ++ (':' ::
            (Ce ++ (',' :: (Cm2 ++ rest)))))))) := by
          simp [List.append_assoc]
        rw [hCr,
          scan_ws_run w0 hw0w out (ContextType.OBJECT :: st) q false true
            false false false cv uk rc mpd _,
          scanO_step0 (step_quote_open_key _ (ContextType.OBJECT :: st) q cv uk
            rc mpd) _,
          hscanK _ (ContextType.OBJECT :: st) true false cv uk rc mpd _
            (fun _ => rfl),
          scan_ws_run w3 hw3w _ (ContextType.OBJECT :: st) '\x22' false false
            false true true cv uk rc mpd _,
          scanO_step0 (step_colon _ st '\x22' true cv uk rc mpd) _,
          hscanE _ (ContextType.OBJECT :: st) '\x22' true cv uk rc mpd
            (',' :: (Cm2 ++ rest)) (Or.inr ⟨ContextType.OBJECT, st, rfl⟩)]
        have hif : (if ContextType.OBJECT :: st = [] then rc + rcInc v0
            else rc) = rc := if_neg (by simp)
        rw [hif]
        simp only [Bool.false_eq_true, if_false]
        rw [scanO_step0 (step_comma_obj _ st (qfe '\x22') b (cvfe cv) uk rc
          mpd) (Cm2 ++ rest),
          hscan2 _ st (qfe '\x22') (cvfe cv) uk rc mpd rest]
        have hout : ((List.replicate w0.length ' ' ++ ('\x22' :: (key ++
            ('\x22' :: (List.replicate w3.length ' ' ++ (':' ::
            (Ne ++ (',' :: Nm2)))))))) : List Char).reverse ++ out =
            Nm2.reverse ++ (',' :: (Ne.reverse ++ (':' ::
              (List.replicate w3.length ' ' ++ ('\x22' :: (key.reverse ++
              ('\x22' :: (List.replicate w0.length ' ' ++ out)))))))) := by
          rw [hrevN]
          simp [List.append_assoc]
        rw [hout]
      | true =>
        obtain ⟨hb, hILs⟩ := hcon rfl
        subst hb
        refine ⟨fun cv => cvfm2 "", fun q => qfm2 (qfe '\x22'), ?_⟩
        intro out st q cv uk rc mpd rest
        have hCr : (w0 ++ ('\x22' :: (key ++ ('\x22' :: (w3 ++ (':' ::
            (Ce ++ (',' :: Cm2)))))))) ++ rest =
            w0 ++ ('\x22' :: (key ++ ('\x22' :: (w3 ++ (':' ::
            (Ce ++ (',' :: (Cm2 ++ rest)))))))) := by
          simp [List.append_assoc]
        rw [hCr,
          scan_ws_run w0 hw0w out (ContextType.OBJECT :: st) q false true
            false false false cv uk rc mpd _,
          scanO_step0 (step_quote_open_key _ (ContextType.OBJECT :: st) q cv uk
            rc mpd) _,
          hscanK _ (ContextType.OBJECT :: st) true false cv uk rc mpd _
            (fun _ => rfl),
          scan_ws_run w3 hw3w _ (ContextType.OBJECT :: st) '\x22' false false
            false true true cv uk rc mpd _,
          scanO_step0 (step_colon _ st '\x22' true cv uk rc mpd) _,
          hscanE _ (ContextType.OBJECT :: st) '\x22' true cv uk rc mpd
            (',' :: (Cm2 ++ rest)) (Or.inr ⟨ContextType.OBJECT, st, rfl⟩)]
        have hif : (if ContextType.OBJECT :: st = [] then rc + rcInc v0
            else rc) = rc := if_neg (by simp)
        rw [hif]
        simp only [eq_self_iff_true, if_true]
        rw [scanO_step0 (step_comma_obj_pending (hILs cv) _ st (qfe '\x22')
          true uk rc mpd) (Cm2 ++ rest),
          hscan2 _ st (qfe '\x22') "" uk rc mpd rest]
        have hout : ((List.replicate w0.length ' ' ++ ('\x22' :: (key ++
            ('\x22' :: (List.replicate w3.length ' ' ++ (':' ::
            (Ne ++ (',' :: Nm2)))))))) : List Char).reverse ++ out =
            Nm2.reverse ++ (',' :: (Ne.reverse ++ (':' ::
              (List.replicate w3.length ' ' ++ ('\x22' :: (key.reverse ++
              ('\x22' :: (List.replicate w0.length ' ' ++ out)))))))) := by
          rw [hrevN]
          simp [List.append_assoc]
        rw [hout]
  · -- base case: r5 = '\x7d' :: r6
    rename_i r6
    simp only [Option.some.injEq, Prod.mk.injEq] at hp
    obtain ⟨hv, hr⟩ := hp
    subst hv
    subst hr
    obtain ⟨Ce, Ne, hdecE, hlenE, ⟨kh, dh, th, hNEh, hdh⟩,
      ⟨ke, dE, tE, hNEr, hdE⟩, hrepE, iv2, b, cvfe, qfe, hcon, hscanE⟩ :=
      ihe r4 v0 ('\x7d' :: r6) heq4
    have hrevN : ((List.replicate w0.length ' ' ++ ('\x22' :: (key ++ ('\x22' ::
        (List.replicate w3.length ' ' ++ (':' :: (Ne ++ ['\x7d']))))))) :
        List Char).reverse =
        '\x7d' :: (Ne.reverse ++ (':' :: (List.replicate w3.length ' ' ++
          ('\x22' :: (key.reverse ++ ('\x22' :: List.replicate w0.length ' ')))))) := by
      simp [List.reverse_append, List.append_assoc]
    refine ⟨w0 ++ ('\x22' :: (key ++ ('\x22' :: (w3 ++ (':' ::
        (Ce ++ ['\x7d'])))))),
      List.replicate w0.length ' ' ++ ('\x22' :: (key ++ ('\x22' ::
        (List.replicate w3.length ' ' ++ (':' :: (Ne ++ ['\x7d'])))))),
      ?_, by simp [hlenE], ⟨w0.length, _, rfl⟩,
      ⟨Ne.reverse ++ (':' :: (List.replicate w3.length ' ' ++
        ('\x22' :: (key.reverse ++ ('\x22' :: List.replicate w0.length ' '))))),
        hrevN⟩, ?_, ?_⟩
    · rw [hw0, hdecK, hw3, hdecE]
      simp [List.append_assoc]
    · intro rest2
      rw [pjm_eq]
      have hskip0 : skipJWs ((List.replicate w0.length ' ' ++ ('\x22' ::
          (key ++ ('\x22' :: (List.replicate w3.length ' ' ++ (':' ::
          (Ne ++ ['\x7d']))))))) ++ rest2) =
          '\x22' :: (key ++ ('\x22' :: (List.replicate w3.length ' ' ++
            (':' :: (Ne ++ ('\x7d' :: rest2)))))) := by
        rw [show (List.replicate w0.length ' ' ++ ('\x22' :: (key ++ ('\x22' ::
            (List.replicate w3.length ' ' ++ (':' :: (Ne ++ ['\x7d'])))))) ++
            rest2 : List Char) = List.replicate w0.length ' ' ++ ('\x22' ::
            (key ++ ('\x22' :: (List.replicate w3.length ' ' ++ (':' ::
            (Ne ++ ('\x7d' :: rest2))))))) from by simp [List.append_assoc]]
        exact skipJWs_sat_append _ (replicate_space_jws _) '\x22'
          (fun hj => absurd (jws_toNat hj) (by decide)) _
      rw [hskip0]
      simp only [hrepK (List.replicate w3.length ' ' ++ (':' ::
          (Ne ++ ('\x7d' :: rest2)))),
        skipJWs_sat_append _ (replicate_space_jws w3.length) ':'
          (fun hj => absurd (jws_toNat hj) (by decide))
          (Ne ++ ('\x7d' :: rest2)),
        hrepE ('\x7d' :: rest2) (headOkE_cons (Or.inr (Or.inl rfl)) _)]
    · cases iv2 with
      | false =>
        refine ⟨cvfe, fun q => qfe '\x22', ?_⟩
        intro out st q cv uk rc mpd rest
        have hCr : (w0 ++ ('\x22' :: (key ++ ('\x22' :: (w3 ++ (':' ::
            (Ce ++ ['\x7d']))))))) ++ rest =
            w0 ++ ('\x22' :: (key ++ ('\x22' :: (w3 ++ (':' ::
            (Ce ++ ('\x7d' :: rest))))))) := by
          simp [List.append_assoc]
        rw [hCr,
          scan_ws_run w0 hw0w out (ContextType.OBJECT :: st) q false true
            false false false cv uk rc mpd _,
          scanO_step0 (step_quote_open_key _ (ContextType.OBJECT :: st) q cv uk
            rc mpd) _,
          hscanK _ (ContextType.OBJECT :: st) true false cv uk rc mpd _
            (fun _ => rfl),
          scan_ws_run w3 hw3w _ (ContextType.OBJECT :: st) '\x22' false false
            false true true cv uk rc mpd _,
          scanO_step0 (step_colon _ st '\x22' true cv uk rc mpd) _,
          hscanE _ (ContextType.OBJECT :: st) '\x22' true cv uk rc mpd
            ('\x7d' :: rest) (Or.inr ⟨ContextType.OBJECT, st, rfl⟩)]
        have hif : (if ContextType.OBJECT :: st = [] then rc + rcInc v0
            else rc) = rc := if_neg (by simp)
        rw [hif]
        simp only [Bool.false_eq_true, if_false]
        rw [show Ne.reverse ++ (':' :: (List.replicate w3.length ' ' ++
            ('\x22' :: (key.reverse ++ ('\x22' :: (List.replicate w0.length ' '
            ++ out)))))) = List.replicate ke ' ' ++ (dE :: (tE ++ (':' ::
            (List.replicate w3.length ' ' ++ ('\x22' :: (key.reverse ++
            ('\x22' :: (List.replicate w0.length ' ' ++ out)))))))) from by
          rw [hNEr]; simp [List.append_assoc],
          scanO_step0 (step_rbrace ke dE _ hdE.1 hdE.2 st (qfe '\x22') b
            (cvfe cv) uk rc mpd) rest]
        have hout : ((List.replicate w0.length ' ' ++ ('\x22' :: (key ++
            ('\x22' :: (List.replicate w3.length ' ' ++ (':' ::
            (Ne ++ ['\x7d']))))))) : List Char).reverse ++ out =
            '\x7d' :: (List.replicate ke ' ' ++ (dE :: (tE ++ (':' ::
              (List.replicate w3.length ' ' ++ ('\x22' :: (key.reverse ++
              ('\x22' :: (List.replicate w0.length ' ' ++ out))))))))) := by
          rw [hrevN, hNEr]
          simp [List.append_assoc]
        rw [hout]
      | true =>
        obtain ⟨hb, hILs⟩ := hcon rfl
        subst hb
        refine ⟨fun cv => "", fun q => qfe '\x22', ?_⟩
        intro out st q cv uk rc mpd rest
        have hCr : (w0 ++ ('\x22' :: (key ++ ('\x22' :: (w3 ++ (':' ::
            (Ce ++ ['\x7d']))))))) ++ rest =
            w0 ++ ('\x22' :: (key ++ ('\x22' :: (w3 ++ (':' ::
            (Ce ++ ('\x7d' :: rest))))))) := by
          simp [List.append_assoc]
        rw [hCr,
          scan_ws_run w0 hw0w out (ContextType.OBJECT :: st) q false true
            false false false cv uk rc mpd _,
          scanO_step0 (step_quote_open_key _ (ContextType.OBJECT :: st) q cv uk
            rc mpd) _,
          hscanK _ (ContextType.OBJECT :: st) true false cv uk rc mpd _
            (fun _ => rfl),
          scan_ws_run w3 hw3w _ (ContextType.OBJECT :: st) '\x22' false false
            false true true cv uk rc mpd _,
          scanO_step0 (step_colon _ st '\x22' true cv uk rc mpd) _,
          hscanE _ (ContextType.OBJECT :: st) '\x22' true cv uk rc mpd
            ('\x7d' :: rest) (Or.inr ⟨ContextType.OBJECT, st, rfl⟩)]
        have hif : (if ContextType.OBJECT :: st = [] then rc + rcInc v0
            else rc) = rc := if_neg (by simp)
        rw [hif]
        simp only [eq_self_iff_true, if_true]
        rw [show Ne.reverse ++ (':' :: (List.replicate w3.length ' ' ++
            ('\x22' :: (key.reverse ++ ('\x22' :: (List.replicate w0.length ' '
            ++ out)))))) = List.replicate ke ' ' ++ (dE :: (tE ++ (':' ::
            (List.replicate w3.length ' ' ++ ('\x22' :: (key.reverse ++
            ('\x22' :: (List.replicate w0.length ' ' ++ out)))))))) from by
          rw [hNEr]; simp [List.append_assoc],
          scanO_step0 (step_rbrace_pending (hILs cv) ke dE _ hdE.1 hdE.2 st
            (qfe '\x22') true uk rc mpd) rest]
        have hout : ((List.replicate w0.length ' ' ++ ('\x22' :: (key ++
            ('\x22' :: (List.replicate w3.length ' ' ++ (':' ::
            (Ne ++ ['\x7d']))))))) : List Char).reverse ++ out =
            '\x7d' :: (List.replicate ke ' ' ++ (dE :: (tE ++ (':' ::
              (List.replicate w3.length ' ' ++ ('\x22' :: (key.reverse ++
              ('\x22' :: (List.replicate w0.length ' ' ++ out))))))))) := by
          rw [hrevN, hNEr]
          simp [List.append_assoc]
        rw [hout]
  · exact Option.noConfusion hp
set_option maxHeartbeats 4000000 in
lemma items_step (f : Nat)
    (ihe : ∀ l v r, parseJElement f l = some (v, r) → ElemConcl f l v r)
    (ihi : ∀ l xs r, parseJItems f l = some (xs, r) → ItemsConcl f l xs r) :
    ∀ l xs r, parseJItems (f+1) l = some (xs, r) → ItemsConcl (f+1) l xs r := by
  intro l xs r hp
  rw [pji_eq] at hp
  split at hp
  case h_2 => exact Option.noConfusion hp
  rename_i v0 r5 heq4
  split at hp
  · -- recursive case: r5 = ',' :: r6
    rename_i r6
    rcases hm : parseJItems f r6 with _ | ⟨xs2, rr⟩
    · rw [hm] at hp
      exact Option.noConfusion hp
    rw [hm, Option.map_some'] at hp
    simp only [Option.some.injEq, Prod.mk.injEq] at hp
    obtain ⟨hv, hr⟩ := hp
    subst hv
    subst hr
    obtain ⟨Ce, Ne, hdecE, hlenE, ⟨kh, dh, th, hNEh, hdh⟩,
      ⟨ke, dE, tE, hNEr, hdE⟩, hrepE, iv2, b, cvfe, qfe, hcon, hscanE⟩ :=
      ihe l v0 (',' :: r6) heq4
    obtain ⟨Cm2, Nm2, hdec2, hlen2, ⟨k2, d2, t2, hshape2, hd2⟩, ⟨t3, hrev2⟩,
      hrep2, cvfm2, qfm2, hscan2⟩ := ihi r6 xs2 rr hm
    have hrevN : ((Ne ++ (',' :: Nm2)) : List Char).reverse =
        Nm2.reverse ++ (',' :: Ne.reverse) := by
      simp [List.reverse_append]
    refine ⟨Ce ++ (',' :: Cm2), Ne ++ (',' :: Nm2),
      ?_, by simp [hlenE, hlen2], ?_, ⟨t3 ++ (',' :: Ne.reverse), ?_⟩,
      ?_, ?_⟩
    · rw [hdecE, hdec2]
      simp [List.append_assoc]
    · refine ⟨kh, dh, th ++ (',' :: Nm2), ?_, hdh⟩
      rw [hNEh]
      simp
    · rw [hrevN, hrev2]
      simp [List.append_assoc]
    · intro rest2
      rw [pji_eq]
      have hra : (Ne ++ (',' :: Nm2)) ++ rest2 = Ne ++ (',' :: (Nm2 ++ rest2)) := by
        simp [List.append_assoc]
      rw [hra]
      simp only [hrepE (',' :: (Nm2 ++ rest2)) (headOkE_cons (Or.inl rfl) _),
        hrep2 rest2, Option.map_some']
    · cases iv2 with
      | false =>
        refine ⟨fun cv => cvfm2 (cvfe cv), fun q => qfm2 (qfe q), ?_⟩
        intro out st q cv uk rc mpd rest
        have hCr : (Ce ++ (',' :: Cm2)) ++ rest = Ce ++ (',' :: (Cm2 ++ rest)) := by
          simp [List.append_assoc]
        rw [hCr,
          hscanE out (ContextType.ARRAY :: st) q false cv uk rc mpd
            (',' :: (Cm2 ++ rest)) (Or.inr ⟨ContextType.ARRAY, st, rfl⟩)]
        have hif : (if ContextType.ARRAY :: st = [] then rc + rcInc v0
            else rc) = rc := if_neg (by simp)
        rw [hif]
        simp only [Bool.false_eq_true, if_false]
        rw [scanO_step0 (step_comma_arr _ st (qfe q) b (cvfe cv) uk rc mpd)
          (Cm2 ++ rest),
          hscan2 _ st (qfe q) (cvfe cv) uk rc mpd rest]
        have hout : ((Ne ++ (',' :: Nm2)) : List Char).reverse ++ out =
            Nm2.reverse ++ (',' :: (Ne.reverse ++ out)) := by
          rw [hrevN]
          simp [List.append_assoc]
        rw [hout]
      | true =>
        obtain ⟨hb, hILs⟩ := hcon rfl
        subst hb
        refine ⟨fun cv => cvfm2 "", fun q => qfm2 (qfe q), ?_⟩
        intro out st q cv uk rc mpd rest
        have hCr : (Ce ++ (',' :: Cm2)) ++ rest = Ce ++ (',' :: (Cm2 ++ rest)) := by
          simp [List.append_assoc]
        rw [hCr,
          hscanE out (ContextType.ARRAY :: st) q false cv uk rc mpd
            (',' :: (Cm2 ++ rest)) (Or.inr ⟨ContextType.ARRAY, st, rfl⟩)]
        have hif : (if ContextType.ARRAY :: st = [] then rc + rcInc v0
            else rc) = rc := if_neg (by simp)
        rw [hif]
        simp only [eq_self_iff_true, if_true, Bool.false_eq_true, if_false]
        rw [scanO_step0 (step_comma_arr_pending (hILs cv) _ st (qfe q) uk rc
          mpd) (Cm2 ++ rest),
          hscan2 _ st (qfe q) "" uk rc mpd rest]
        have hout : ((Ne ++ (',' :: Nm2)) : List Char).reverse ++ out =
            Nm2.reverse ++ (',' :: (Ne.reverse ++ out)) := by
          rw [hrevN]
          simp [List.append_assoc]
        rw [hout]
  · -- base case: r5 = ']' :: r6
    rename_i r6
    simp only [Option.some.injEq, Prod.mk.injEq] at hp
    obtain ⟨hv, hr⟩ := hp
    subst hv
    subst hr
    obtain ⟨Ce, Ne, hdecE, hlenE, ⟨kh, dh, th, hNEh, hdh⟩,
      ⟨ke, dE, tE, hNEr, hdE⟩, hrepE, iv2, b, cvfe, qfe, hcon, hscanE⟩ :=
      ihe l v0 (']' :: r6) heq4
    have hrevN : ((Ne ++ [']']) : List Char).reverse = ']' :: Ne.reverse := by
      simp
    refine ⟨Ce ++ [']'], Ne ++ [']'],
      ?_, by simp [hlenE], ?_, ⟨Ne.reverse, hrevN⟩, ?_, ?_⟩
    · rw [hdecE]
      simp [List.append_assoc]
    · refine ⟨kh, dh, th ++ [']'], ?_, hdh⟩
      rw [hNEh]
      simp
    · intro rest2
      rw [pji_eq]
      have hra : (Ne ++ [']']) ++ rest2 = Ne ++ (']' :: rest2) := by
        simp [List.append_assoc]
      rw [hra]
      simp only [hrepE (']' :: rest2)
        (headOkE_cons (Or.inr (Or.inr rfl)) _)]
    · cases iv2 with
      | false =>
        refine ⟨cvfe, qfe, ?_⟩
        intro out st q cv uk rc mpd rest
        have hCr : (Ce ++ [']']) ++ rest = Ce ++ (']' :: rest) := by
          simp [List.append_assoc]
        rw [hCr,
          hscanE out (ContextType.ARRAY :: st) q false cv uk rc mpd
            (']' :: rest) (Or.inr ⟨ContextType.ARRAY, st, rfl⟩)]
        have hif : (if ContextType.ARRAY :: st = [] then rc + rcInc v0
            else rc) = rc := if_neg (by simp)
        rw [hif]
        simp only [Bool.false_eq_true, if_false]
        rw [show Ne.reverse ++ out = List.replicate ke ' ' ++ (dE :: (tE ++ out))
            from by rw [hNEr]; simp [List.append_assoc],
          scanO_step0 (step_rbrack ke dE _ hdE.1 hdE.2 st (qfe q) b
            (cvfe cv) uk rc mpd) rest]
        have hout : ((Ne ++ [']']) : List Char).reverse ++ out =
            ']' :: (List.replicate ke ' ' ++ (dE :: (tE ++ out))) := by
          rw [hrevN, hNEr]
          simp [List.append_assoc]
        rw [hout]
      | true =>
        obtain ⟨hb, hILs⟩ := hcon rfl
        subst hb
        refine ⟨fun cv => "", qfe, ?_⟩
        intro out st q cv uk rc mpd rest
        have hCr : (Ce ++ [']']) ++ rest = Ce ++ (']' :: rest) := by
          simp [List.append_assoc]
        rw [hCr,
          hscanE out (ContextType.ARRAY :: st) q false cv uk rc mpd
            (']' :: rest) (Or.inr ⟨ContextType.ARRAY, st, rfl⟩)]
        have hif : (if ContextType.ARRAY :: st = [] then rc + rcInc v0
            else rc) = rc := if_neg (by simp)
        rw [hif]
        simp only [eq_self_iff_true, if_true, Bool.false_eq_true, if_false]
        rw [show Ne.reverse ++ out = List.replicate ke ' ' ++ (dE :: (tE ++ out))
            from by rw [hNEr]; simp [List.append_assoc],
          scanO_step0 (step_rbrack_pending (hILs cv) ke dE _ hdE.1 hdE.2 st
            (qfe q) uk rc mpd) rest]
        have hout : ((Ne ++ [']']) : List Char).reverse ++ out =
            ']' :: (List.replicate ke ' ' ++ (dE :: (tE ++ out))) := by
          rw [hrevN, hNEr]
          simp [List.append_assoc]
        rw [hout]
  · exact Option.noConfusion hp
lemma scanParse : ∀ f : Nat,
    (∀ l v r, parseJValue f l = some (v, r) → ValueConcl f l v r) ∧
    (∀ l ms r, parseJMembers f l = some (ms, r) → MembersConcl f l ms r) ∧
    (∀ l xs r, parseJItems f l = some (xs, r) → ItemsConcl f l xs r) ∧
    (∀ l v r, parseJElement f l = some (v, r) → ElemConcl f l v r) := by
  intro f
  induction f with
  | zero =>
    exact ⟨fun l v r hp => Option.noConfusion hp,
      fun l ms r hp => Option.noConfusion hp,
      fun l xs r hp => Option.noConfusion hp,
      fun l v r hp => Option.noConfusion hp⟩
  | succ f2 ih =>
    obtain ⟨ihv, ihm, ihi, ihe⟩ := ih
    exact ⟨value_step f2 ihm ihi, members_step f2 ihe ihm,
      items_step f2 ihe ihi, elem_step f2 ihv⟩
lemma jws_batchws {c : Char} (h : JWs c) : isWhitespace c.toNat = true := by
  rcases h with rfl | rfl | rfl | rfl <;> decide

lemma jws_not_identChar {c : Char} (h : JWs c) :
    isIdentifierChar c.toNat = false := by
  rcases h with rfl | rfl | rfl | rfl <;> decide

lemma startD_not_batchws {d : Char} (h : startD d) :
    isWhitespace d.toNat = false := by
  have h1 := startD_toNat h
  simp only [isWhitespace, Bool.or_eq_false_iff, beq_eq_false_iff_ne, ne_eq]
  omega

lemma startD_not_trimws {d : Char} (h : startD d) :
    isJsTrimWhitespace d.toNat = false := by
  have h1 := startD_toNat h
  simp only [isJsTrimWhitespace, Bool.or_eq_false_iff, Bool.and_eq_false_iff,
    beq_eq_false_iff_ne, ne_eq, decide_eq_false_iff_not, not_le]
  omega

lemma value_head (f : Nat) (l : List Char) (v : JVal) (r : List Char)
    (hp : parseJValue f l = some (v, r)) :
    ∃ c0 tt, l = c0 :: tt ∧ startD c0 := by
  cases f with
  | zero => exact Option.noConfusion hp
  | succ f2 =>
    unfold parseJValue at hp
    split at hp
    · exact ⟨'\x22', _, rfl, Or.inl rfl⟩
    · exact ⟨'\x7b', _, rfl, Or.inr (Or.inl rfl)⟩
    · exact ⟨'[', _, rfl, Or.inr (Or.inr (Or.inl rfl))⟩
    · exact ⟨'t', _, rfl, Or.inr (Or.inr (Or.inr (Or.inl rfl)))⟩
    · exact ⟨'f', _, rfl, Or.inr (Or.inr (Or.inr (Or.inr (Or.inl rfl))))⟩
    · exact ⟨'n', _, rfl, Or.inr (Or.inr (Or.inr (Or.inr (Or.inr (Or.inl rfl)))))⟩
    · rcases hnum : parseJNumber l with _ | ⟨lex, rr⟩
      · rw [hnum] at hp
        exact Option.noConfusion hp
      obtain ⟨hdec, ⟨c0, t0, hlex, hc0⟩, hrest⟩ :=
        parseJNumber_facts l lex rr hnum
      refine ⟨c0, t0 ++ rr, by rw [hdec, hlex]; rfl, ?_⟩
      rcases hc0 with rfl | hd
      · exact Or.inr (Or.inr (Or.inr (Or.inr (Or.inr (Or.inr (Or.inl rfl))))))
      · exact Or.inr (Or.inr (Or.inr (Or.inr (Or.inr (Or.inr (Or.inr hd))))))

set_option maxHeartbeats 2000000 in
lemma preprocess_facts (f : Nat) (l : List Char) (v : JVal) (r1 : List Char)
    (hp : parseJValue f l = some (v, r1)) :
    ∃ c0 tt, l = c0 :: tt ∧ startD c0 ∧
      (isIdentifierStart c0.toNat = true →
        ∃ lit, l = lit ++ r1 ∧ ∀ c ∈ lit, isIdentifierChar c.toNat = true) ∧
      ∀ c1 tt2, tt = c1 :: tt2 → (c0 = '\x7b' ∨ c0 = '[') → ¬c1 = '\x5c' := by
  cases f with
  | zero => exact Option.noConfusion hp
  | succ f2 =>
    unfold parseJValue at hp
    split at hp
    · -- string
      rename_i r0
      exact ⟨'\x22', r0, rfl, Or.inl rfl, fun hid => absurd hid (by decide),
        fun c1 tt2 htt hbr => absurd hbr (by decide)⟩
    · -- object
      rename_i r0
      refine ⟨'\x7b', r0, rfl, Or.inr (Or.inl rfl),
        fun hid => absurd hid (by decide), ?_⟩
      intro c1 tt2 htt hbr
      by_cases hj : JWs c1
      · intro he
        rw [he] at hj
        exact absurd (jws_toNat hj) (by decide)
      have hskip : skipJWs r0 = c1 :: tt2 := by
        rw [htt]
        exact skipJWs_not_head c1 hj tt2
      split at hp
      · rename_i r2 heq
        rw [hskip] at heq
        injection heq with h1 h2
        rw [h1]
        decide
      · rcases hmm : parseJMembers f2 r0 with _ | ⟨ms, rr⟩
        · rw [hmm] at hp
          exact Option.noConfusion hp
        cases f2 with
        | zero => exact Option.noConfusion hmm
        | succ f3 =>
          rw [pjm_eq] at hmm
          split at hmm
          · rename_i rk heqm
            rw [hskip] at heqm
            injection heqm with h1 h2
            rw [h1]
            decide
          · exact Option.noConfusion hmm
    · -- array
      rename_i r0
      refine ⟨'[', r0, rfl, Or.inr (Or.inr (Or.inl rfl)),
        fun hid => absurd hid (by decide), ?_⟩
      intro c1 tt2 htt hbr
      by_cases hj : JWs c1
      · intro he
        rw [he] at hj
        exact absurd (jws_toNat hj) (by decide)
      have hskip : skipJWs r0 = c1 :: tt2 := by
        rw [htt]
        exact skipJWs_not_head c1 hj tt2
      split at hp
      · rename_i r2 heq
        rw [hskip] at heq
        injection heq with h1 h2
        rw [h1]
        decide
      · rcases hmm : parseJItems f2 r0 with _ | ⟨xs, rr⟩
        · rw [hmm] at hp
          exact Option.noConfusion hp
        cases f2 with
        | zero => exact Option.noConfusion hmm
        | succ f3 =>
          rw [pji_eq] at hmm
          split at hmm
          · rename_i v1 r5 heqE
            cases f3 with
            | zero => exact Option.noConfusion heqE
            | succ f4 =>
              rw [pje_eq] at heqE
              split at heqE
              · rename_i v2 r6 heqV2
                obtain ⟨d0, tl0, hd0eq, hd0⟩ :=
                  value_head f4 (skipJWs r0) v2 r6 heqV2
                rw [hskip] at hd0eq
                injection hd0eq with h1 h2
                rw [h1]
                intro he
                rw [he] at hd0
                exact absurd (startD_toNat hd0) (by decide)
              · exact Option.noConfusion heqE
          · exact Option.noConfusion hmm
    · -- true
      rename_i r0
      simp only [Option.some.injEq, Prod.mk.injEq] at hp
      obtain ⟨hv, hr⟩ := hp
      subst hr
      exact ⟨'t', 'r' :: 'u' :: 'e' :: r0, rfl,
        Or.inr (Or.inr (Or.inr (Or.inl rfl))),
        fun _ => ⟨['t', 'r', 'u', 'e'], rfl, by decide⟩,
        fun c1 tt2 htt hbr => absurd hbr (by decide)⟩
    · -- false
      rename_i r0
      simp only [Option.some.injEq, Prod.mk.injEq] at hp
      obtain ⟨hv, hr⟩ := hp
      subst hr
      exact ⟨'f', 'a' :: 'l' :: 's' :: 'e' :: r0, rfl,
        Or.inr (Or.inr (Or.inr (Or.inr (Or.inl rfl)))),
        fun _ => ⟨['f', 'a', 'l', 's', 'e'], rfl, by decide⟩,
        fun c1 tt2 htt hbr => absurd hbr (by decide)⟩
    · -- null
      rename_i r0
      simp only [Option.some.injEq, Prod.mk.injEq] at hp
      obtain ⟨hv, hr⟩ := hp
      subst hr
      exact ⟨'n', 'u' :: 'l' :: 'l' :: r0, rfl,
        Or.inr (Or.inr (Or.inr (Or.inr (Or.inr (Or.inl rfl))))),
        fun _ => ⟨['n', 'u', 'l', 'l'], rfl, by decide⟩,
        fun c1 tt2 htt hbr => absurd hbr (by decide)⟩
    · -- number
      rcases hnum : parseJNumber l with _ | ⟨lex, rr⟩
      · rw [hnum] at hp
        exact Option.noConfusion hp
      rw [hnum, Option.map_some'] at hp
      simp only [Option.some.injEq, Prod.mk.injEq] at hp
      obtain ⟨hv, hr⟩ := hp
      subst hr
      obtain ⟨hdec, ⟨c0, t0, hlex, hc0⟩, hrest⟩ :=
        parseJNumber_facts l lex rr hnum
      have hni : isIdentifierStart c0.toNat = false := by
        rcases hc0 with rfl | hd
        · decide
        · simp only [isIdentifierStart, Bool.or_eq_false_iff,
            Bool.and_eq_false_iff, beq_eq_false_iff_ne, ne_eq,
            decide_eq_false_iff_not, not_le]
          omega
      refine ⟨c0, t0 ++ rr, by rw [hdec, hlex]; rfl, ?_, ?_, ?_⟩
      · rcases hc0 with rfl | hd
        · exact Or.inr (Or.inr (Or.inr (Or.inr (Or.inr (Or.inr (Or.inl rfl))))))
        · exact Or.inr (Or.inr (Or.inr (Or.inr (Or.inr (Or.inr (Or.inr hd))))))
      · intro hid
        rw [hni] at hid
        exact Bool.noConfusion hid
      · intro c1 tt2 htt hbr
        rcases hc0 with rfl | hd
        · exact absurd hbr (by decide)
        · rcases hbr with rfl | rfl
          · exact absurd hd (by decide)
          · exact absurd hd (by decide)

lemma stripFence_id (l : List Char) (c0 : Char) (tt : List Char)
    (hdropB : l.dropWhile (fun c => isWhitespace c.toNat) = c0 :: tt)
    (hne : ¬c0 = '\x60') : stripFence l = l := by
  unfold stripFence
  dsimp only
  rw [hdropB]
  split
  · rename_i x heq
    injection heq with h1 h2
    exact absurd h1 hne
  · rfl

lemma stripJsonp_id_notIdent (l : List Char) (c0 : Char) (tt : List Char)
    (hdropB : l.dropWhile (fun c => isWhitespace c.toNat) = c0 :: tt)
    (hni : isIdentifierStart c0.toNat = false) : stripJsonp l = l := by
  unfold stripJsonp
  dsimp only
  rw [hdropB]
  dsimp only [List.head?_cons]
  rw [hni]
  simp only [Bool.false_eq_true, if_false]

lemma head?_mem {α : Type} {l : List α} {c : α} (hc : l.head? = some c) :
    c ∈ l := by
  cases l with
  | nil => exact Option.noConfusion hc
  | cons a t =>
    rw [List.head?_cons, Option.some.injEq] at hc
    rw [← hc]
    exact List.mem_cons_self a t

lemma stripJsonp_id_literal (l : List Char) (lit r1 : List Char) (c0 : Char)
    (tt : List Char)
    (hdropB : l.dropWhile (fun c => isWhitespace c.toNat) = c0 :: tt)
    (heq : c0 :: tt = lit ++ r1)
    (hlit : ∀ c ∈ lit, isIdentifierChar c.toNat = true)
    (hr1 : ∀ c ∈ r1, JWs c)
    (hid : isIdentifierStart c0.toNat = true) : stripJsonp l = l := by
  unfold stripJsonp
  dsimp only
  rw [hdropB]
  dsimp only [List.head?_cons]
  rw [hid]
  simp only [eq_self_iff_true, if_true]
  rw [heq, (takeWhile_split (fun c => isIdentifierChar c.toNat) lit r1 hlit
      (fun c hc => jws_not_identChar (hr1 c (head?_mem hc)))).2,
    dropWhile_eq_nil_of_sat _ r1 (fun c hc => jws_batchws (hr1 c hc))]

lemma unescape_id (l : List Char) (c0 : Char) (tt : List Char)
    (hdropB : l.dropWhile (fun c => isWhitespace c.toNat) = c0 :: tt)
    (hsafe : ∀ c1 tt2, tt = c1 :: tt2 →
      ¬((c0 = '\x7b' ∨ c0 = '[') ∧ c1 = '\x5c')) :
    unescapeIfEscapedJson l = l := by
  unfold unescapeIfEscapedJson
  dsimp only
  rw [hdropB]
  cases tt with
  | nil => rfl
  | cons c1 tt2 =>
    have hcond := hsafe c1 tt2 rfl
    dsimp only
    rw [if_neg hcond]
lemma finalizeO_inter (out : List Char) (q : Char) (b iv2 : Bool) (cv : String)
    (hIL : iv2 = true → INCOMPLETE_LITERALS cv = none) (rc mpd : Nat) :
    finalizeO (interS out [] q false false false false b iv2 cv "" rc mpd) =
      some (removeTrailingCommaRev out, rc) := by
  unfold finalizeO
  dsimp only [interS]
  simp only [Bool.false_eq_true, false_and, and_false, if_false, ne_eq,
    false_or, or_false, not_true, not_false_iff, and_true, true_and]
  by_cases hv : iv2 = true ∧ ¬cv = ""
  · rw [if_pos hv, hIL hv.1]
    rfl
  · rw [if_neg hv]
    rfl
set_option maxHeartbeats 4000000 in
/-- C4: for every string `V` that is already valid JSON (`JSON.parse`,
modelled by `parseJson`, succeeds on it), `repairJson V` parses
successfully and to the same value: the batch scan normalizes inter-token
whitespace to single spaces and copies every token verbatim, the
preprocessing pipeline leaves a valid document unchanged, and the
finalize phase appends nothing. -/
theorem repair_preserves_valid_json (V : String) (v : JVal)
    (h : parseJson V = some v) :
    parseJson (repairJson V) = some v ∧ jsonParses (repairJson V) = true := by
  unfold parseJson at h
  split at h
  case h_2 => exact Option.noConfusion h
  rename_i v0 heqE
  injection h with hv
  subst hv
  have hE := (scanParse (4 * V.data.length + 7 + 1)).2.2.2 V.data v0 [] heqE
  obtain ⟨C, N, hdec, hlen, ⟨kH, dH, tH, hNH, hdH⟩, ⟨kE, dE, tE, hNR, hdE⟩,
    hreplay, iv2, b, cvf, qf, hcon, hscan⟩ := hE
  have heqE2 : parseJElement (4 * V.data.length + 7 + 1) V.data =
      some (v0, []) := heqE
  rw [pje_eq] at heqE2
  split at heqE2
  case h_2 => exact Option.noConfusion heqE2
  rename_i v1 r1 heqV
  simp only [Option.some.injEq, Prod.mk.injEq] at heqE2
  obtain ⟨hv1, hr1⟩ := heqE2
  subst hv1
  have hr1w : ∀ c ∈ r1, JWs c := by
    unfold skipJWs at hr1
    intro c hc
    have h2 : c = ' ' ∨ c = '\t' ∨ c = '\n' ∨ c = '\x0d' :=
      of_decide_eq_true (List.dropWhile_eq_nil_iff.mp hr1 c hc)
    exact h2
  obtain ⟨c0, tt, hsk, hc0, hlitcl, hbscl⟩ :=
    preprocess_facts (4 * V.data.length + 7) (skipJWs V.data) v1 r1 heqV
  obtain ⟨w1, hw1w, hw1⟩ := skipJWs_decomp V.data
  rw [hsk] at hw1
  have hdropB : V.data.dropWhile (fun c => isWhitespace c.toNat) = c0 :: tt := by
    rw [hw1]
    exact dropWhile_sat_append _ w1 (fun c hc => jws_batchws (hw1w c hc)) c0
      (startD_not_batchws hc0) tt
  have hpre : preprocessJson V = V := by
    unfold preprocessJson
    rw [stripFence_id V.data c0 tt hdropB
      (fun he => by rw [he] at hc0; exact absurd (startD_toNat hc0) (by decide))]
    have hsj : stripJsonp V.data = V.data := by
      cases hid : isIdentifierStart c0.toNat with
      | false => exact stripJsonp_id_notIdent V.data c0 tt hdropB hid
      | true =>
        obtain ⟨lit, hlite, hlitc⟩ := hlitcl hid
        refine stripJsonp_id_literal V.data lit r1 c0 tt hdropB ?_ hlitc hr1w hid
        rw [← hsk]
        exact hlite
    rw [hsj, unescape_id V.data c0 tt hdropB
      (fun c1 tt2 htt hand => hbscl c1 tt2 htt hand.1 hand.2)]
  have hjt : jsTrimEmpty V.data = false := by
    cases hjt2 : jsTrimEmpty V.data with
    | false => rfl
    | true =>
      unfold jsTrimEmpty at hjt2
      rw [List.all_eq_true] at hjt2
      have hc0mem : c0 ∈ V.data := by
        rw [hw1]
        exact List.mem_append_right w1 (List.mem_cons_self c0 tt)
      have hcw := hjt2 c0 hc0mem
      rw [startD_not_trimws hc0] at hcw
      exact Bool.noConfusion hcw
  have hiniteq : interS [] [] '\x22' false false false false false false
      "" "" 0 0 = initB := rfl
  have h1 := hscan [] [] '\x22' false "" "" 0 0 [] (Or.inl ⟨rfl, rfl⟩)
  rw [← hdec, hiniteq, scanO_nil] at h1
  simp only [List.append_nil, ite_self, eq_self_iff_true, if_true,
    Nat.zero_add] at h1
  have hrcle1 : rcInc v1 ≤ 1 := by
    cases v1
    · exact Nat.zero_le 1
    · exact Nat.zero_le 1
    · exact Nat.zero_le 1
    · exact Nat.zero_le 1
    · exact Nat.zero_le 1
    · exact Nat.le_refl 1
    · exact Nat.le_refl 1
  have hrcle : ¬(1 < rcInc v1) := Nat.not_lt.mpr hrcle1
  have hro : repairJsonO V = some (String.mk N) := by
    unfold repairJsonO
    rw [hjt]
    simp only [Bool.false_eq_true, if_false]
    rw [hpre, h1]
    dsimp only [Option.bind]
    rw [finalizeO_inter N.reverse (qf '\x22') b iv2 (cvf "")
      (fun hiv => (hcon hiv).2 "") (rcInc v1) 0, Option.map_some']
    dsimp only
    rw [show removeTrailingCommaRev N.reverse = N.reverse from by
      rw [hNR]; exact removeTrailingCommaRev_noop kE dE tE hdE.1 hdE.2]
    rw [if_neg hrcle, List.reverse_reverse]
  have hrj : repairJson V = String.mk N := by
    unfold repairJson
    rw [hro]
    rfl
  have hCV : C = V.data := by
    have h2 : V.data = C := by rw [hdec, List.append_nil]
    exact h2.symm
  have hrep := hreplay [] (fun c hc => Option.noConfusion hc)
  rw [List.append_nil] at hrep
  have hfin : parseJson (repairJson V) = some v1 := by
    rw [hrj]
    unfold parseJson
    have hdata : (String.mk N).data = N := rfl
    have hNlen : 4 * (String.mk N).data.length + 8 =
        4 * V.data.length + 7 + 1 := by
      rw [hdata, hlen, hCV]
    rw [hNlen, hdata, hrep]
  exact ⟨hfin, by
    show (parseJson (repairJson V)).isSome = true
    rw [hfin]
    rfl⟩

theorem repair_preserves_valid_json_witness :
    parseJson "[1]" = some (JVal.jarr [JVal.jnum ['1']]) ∧
    parseJson (repairJson "[1]") = some (JVal.jarr [JVal.jnum ['1']]) ∧
    jsonParses (repairJson "[1]") = true :=
  ⟨rfl,
    (repair_preserves_valid_json "[1]" (JVal.jarr [JVal.jnum ['1']]) rfl).1,
    (repair_preserves_valid_json "[1]" (JVal.jarr [JVal.jnum ['1']]) rfl).2⟩
